import Mathlib

/-!
Heist: stage tracker, interaction handler, level reset, snapshot and progress estimator

A shallow embedding of `src/procgen/src/games/heist.cpp` (class `HeistGame`).

Modelling conventions.

* C++ `int` is `Int`.  The counters of this class are bounded by
  `2 * num_keys + 1`, and signed overflow has no defined behaviour in the
  source, so no wrap-around is modelled for them.  The one narrowing
  conversion of the source (`long` to `int` after `std::lround`) is modelled
  with an explicit two's complement wrap to 32 bits.
* C++ `float` is `ℚ` and arithmetic on it is exact.  `pow(x, 2.0f)` is
  `x ^ 2`; `pow(x, 0.5f)` is a parameter `root : ℚ → ℚ` of `observe`,
  because the square root is not a rational function.  The embedding gives
  the value before any rounding to `float`: where an intermediate result is
  not representable in single precision, the compiled code can differ from
  it in the last digits.
* `rand_gen.randn(k)` is outside the sources; `randn raw k` reduces a number
  `raw` of the generator to `[0, k)`.  The methods take the outcomes of the
  draws as a parameter `Draws`; `reset_draws` makes them with the arguments
  that `game_reset` passes to `randn`.
* `std::vector` is `List`.  `operator[]` with an index out of range has no
  defined behaviour in the source; the embedding returns `none` there, and a
  method that reads or writes a vector returns an `Option`.
* Fields inherited from the base classes are carried in the same structure
  when a method of `heist.cpp` reads or writes them.
-/

set_option autoImplicit false

/-! ## Constants (heist.cpp lines 10-15) -/

/-- Line 10: `const float COMPLETION_BONUS = 10.0f`. -/
def COMPLETION_BONUS : ℚ := 10

/-- Line 12: `const int LOCKED_DOOR = 1`. -/
def LOCKED_DOOR : Int := 1

/-- Line 13: `const int KEY = 2`. -/
def KEY : Int := 2

/-- Line 14: `const int EXIT = 9`. -/
def EXIT : Int := 9

/-- Line 15: `const int KEY_ON_RING = 11`. -/
def KEY_ON_RING : Int := 11

/-! ## Data model -/

/-- The fields of an `Entity` that `heist.cpp` reads or writes. -/
structure Entity where
  type : Int
  image_theme : Int
  will_erase : Bool
  deriving DecidableEq

/-- The fields of `step_data` that `heist.cpp` writes. -/
structure StepData where
  done : Bool
  reward : ℚ
  level_complete : Bool
  deriving DecidableEq

/-- The fields of `options` that `heist.cpp` reads or writes. -/
structure GameOptions where
  distribution_mode : Int
  level_options_1 : Int
  level_options_2 : Int
  center_agent : Bool
  deriving DecidableEq

/-- The state of a `HeistGame`: the fields declared on lines 20-36, followed by
the inherited fields that the methods of `heist.cpp` read or write. -/
structure HeistGame where
  world_dim : Int
  num_keys : Int
  has_keys : List Bool
  keys_collected : Int
  num_doors_unlocked : Int
  keys_x : List ℚ
  keys_y : List ℚ
  doors_x : List ℚ
  doors_y : List ℚ
  exit_x : ℚ
  exit_y : ℚ
  current_stage : Int
  total_stages : Int
  last_stage_x : ℚ
  last_stage_y : ℚ
  next_stage_x : ℚ
  next_stage_y : ℚ
  /-- Inherited: `agent->x`. -/
  agent_x : ℚ
  /-- Inherited: `agent->y`. -/
  agent_y : ℚ
  /-- Inherited: `step_data`. -/
  step_data : StepData
  /-- Inherited: `options`. -/
  options : GameOptions
  /-- Inherited: `level_progress`. -/
  level_progress : Int
  /-- Inherited: `level_progress_max`. -/
  level_progress_max : Int
  /-- Inherited: `main_width`. -/
  main_width : Int
  /-- Inherited: `main_height`. -/
  main_height : Int
  /-- Inherited: `action_vx`. -/
  action_vx : ℚ
  /-- Inherited: `action_vy`. -/
  action_vy : ℚ
  /-- Inherited: `action_vrot`. -/
  action_vrot : ℚ
  /-- Inherited: the `int32_t` slot `info_bufs[info_name_to_offset.at("level_progress")]`. -/
  info_level_progress : Int
  /-- Inherited: the `int32_t` slot `info_bufs[info_name_to_offset.at("level_progress_max")]`. -/
  info_level_progress_max : Int
  deriving DecidableEq

/-! ## Vectors -/

/-- The read `v[i]` of a `std::vector` with an `int` index: `none` when the
index is out of range. -/
def vget {α : Type} (v : List α) (i : Int) : Option α :=
  if 0 ≤ i then v[i.toNat]? else none

/-- The write `v[i] = a` of a `std::vector` with an `int` index: `none` when
the index is out of range. -/
def vset {α : Type} (v : List α) (i : Int) (a : α) : Option (List α) :=
  if 0 ≤ i ∧ i.toNat < v.length then some (v.set i.toNat a) else none

namespace HeistGame

/-! ## Stage tracker (lines 328-347) -/

/-- Method `HeistGame::update_stage`, lines 328-347. -/
def update_stage (g : HeistGame) : Option HeistGame :=
  let g := { g with current_stage := g.current_stage + 1 }
  let g := { g with last_stage_x := g.next_stage_x }
  let g := { g with last_stage_y := g.next_stage_y }
  if g.num_doors_unlocked = g.num_keys then
    -- Next stage is the exit
    some { g with next_stage_x := g.exit_x, next_stage_y := g.exit_y }
  else if g.keys_collected = g.num_doors_unlocked then
    -- Next stage is a key
    (vget g.keys_x g.keys_collected).bind fun x =>
    (vget g.keys_y g.keys_collected).bind fun y =>
    some { g with next_stage_x := x, next_stage_y := y }
  else
    -- Next stage is a door
    (vget g.doors_x g.num_doors_unlocked).bind fun x =>
    (vget g.doors_y g.num_doors_unlocked).bind fun y =>
    some { g with next_stage_x := x, next_stage_y := y }

/-! ## Interaction handler (lines 96-116) -/

/-- Modelled from the spec: `BasicAbstractGame::handle_agent_collision`, the
base-class handler called on line 97, is not part of the sources; the spec
says contacts are "delegated to the excluded base collision handling,
unchanged", so it leaves the state as it is. -/
def base_handle_agent_collision (g : HeistGame) (_obj : Entity) : HeistGame := g

/-- Method `HeistGame::handle_agent_collision`, lines 96-116, returning the new state,
the entity `obj` as the handler leaves it, and the number of times the call
executed `update_stage()`. -/
def handle_agent_collision_traced (g : HeistGame) (obj : Entity) :
    Option (HeistGame × Entity × Nat) :=
  let g := base_handle_agent_collision g obj
  if obj.type = EXIT then
    let g := { g with step_data := { g.step_data with done := true } }
    let g := { g with step_data := { g.step_data with reward := COMPLETION_BONUS } }
    let g := { g with step_data := { g.step_data with level_complete := true } }
    some (g, obj, 0)
  else if obj.type = KEY then
    let obj := { obj with will_erase := true }
    (vset g.has_keys obj.image_theme true).bind fun hk =>
    let g := { g with has_keys := hk }
    let g := { g with keys_collected := g.keys_collected + 1 }
    (update_stage g).bind fun g =>
    some (g, obj, 1)
  else if obj.type = LOCKED_DOOR then
    let door_num := obj.image_theme
    (vget g.has_keys door_num).bind fun held =>
    if held then
      let obj := { obj with will_erase := true }
      let g := { g with num_doors_unlocked := g.num_doors_unlocked + 1 }
      (update_stage g).bind fun g =>
      some (g, obj, 1)
    else
      some (g, obj, 0)
  else
    some (g, obj, 0)

/-- Method `HeistGame::handle_agent_collision`, lines 96-116: the new state and the
entity as the handler leaves it. -/
def handle_agent_collision (g : HeistGame) (obj : Entity) : Option (HeistGame × Entity) :=
  (handle_agent_collision_traced g obj).map fun r => (r.1, r.2.1)

/-! ## Level reset (lines 135-258) -/

/-- Constants that `game_reset` uses and that are declared in headers outside
the sources (`mazegen.h`, `object-ids.h`, `game.h`); they are parameters of
the embedding. -/
structure Consts where
  WALL_OBJ : Int
  KEY_OBJ : Int
  DOOR_OBJ : Int
  EXIT_OBJ : Int
  AGENT_OBJ : Int
  MAZE_OFFSET : Int
  MemoryMode : Int
  EasyMode : Int
  HardMode : Int
  deriving DecidableEq

/-- The outcomes of the four calls of `rand_gen.randn` in `game_reset`, in the
order of the calls: line 140 (`randn(max_diff + 1)`), line 147 or 149
(`randn(4)` or `randn(2)`), line 193 and line 194
(`randn(world_dim - maze_dim + 1)`). -/
structure Draws where
  difficulty : Int
  keys_draw : Int
  off_x : Int
  off_y : Int
  deriving DecidableEq

/-- The loop `for (int i = 0; i < n; i++) v.push_back(a)` on a cleared vector
(lines 158-162 and 164-173). -/
def push_back_loop {α : Type} (n : Int) (a : α) : List α :=
  (List.range n.toNat).foldl (fun v _ => v ++ [a]) []

/-- Lines 146-156 of `game_reset`: the key count. -/
def choose_num_keys (c : Consts) (d : Draws) (o : GameOptions) : Int :=
  let difficulty := d.difficulty
  let num_keys := if o.distribution_mode = c.MemoryMode then d.keys_draw
    else difficulty + d.keys_draw
  let num_keys := if num_keys > 3 then 3 else num_keys
  let num_keys := if o.level_options_2 ≠ -1 then o.level_options_2 else num_keys
  num_keys

/-- Lines 138-175 of `game_reset`: counters, key count, vectors and stage
numbers. -/
def reset_level_params (c : Consts) (d : Draws) (g : HeistGame) : HeistGame :=
  let g := { g with keys_collected := 0 }
  let g := { g with num_doors_unlocked := 0 }
  let g := { g with options :=
    { g.options with center_agent := decide (g.options.distribution_mode = c.MemoryMode) } }
  let g := { g with num_keys := choose_num_keys c d g.options }
  let g := { g with has_keys := push_back_loop g.num_keys false }
  let g := { g with
    keys_x := push_back_loop g.num_keys 0
    keys_y := push_back_loop g.num_keys 0
    doors_x := push_back_loop g.num_keys 0
    doors_y := push_back_loop g.num_keys 0 }
  let g := { g with current_stage := 0 }
  let g := { g with total_stages := 2 * g.num_keys + 1 }
  g

/-- Line 178 of `game_reset`: the maze dimension. -/
def maze_dim (d : Draws) (o : GameOptions) : Int :=
  let min_maze_dim := 5
  if o.level_options_1 = -1 then d.difficulty * 2 + min_maze_dim else o.level_options_1

/-- Line 179 of `game_reset`: `main_height / (world_dim * 1.0)`. -/
def maze_scale (g : HeistGame) : ℚ :=
  (g.main_height : ℚ) / ((g.world_dim : ℚ) * 1)

/-- The body of the loop of lines 200-235 for the maze cell `(i, j)`, where
`obj` is `maze_gen->grid.get(i + MAZE_OFFSET, j + MAZE_OFFSET)`: the writes to
the recorded positions (the entities and the world grid belong to the base
class and are not part of this state). -/
def place_cell (c : Consts) (d : Draws) (grid : Int → Int → Int) (g : HeistGame)
    (i j : Int) : Option HeistGame :=
  let x := d.off_x + i
  let y := d.off_y + j
  let obj := grid (i + c.MAZE_OFFSET) (j + c.MAZE_OFFSET)
  let obj_x := ((x : ℚ) + 1 / 2) * maze_scale g
  let obj_y := ((y : ℚ) + 1 / 2) * maze_scale g
  if obj ≥ c.KEY_OBJ then
    let image_theme := obj - c.KEY_OBJ - 1
    (vset g.keys_x image_theme obj_x).bind fun kx =>
    (vset g.keys_y image_theme obj_y).bind fun ky =>
    some { g with keys_x := kx, keys_y := ky }
  else if obj ≥ c.DOOR_OBJ then
    let image_theme := obj - c.DOOR_OBJ - 1
    (vset g.doors_x image_theme obj_x).bind fun dx =>
    (vset g.doors_y image_theme obj_y).bind fun dy =>
    some { g with doors_x := dx, doors_y := dy }
  else if obj = c.EXIT_OBJ then
    some { g with exit_x := obj_x, exit_y := obj_y }
  else if obj = c.AGENT_OBJ then
    some { g with agent_x := obj_x, agent_y := obj_y }
  else
    some g

/-- The nested loop of lines 200-235. -/
def place_cells (c : Consts) (d : Draws) (grid : Int → Int → Int) (dim : Int)
    (g : HeistGame) : Option HeistGame :=
  (List.range dim.toNat).foldlM
    (fun g i => (List.range dim.toNat).foldlM
      (fun g j => place_cell c d grid g (i : Int) (j : Int)) g) g

/-- Lines 249-257 of `game_reset`: the first pair of anchors. -/
def init_anchors (g : HeistGame) : Option HeistGame :=
  let g := { g with last_stage_x := g.agent_x }
  let g := { g with last_stage_y := g.agent_y }
  if g.num_keys = 0 then
    some { g with next_stage_x := g.exit_x, next_stage_y := g.exit_y }
  else
    (vget g.keys_x 0).bind fun x =>
    (vget g.keys_y 0).bind fun y =>
    some { g with next_stage_x := x, next_stage_y := y }

/-- Method `HeistGame::game_reset`, lines 135-258, on the fields of this state.
The maze written by `maze_gen->generate_maze_with_doors(num_keys)` is the
parameter `grid`.  The argument `g` is the state after the call of
`BasicAbstractGame::game_reset()` on line 136; that call, the entity list and
the world grid belong to the base class and are left out. -/
def game_reset (c : Consts) (d : Draws) (grid : Int → Int → Int) (g : HeistGame) :
    Option HeistGame :=
  let g := reset_level_params c d g
  let dim := maze_dim d g.options
  -- move agent out of the way for maze generation
  let g := { g with agent_x := -1, agent_y := -1 }
  (place_cells c d grid dim g).bind fun g =>
  init_anchors g

/-! ## Snapshot (lines 266-302) -/

/-- Modelled from the spec: the cells of the "binary state-snapshot framework"
(`WriteBuffer` and `ReadBuffer`, declared outside the sources): a buffer is a
sequence of `int` and `float` cells. -/
inductive Cell where
  | int (v : Int)
  | float (v : ℚ)
  deriving DecidableEq

/-- Modelled from the spec: a `WriteBuffer` holds the cells written so far. -/
abbrev WriteBuffer := List Cell

/-- Modelled from the spec: a `ReadBuffer` holds the cells not yet read. -/
abbrev ReadBuffer := List Cell

/-- Modelled from the spec: `WriteBuffer::write_int`. -/
def write_int (b : WriteBuffer) (v : Int) : WriteBuffer := b ++ [Cell.int v]

/-- Modelled from the spec: `WriteBuffer::write_float`. -/
def write_float (b : WriteBuffer) (v : ℚ) : WriteBuffer := b ++ [Cell.float v]

/-- Modelled from the spec: `WriteBuffer::write_vector_float`, the size and
then the elements. -/
def write_vector_float (b : WriteBuffer) (v : List ℚ) : WriteBuffer :=
  v.foldl write_float (write_int b v.length)

/-- Modelled from the spec: `WriteBuffer::write_vector_bool`, the size and
then one `int` per element. -/
def write_vector_bool (b : WriteBuffer) (v : List Bool) : WriteBuffer :=
  v.foldl (fun b x => write_int b (if x then 1 else 0)) (write_int b v.length)

/-- Modelled from the spec: `ReadBuffer::read_int`; `none` when the next cell
is missing or is not an `int`. -/
def read_int (b : ReadBuffer) : Option (Int × ReadBuffer) :=
  match b with
  | Cell.int v :: rest => some (v, rest)
  | _ => none

/-- Modelled from the spec: `ReadBuffer::read_float`; `none` when the next
cell is missing or is not a `float`. -/
def read_float (b : ReadBuffer) : Option (ℚ × ReadBuffer) :=
  match b with
  | Cell.float v :: rest => some (v, rest)
  | _ => none

/-- Reads `n` elements with `rd`, in order. -/
def read_n {α : Type} (rd : ReadBuffer → Option (α × ReadBuffer)) :
    Nat → ReadBuffer → Option (List α × ReadBuffer)
  | 0, b => some ([], b)
  | n + 1, b =>
    (rd b).bind fun r =>
    (read_n rd n r.2).bind fun rs =>
    some (r.1 :: rs.1, rs.2)

/-- Modelled from the spec: `ReadBuffer::read_vector_float`. -/
def read_vector_float (b : ReadBuffer) : Option (List ℚ × ReadBuffer) :=
  (read_int b).bind fun n =>
  if 0 ≤ n.1 then read_n read_float n.1.toNat n.2 else none

/-- Modelled from the spec: `ReadBuffer::read_vector_bool`. -/
def read_vector_bool (b : ReadBuffer) : Option (List Bool × ReadBuffer) :=
  (read_int b).bind fun n =>
  if 0 ≤ n.1 then
    read_n (fun b => (read_int b).map fun r => (decide (r.1 ≠ 0), r.2)) n.1.toNat n.2
  else none

/-- Method `HeistGame::serialize`, lines 266-283.  `base_cells g` is what
`BasicAbstractGame::serialize` (line 267, outside the sources) appends. -/
def serialize (base_cells : HeistGame → List Cell) (g : HeistGame) (b : WriteBuffer) :
    WriteBuffer :=
  let b := b ++ base_cells g
  let b := write_int b g.num_keys
  let b := write_int b g.world_dim
  let b := write_vector_bool b g.has_keys
  let b := write_vector_float b g.keys_x
  let b := write_vector_float b g.keys_y
  let b := write_vector_float b g.doors_x
  let b := write_vector_float b g.doors_y
  let b := write_float b g.exit_x
  let b := write_float b g.exit_y
  let b := write_int b g.current_stage
  let b := write_int b g.total_stages
  let b := write_float b g.last_stage_x
  let b := write_float b g.last_stage_y
  let b := write_float b g.next_stage_x
  let b := write_float b g.next_stage_y
  b

/-- Method `HeistGame::deserialize`, lines 285-302.  `base_read` is
`BasicAbstractGame::deserialize` (line 286, outside the sources). -/
def deserialize (base_read : HeistGame → ReadBuffer → Option (HeistGame × ReadBuffer))
    (g : HeistGame) (b : ReadBuffer) : Option (HeistGame × ReadBuffer) :=
  match base_read g b with
  | none => none
  | some (g, b) =>
  match read_int b with
  | none => none
  | some (v, b) =>
  let g := { g with num_keys := v }
  match read_int b with
  | none => none
  | some (v, b) =>
  let g := { g with world_dim := v }
  match read_vector_bool b with
  | none => none
  | some (v, b) =>
  let g := { g with has_keys := v }
  match read_vector_float b with
  | none => none
  | some (v, b) =>
  let g := { g with keys_x := v }
  match read_vector_float b with
  | none => none
  | some (v, b) =>
  let g := { g with keys_y := v }
  match read_vector_float b with
  | none => none
  | some (v, b) =>
  let g := { g with doors_x := v }
  match read_vector_float b with
  | none => none
  | some (v, b) =>
  let g := { g with doors_y := v }
  match read_float b with
  | none => none
  | some (v, b) =>
  let g := { g with exit_x := v }
  match read_float b with
  | none => none
  | some (v, b) =>
  let g := { g with exit_y := v }
  match read_int b with
  | none => none
  | some (v, b) =>
  let g := { g with current_stage := v }
  match read_int b with
  | none => none
  | some (v, b) =>
  let g := { g with total_stages := v }
  match read_float b with
  | none => none
  | some (v, b) =>
  let g := { g with last_stage_x := v }
  match read_float b with
  | none => none
  | some (v, b) =>
  let g := { g with last_stage_y := v }
  match read_float b with
  | none => none
  | some (v, b) =>
  let g := { g with next_stage_x := v }
  match read_float b with
  | none => none
  | some (v, b) =>
  let g := { g with next_stage_y := v }
  some (g, b)

/-! ## The layout of a snapshot -/

/-- The cells of a vector of `float`: the size, then the elements. -/
def vector_float_cells (v : List ℚ) : List Cell :=
  Cell.int v.length :: v.map Cell.float

/-- The cells of a vector of `bool`: the size, then one `int` per element. -/
def vector_bool_cells (v : List Bool) : List Cell :=
  Cell.int v.length :: v.map fun x => Cell.int (if x then 1 else 0)

/-- The cells that `serialize` appends after those of the base class, followed
by `rest`. -/
def payload (g : HeistGame) (rest : List Cell) : List Cell :=
  Cell.int g.num_keys :: Cell.int g.world_dim ::
    (vector_bool_cells g.has_keys ++ (vector_float_cells g.keys_x ++
      (vector_float_cells g.keys_y ++ (vector_float_cells g.doors_x ++
        (vector_float_cells g.doors_y ++
          (Cell.float g.exit_x :: Cell.float g.exit_y :: Cell.int g.current_stage ::
            Cell.int g.total_stages :: Cell.float g.last_stage_x ::
            Cell.float g.last_stage_y :: Cell.float g.next_stage_x ::
            Cell.float g.next_stage_y :: rest))))))

/-- The base class reads back what it wrote: from a buffer that starts with
the cells `base_cells g`, `base_read` consumes exactly these cells. -/
def base_round_trip (base_cells : HeistGame → List Cell)
    (base_read : HeistGame → ReadBuffer → Option (HeistGame × ReadBuffer)) : Prop :=
  ∀ g target rest, ∃ g1, base_read target (base_cells g ++ rest) = some (g1, rest)

/-! ## Progress estimator (lines 304-317) -/

/-- Function `std::lround`: the nearest integer, halfway cases away from zero. -/
def lround (q : ℚ) : Int :=
  if 0 ≤ q then Int.floor (q + 1 / 2) else -Int.floor (-q + 1 / 2)

/-- The conversion of the `long` that `std::lround` returns to `int`: two's
complement wrap to 32 bits. -/
def to_int32 (z : Int) : Int :=
  (z + 2 ^ 31) % 2 ^ 32 - 2 ^ 31

/-- Line 310: `slope`, from `dist_between_stages`. -/
def slope (dist_between_stages : ℚ) : ℚ :=
  if dist_between_stages = 0 then 1000000 else -1 / dist_between_stages

/-- Lines 307-311 of `observe`: `interp_progress`.  `root` is `pow(·, 0.5f)`. -/
def interp_progress (root : ℚ → ℚ) (g : HeistGame) : Int :=
  let dist_between_stages :=
    root ((g.next_stage_x - g.last_stage_x) ^ 2 + (g.next_stage_y - g.last_stage_y) ^ 2)
  let dist_to_next_stage :=
    root ((g.next_stage_x - g.agent_x) ^ 2 + (g.next_stage_y - g.agent_y) ^ 2)
  let slope := slope dist_between_stages
  to_int32 (lround
    ((slope * dist_to_next_stage + (g.current_stage : ℚ) + 1) / (g.total_stages : ℚ) * 100))

/-- Method `HeistGame::observe`, lines 304-317.  `Game::observe()` (line 305) belongs
to the base class and is left out. -/
def observe (root : ℚ → ℚ) (g : HeistGame) : HeistGame :=
  let interp_progress := interp_progress root g
  let g := { g with level_progress :=
    if interp_progress > g.level_progress then interp_progress else g.level_progress }
  let g := { g with level_progress_max :=
    if g.level_progress > g.level_progress_max then g.level_progress else g.level_progress_max }
  let g := { g with info_level_progress := g.level_progress }
  let g := { g with info_level_progress_max := g.level_progress_max }
  g

/-! ## Blocking, world size and actions (lines 82-87, 118-133, 319-326) -/

/-- Method `HeistGame::is_blocked_ents`, lines 82-87.  `base_is_blocked` is
`BasicAbstractGame::is_blocked_ents` (line 86, outside the sources). -/
def is_blocked_ents (base_is_blocked : Entity → Entity → Bool → Bool) (g : HeistGame)
    (src target : Entity) (is_horizontal : Bool) : Option Bool :=
  if target.type = LOCKED_DOOR then
    (vget g.has_keys target.image_theme).map fun held => !held
  else
    some (base_is_blocked src target is_horizontal)

/-- Method `HeistGame::choose_world_dim`, lines 118-133 (`maxspeed` is not part
of this state). -/
def choose_world_dim (c : Consts) (g : HeistGame) : HeistGame :=
  let dist_diff := g.options.distribution_mode
  let g :=
    if dist_diff = c.EasyMode then { g with world_dim := 9 }
    else if dist_diff = c.HardMode then { g with world_dim := 13 }
    else if dist_diff = c.MemoryMode then { g with world_dim := 23 }
    else g
  let g := { g with main_width := g.world_dim }
  let g := { g with main_height := g.world_dim }
  g

/-- Method `HeistGame::set_action_xy`, lines 319-326.  The `/` and `%` of C++
on `int` round toward zero. -/
def set_action_xy (g : HeistGame) (move_action : Int) : HeistGame :=
  -- Reduce agent velocity when either level_options has been specified
  let vel_factor : ℚ :=
    if g.options.level_options_1 = -1 ∧ g.options.level_options_2 = -1 then 1 else 1 / 2
  let g := { g with action_vx := ((Int.tdiv move_action 3 - 1 : Int) : ℚ) * vel_factor }
  let g := { g with action_vy := ((Int.tmod move_action 3 - 1 : Int) : ℚ) * vel_factor }
  let g := { g with action_vrot := 0 }
  g

/-- Line 139 of `game_reset`: `max_diff = (world_dim - min_maze_dim) / 2`. -/
def max_diff (g : HeistGame) : Int :=
  let min_maze_dim := 5
  Int.tdiv (g.world_dim - min_maze_dim) 2

/-- Lines 202-203 of `game_reset`: the world cell of the maze cell `(i, j)`. -/
def world_cell (d : Draws) (i j : Int) : Int × Int :=
  (d.off_x + i, d.off_y + j)

/-- Lines 207-208 of `game_reset`: `(obj_x, obj_y)`, the centre of the world
cell of the maze cell `(i, j)`, for the maze scale `scale`. -/
def cell_centre (d : Draws) (scale : ℚ) (i j : Int) : ℚ × ℚ :=
  ((((world_cell d i j).1 : ℚ) + 1 / 2) * scale, (((world_cell d i j).2 : ℚ) + 1 / 2) * scale)

/-- Modelled from the spec: the outcomes `v` of `rand_gen.randn(k)` (outside
the sources) are the integers in `[0, k)`. -/
def randn_range (k v : Int) : Prop := 0 ≤ v ∧ v < k

/-- Each draw of `game_reset` is in the range of its call of `randn`: line 140
`randn(max_diff + 1)`, line 147 `randn(4)` or line 149 `randn(2)`, lines 193
and 194 `randn(world_dim - maze_dim + 1)`. -/
def draws_in_range (c : Consts) (g : HeistGame) (d : Draws) : Prop :=
  randn_range (max_diff g + 1) d.difficulty ∧
  randn_range (if g.options.distribution_mode = c.MemoryMode then 4 else 2) d.keys_draw ∧
  randn_range (g.world_dim - maze_dim d g.options + 1) d.off_x ∧
  randn_range (g.world_dim - maze_dim d g.options + 1) d.off_y

/-- Modelled from the spec: `rand_gen.randn(k)` (outside the sources) returns
an integer in `[0, k)`.  The number `raw` stands for what the generator
produces for the call; the result is `raw` reduced to the range of the call. -/
def randn (raw : Nat) (k : Int) : Int := (raw : Int) % k

/-- The numbers that the generator produces for the four calls of
`rand_gen.randn` in `game_reset`, in the order of the calls. -/
structure RawDraws where
  raw_difficulty : Nat
  raw_keys : Nat
  raw_off_x : Nat
  raw_off_y : Nat
  deriving DecidableEq

/-- The four calls of `rand_gen.randn` in `game_reset`, each with the argument
that the source passes: line 140 `randn(max_diff + 1)`, line 147 `randn(4)` or
line 149 `randn(2)`, lines 193 and 194 `randn(world_dim - maze_dim + 1)` with
`maze_dim` of line 178. -/
def reset_draws (c : Consts) (r : RawDraws) (g : HeistGame) : Draws :=
  let difficulty := randn r.raw_difficulty (max_diff g + 1)
  let keys_draw :=
    if g.options.distribution_mode = c.MemoryMode then randn r.raw_keys 4
    else randn r.raw_keys 2
  let d : Draws := { difficulty := difficulty, keys_draw := keys_draw, off_x := 0, off_y := 0 }
  let off_x := randn r.raw_off_x (g.world_dim - maze_dim d g.options + 1)
  let off_y := randn r.raw_off_y (g.world_dim - maze_dim d g.options + 1)
  { d with off_x := off_x, off_y := off_y }

/-- Method `HeistGame::game_reset` with its four draws made by `rand_gen`. -/
def game_reset_drawn (c : Consts) (r : RawDraws) (grid : Int → Int → Int) (g : HeistGame) :
    Option HeistGame :=
  game_reset c (reset_draws c r g) grid g

/-- Lines 200-212 of `game_reset`: the world cells `(x, y)` for which the loop
calls `set_obj(x, y, SPACE)`, one for each maze cell that is not a wall (the
world grid itself belongs to the base class). -/
def space_cells (c : Consts) (d : Draws) (grid : Int → Int → Int) (dim : Int) :
    List (Int × Int) :=
  (List.range dim.toNat).flatMap fun (i : Nat) =>
    (List.range dim.toNat).filterMap fun (j : Nat) =>
      if grid ((i : Int) + c.MAZE_OFFSET) ((j : Int) + c.MAZE_OFFSET) ≠ c.WALL_OBJ then
        some (world_cell d (i : Int) (j : Int))
      else none

/-! ## The anchor rule in the words of the specification -/

/-- The recorded position of the key with color index `c`, when there is one. -/
def key_position (g : HeistGame) (c : Int) : Option (ℚ × ℚ) :=
  (vget g.keys_x c).bind fun x => (vget g.keys_y c).bind fun y => some (x, y)

/-- The recorded position of the door with color index `c`, when there is one. -/
def door_position (g : HeistGame) (c : Int) : Option (ℚ × ℚ) :=
  (vget g.doors_x c).bind fun x => (vget g.doors_y c).bind fun y => some (x, y)

/-- The recorded position of the exit. -/
def exit_position (g : HeistGame) : ℚ × ℚ := (g.exit_x, g.exit_y)

/-- The last anchor. -/
def last_anchor (g : HeistGame) : ℚ × ℚ := (g.last_stage_x, g.last_stage_y)

/-- The next anchor. -/
def next_anchor (g : HeistGame) : ℚ × ℚ := (g.next_stage_x, g.next_stage_y)

/-- The rule of the specification for the next anchor, evaluated in order:
the exit when `doors_unlocked == key_count`, else the key with color index
`keys_collected` when `keys_collected == doors_unlocked`, else the door with
color index `doors_unlocked`. -/
def next_anchor_rule (g : HeistGame) : Option (ℚ × ℚ) :=
  if g.num_doors_unlocked = g.num_keys then some (exit_position g)
  else if g.keys_collected = g.num_doors_unlocked then key_position g g.keys_collected
  else door_position g g.num_doors_unlocked

/-! ## Contact events

The collision subsystem of the base class delivers contacts to
`handle_agent_collision`.  A world is the game state together with the entity
list; an event names the entity the agent touches. -/

/-- The game state, the entities of the level, and the number of calls of
`update_stage()` executed so far. -/
structure World where
  game : HeistGame
  entities : List Entity
  update_stage_calls : Nat
  deriving DecidableEq

/-- The agent touches entity number `i`.  `none` when there is no such entity,
when it is already marked for erasure (such an entity is not contacted
again), or when the handler reads a vector out of range. -/
def contact (w : World) (i : Nat) : Option World :=
  match w.entities[i]? with
  | none => none
  | some e =>
    if e.will_erase then none
    else
      match handle_agent_collision_traced w.game e with
      | none => none
      | some (g, e1, k) => some ⟨g, w.entities.set i e1, w.update_stage_calls + k⟩

/-- A sequence of contact events, first event first. -/
def run_contacts (w : World) : List Nat → Option World
  | [] => some w
  | i :: es =>
    match contact w i with
    | none => none
    | some w1 => run_contacts w1 es

/-- The color indices `0, ..., n - 1`. -/
def colors (n : Nat) : List Int := (List.range n).map Int.ofNat

/-- The colors of the key entities, in list order. -/
def key_themes (ents : List Entity) : List Int :=
  ents.filterMap fun e => if e.type = KEY then some e.image_theme else none

/-- The colors of the door entities, in list order. -/
def door_themes (ents : List Entity) : List Int :=
  ents.filterMap fun e => if e.type = LOCKED_DOOR then some e.image_theme else none

/-- Each color in `[0, n)` has exactly one key entity and one door entity, and
no key or door has another color. -/
def one_key_and_door_per_color (n : Nat) (ents : List Entity) : Prop :=
  (key_themes ents).Perm (colors n) ∧ (door_themes ents).Perm (colors n)

/-- A key entity that is not marked for erasure. -/
def unerased_key (e : Entity) : Bool :=
  decide (e.type = KEY) && !e.will_erase

/-- A door entity that is not marked for erasure. -/
def unerased_door (e : Entity) : Bool :=
  decide (e.type = LOCKED_DOOR) && !e.will_erase

/-- A door entity that is not marked for erasure and whose key is held. -/
def openable_door (has_keys : List Bool) (e : Entity) : Bool :=
  unerased_door e && decide (vget has_keys e.image_theme = some true)

/-! ## The nesting order of the maze -/

/-- A sequence of contacts given by the entities touched, first contact first;
the entity as the handler leaves it is dropped. -/
def run_handler (g : HeistGame) : List Entity → Option HeistGame
  | [] => some g
  | e :: es =>
    match handle_agent_collision g e with
    | none => none
    | some r => run_handler r.1 es

/-- The key entity of color `i`, not marked for erasure. -/
def key_entity (i : Nat) : Entity :=
  { type := KEY, image_theme := i, will_erase := false }

/-- The door entity of color `i`, not marked for erasure. -/
def door_entity (i : Nat) : Entity :=
  { type := LOCKED_DOOR, image_theme := i, will_erase := false }

/-- The contacts in nesting order: key 0, door 0, ..., key `n - 1`, door `n - 1`. -/
def nesting_events (n : Nat) : List Entity :=
  (List.range n).flatMap fun i => [key_entity i, door_entity i]

/-- The positions key 0, door 0, ..., key `n - 1`, door `n - 1` recorded in `g`. -/
def chain_pairs (g : HeistGame) (n : Nat) : List (Option (ℚ × ℚ)) :=
  (List.range n).flatMap fun i => [key_position g i, door_position g i]

/-- The chain of positions of the specification: agent start, key 0, door 0,
..., key `n - 1`, door `n - 1`, exit, read from the state `g`. -/
def chain (g : HeistGame) (n : Nat) : List (Option (ℚ × ℚ)) :=
  some (g.agent_x, g.agent_y) :: (chain_pairs g n ++ [some (exit_position g)])

/-! ## Simulation steps

The stepping loop belongs to the base class.  For the progress estimator a
step is: the agent moves, the collision subsystem delivers the contacts of the
step to `handle_agent_collision`, then `observe` runs. -/

/-- What a step does to this state: where the agent ends, and the entities it
touches. -/
structure StepInput where
  agent_x : ℚ
  agent_y : ℚ
  touched : List Entity

/-- One simulation step. -/
def step (root : ℚ → ℚ) (g : HeistGame) (s : StepInput) : Option HeistGame :=
  let g := { g with agent_x := s.agent_x, agent_y := s.agent_y }
  (run_handler g s.touched).map (observe root)

/-- A sequence of simulation steps, first step first. -/
def run_steps (root : ℚ → ℚ) (g : HeistGame) : List StepInput → Option HeistGame
  | [] => some g
  | s :: ss =>
    match step root g s with
    | none => none
    | some g1 => run_steps root g1 ss

/-! ## Predicates used by the proofs -/

/-- The vectors of recorded positions and the key inventory all have length `n`,
the key count. -/
structure Sized (n : Nat) (g : HeistGame) : Prop where
  num_keys_eq : g.num_keys = n
  has_keys_len : g.has_keys.length = n
  keys_x_len : g.keys_x.length = n
  keys_y_len : g.keys_y.length = n
  doors_x_len : g.doors_x.length = n
  doors_y_len : g.doors_y.length = n

/-- What the contact events keep true: the sizes, one key and one door per
color, and the two counting bounds that give
`num_doors_unlocked ≤ keys_collected ≤ num_keys`. -/
structure ContactInv (n : Nat) (g : HeistGame) (ents : List Entity) : Prop where
  sized : Sized n g
  keys_perm : (key_themes ents).Perm (colors n)
  doors_perm : (door_themes ents).Perm (colors n)
  doors_nonneg : 0 ≤ g.num_doors_unlocked
  keys_bound : g.keys_collected + (ents.countP unerased_key : Int) ≤ n
  doors_bound :
    g.num_doors_unlocked + (ents.countP (openable_door g.has_keys) : Int) ≤ g.keys_collected

/-- The fields that `update_stage` leaves as they are. -/
structure SameLevel (g g1 : HeistGame) : Prop where
  num_keys : g1.num_keys = g.num_keys
  has_keys : g1.has_keys = g.has_keys
  keys_collected : g1.keys_collected = g.keys_collected
  num_doors_unlocked : g1.num_doors_unlocked = g.num_doors_unlocked
  keys_x : g1.keys_x = g.keys_x
  keys_y : g1.keys_y = g.keys_y
  doors_x : g1.doors_x = g.doors_x
  doors_y : g1.doors_y = g.doors_y
  exit_x : g1.exit_x = g.exit_x
  exit_y : g1.exit_y = g.exit_y
  total_stages : g1.total_stages = g.total_stages

/-- What the loop over the maze cells leaves as it is: every field but the
recorded positions, the exit and the agent position, and the lengths of the
position vectors. -/
structure PlaceFrame (g g1 : HeistGame) : Prop where
  num_keys : g1.num_keys = g.num_keys
  has_keys : g1.has_keys = g.has_keys
  keys_collected : g1.keys_collected = g.keys_collected
  num_doors_unlocked : g1.num_doors_unlocked = g.num_doors_unlocked
  current_stage : g1.current_stage = g.current_stage
  total_stages : g1.total_stages = g.total_stages
  keys_x_len : g1.keys_x.length = g.keys_x.length
  keys_y_len : g1.keys_y.length = g.keys_y.length
  doors_x_len : g1.doors_x.length = g.doors_x.length
  doors_y_len : g1.doors_y.length = g.doors_y.length

/-- The state at the start of an episode with `n` keys: counters at zero, no
key held, vectors of length `n`, stage `0` of `2 * n + 1`, the agent position
as last anchor, and key `0` (the exit when `n = 0`) as next anchor. -/
structure ResetShape (n : Nat) (g : HeistGame) : Prop where
  sized : Sized n g
  has_keys : g.has_keys = List.replicate n false
  keys_collected : g.keys_collected = 0
  num_doors_unlocked : g.num_doors_unlocked = 0
  current_stage : g.current_stage = 0
  total_stages : g.total_stages = 2 * g.num_keys + 1
  last : last_anchor g = (g.agent_x, g.agent_y)
  next : some (next_anchor g) = if n = 0 then some (exit_position g) else key_position g 0

/-- The state after the first `m` pairs (key, door) of the nesting order, from
the reset state `g0`. -/
structure NestInv (n m : Nat) (g0 g : HeistGame) : Prop where
  sized : Sized n g
  keys_x : g.keys_x = g0.keys_x
  keys_y : g.keys_y = g0.keys_y
  doors_x : g.doors_x = g0.doors_x
  doors_y : g.doors_y = g0.doors_y
  exit_x : g.exit_x = g0.exit_x
  exit_y : g.exit_y = g0.exit_y
  keys_collected : g.keys_collected = m
  num_doors_unlocked : g.num_doors_unlocked = m
  current_stage : g.current_stage = 2 * (m : Int)
  last : some (last_anchor g) =
    if m = 0 then some (g0.agent_x, g0.agent_y) else door_position g0 ((m : Int) - 1)
  next : some (next_anchor g) = if m = n then some (exit_position g0) else key_position g0 m

/-- The state after the first `m` pairs of the nesting order and key `m`. -/
structure MidInv (n m : Nat) (g0 g : HeistGame) : Prop where
  sized : Sized n g
  keys_x : g.keys_x = g0.keys_x
  keys_y : g.keys_y = g0.keys_y
  doors_x : g.doors_x = g0.doors_x
  doors_y : g.doors_y = g0.doors_y
  exit_x : g.exit_x = g0.exit_x
  exit_y : g.exit_y = g0.exit_y
  held : vget g.has_keys m = some true
  keys_collected : g.keys_collected = (m : Int) + 1
  num_doors_unlocked : g.num_doors_unlocked = m
  current_stage : g.current_stage = 2 * (m : Int) + 1
  last : some (last_anchor g) = key_position g0 m
  next : some (next_anchor g) = door_position g0 m

/-- The bookkeeping of a play: the number of calls of `update_stage()` is the
stage number, which is `keys_collected + num_doors_unlocked`; every key
(door) is either counted by `keys_collected` (`num_doors_unlocked`) or still
in the level. -/
structure CountInv (n : Nat) (w : World) : Prop where
  calls : (w.update_stage_calls : Int) = w.game.current_stage
  stage : w.game.current_stage = w.game.keys_collected + w.game.num_doors_unlocked
  keys : w.game.keys_collected + (w.entities.countP unerased_key : Int) = n
  doors : w.game.num_doors_unlocked + (w.entities.countP unerased_door : Int) = n
  total : w.game.total_stages = 2 * (n : Int) + 1

/-! ## A worked example -/

/-- Values for the constants of the headers, used in the worked examples. -/
def example_consts : Consts :=
  { WALL_OBJ := 51, KEY_OBJ := 2000, DOOR_OBJ := 1000, EXIT_OBJ := 9, AGENT_OBJ := 10,
    MAZE_OFFSET := 1, MemoryMode := 10, EasyMode := 0, HardMode := 1 }

/-- Draws of the worked example: difficulty 1 and one extra key, so two keys
and a maze of dimension 7, placed at offset `(1, 0)` in a world of dimension 9. -/
def example_draws : Draws :=
  { difficulty := 1, keys_draw := 1, off_x := 1, off_y := 0 }

/-- The maze of the worked example: agent start, key 0, door 0, key 1, door 1
and exit; every other cell is a wall. -/
def example_grid (i j : Int) : Int :=
  if i = 1 ∧ j = 1 then 10
  else if i = 3 ∧ j = 1 then 2001
  else if i = 5 ∧ j = 1 then 1001
  else if i = 5 ∧ j = 3 then 2002
  else if i = 5 ∧ j = 5 then 1002
  else if i = 7 ∧ j = 7 then 9
  else 51

/-- A game instance before its first reset, in the small world (dimension 9). -/
def example_start : HeistGame :=
  { world_dim := 9, num_keys := 0, has_keys := [], keys_collected := 0,
    num_doors_unlocked := 0, keys_x := [], keys_y := [], doors_x := [], doors_y := [],
    exit_x := 0, exit_y := 0, current_stage := 0, total_stages := 0,
    last_stage_x := 0, last_stage_y := 0, next_stage_x := 0, next_stage_y := 0,
    agent_x := 0, agent_y := 0,
    step_data := { done := false, reward := 0, level_complete := false },
    options := { distribution_mode := 0, level_options_1 := -1, level_options_2 := -1,
                 center_agent := false },
    level_progress := 0, level_progress_max := 0, main_width := 9, main_height := 9,
    action_vx := 0, action_vy := 0, action_vrot := 0,
    info_level_progress := 0, info_level_progress_max := 0 }

/-- The state that `game_reset` leaves in the worked example. -/
def example_reset : HeistGame :=
  { example_start with
    num_keys := 2, has_keys := [false, false],
    keys_x := [7 / 2, 11 / 2], keys_y := [1 / 2, 5 / 2],
    doors_x := [11 / 2, 11 / 2], doors_y := [1 / 2, 9 / 2],
    exit_x := 15 / 2, exit_y := 13 / 2, total_stages := 5,
    last_stage_x := 3 / 2, last_stage_y := 1 / 2,
    next_stage_x := 7 / 2, next_stage_y := 1 / 2,
    agent_x := 3 / 2, agent_y := 1 / 2 }

/-- The key, door and exit entities of the worked example. -/
def example_entities : List Entity :=
  [ { type := KEY, image_theme := 0, will_erase := false },
    { type := LOCKED_DOOR, image_theme := 0, will_erase := false },
    { type := KEY, image_theme := 1, will_erase := false },
    { type := LOCKED_DOOR, image_theme := 1, will_erase := false },
    { type := EXIT, image_theme := 0, will_erase := false } ]

/-- The worked example after the agent has picked up key 0 and then key 1,
before touching a door. -/
def example_two_keys : World :=
  { game := { example_reset with
      has_keys := [true, true], keys_collected := 2, current_stage := 2,
      last_stage_x := 11 / 2, last_stage_y := 1 / 2,
      next_stage_x := 11 / 2, next_stage_y := 1 / 2 },
    entities :=
      [ { type := KEY, image_theme := 0, will_erase := true },
        { type := LOCKED_DOOR, image_theme := 0, will_erase := false },
        { type := KEY, image_theme := 1, will_erase := true },
        { type := LOCKED_DOOR, image_theme := 1, will_erase := false },
        { type := EXIT, image_theme := 0, will_erase := false } ],
    update_stage_calls := 2 }


/-- The worked example after key 0, door 0, key 1 and door 1, in this order. -/
def example_completed : World :=
  { game := { example_reset with
      has_keys := [true, true], keys_collected := 2, num_doors_unlocked := 2,
      current_stage := 4,
      last_stage_x := 11 / 2, last_stage_y := 9 / 2,
      next_stage_x := 15 / 2, next_stage_y := 13 / 2 },
    entities :=
      [ { type := KEY, image_theme := 0, will_erase := true },
        { type := LOCKED_DOOR, image_theme := 0, will_erase := true },
        { type := KEY, image_theme := 1, will_erase := true },
        { type := LOCKED_DOOR, image_theme := 1, will_erase := true },
        { type := EXIT, image_theme := 0, will_erase := false } ],
    update_stage_calls := 4 }


/-- The worked example after the agent has picked up key 0 only. -/
def example_one_key : World :=
  { game := { example_reset with
      has_keys := [true, false], keys_collected := 1, current_stage := 1,
      last_stage_x := 7 / 2, last_stage_y := 1 / 2,
      next_stage_x := 11 / 2, next_stage_y := 1 / 2 },
    entities :=
      [ { type := KEY, image_theme := 0, will_erase := true },
        { type := LOCKED_DOOR, image_theme := 0, will_erase := false },
        { type := KEY, image_theme := 1, will_erase := false },
        { type := LOCKED_DOOR, image_theme := 1, will_erase := false },
        { type := EXIT, image_theme := 0, will_erase := false } ],
    update_stage_calls := 1 }

/-- A base class that writes no cell. -/
def example_base_cells (_g : HeistGame) : List Cell := []

/-- A base class that reads no cell. -/
def example_base_read (g : HeistGame) (b : ReadBuffer) : Option (HeistGame × ReadBuffer) :=
  some (g, b)

/-- The snapshot of `example_one_key` restored into a freshly reset instance:
the persisted fields come from the snapshot, the two counters keep the values
of the instance. -/
def example_restored : HeistGame :=
  { example_one_key.game with keys_collected := 0, num_doors_unlocked := 0 }

/-- The snapshot of `example_reset` (the start of the level) restored into the
instance of `example_completed`: the persisted fields come from the snapshot,
the two counters keep the values 2 and 2 of the instance. -/
def example_replayed : HeistGame :=
  { example_reset with keys_collected := 2, num_doors_unlocked := 2 }

/-- The state `example_replayed` after the agent has picked up key 0 again. -/
def example_replayed_key : HeistGame :=
  { example_replayed with
    has_keys := [true, false], keys_collected := 3, current_stage := 1,
    last_stage_x := 7 / 2, last_stage_y := 1 / 2,
    next_stage_x := 15 / 2, next_stage_y := 13 / 2 }

/-- Numbers of the generator that give the draws of the worked example. -/
def example_raw : RawDraws :=
  { raw_difficulty := 7, raw_keys := 3, raw_off_x := 4, raw_off_y := 6 }

/-- The worked example with the key-count override set to 5. -/
def example_start_override : HeistGame :=
  { example_start with options := { example_start.options with level_options_2 := 5 } }


/-- A square root for the worked examples, exact on the squares of rationals. -/
def example_root (q : ℚ) : ℚ := Rat.sqrt q

/-- Two steps of the worked example: the agent walks onto key 0 and picks it
up, then walks onto key 1 and picks it up. -/
def example_steps : List StepInput :=
  [ { agent_x := 7 / 2, agent_y := 1 / 2, touched := [key_entity 0] },
    { agent_x := 11 / 2, agent_y := 5 / 2, touched := [key_entity 1] } ]

/-- The worked example in the second step of `example_steps`, after the
contact with key 1 and before `observe`: both anchors are door 0, the agent
stands on the cell of key 1, and the first step has reported progress 20. -/
def example_picked : HeistGame :=
  { example_two_keys.game with
    agent_x := 11 / 2, agent_y := 5 / 2,
    level_progress := 20, level_progress_max := 20,
    info_level_progress := 20, info_level_progress_max := 20 }

/-- The worked example after `example_steps`. -/
def example_observed : HeistGame :=
  { example_picked with
    level_progress := 40000060, level_progress_max := 40000060,
    info_level_progress := 40000060, info_level_progress_max := 40000060 }


end HeistGame

/-! # Theorems -/

/-! ## Vectors and lists -/

theorem vget_natCast {α : Type} (v : List α) (c : Nat) : vget v (c : Int) = v[c]? := by
  simp [vget]

theorem vget_defined {α : Type} (v : List α) (i : Int) (h0 : 0 ≤ i) (h1 : i < v.length) :
    ∃ a, vget v i = some a := by
  obtain ⟨c, rfl⟩ := Int.eq_ofNat_of_zero_le h0
  have hc : c < v.length := by exact_mod_cast h1
  exact ⟨v[c], by simp [vget_natCast, List.getElem?_eq_getElem hc]⟩

theorem vset_defined {α : Type} (v : List α) (i : Int) (a : α) (h0 : 0 ≤ i)
    (h1 : i < v.length) : vset v i a = some (v.set i.toNat a) := by
  obtain ⟨c, rfl⟩ := Int.eq_ofNat_of_zero_le h0
  have hc : c < v.length := by exact_mod_cast h1
  simp [vset, hc]

theorem vset_length {α : Type} {v w : List α} {i : Int} {a : α} (h : vset v i a = some w) :
    w.length = v.length := by
  unfold vset at h
  split at h
  · cases h
    simp
  · cases h

theorem set_same {α : Type} (l : List α) (i : Nat) (e : α) (h : l[i]? = some e) :
    l.set i e = l := by
  induction l generalizing i with
  | nil => rfl
  | cons a t ih =>
    cases i with
    | zero =>
      simp at h
      simp [h]
    | succ j =>
      simp at h
      simp [ih j h]

theorem filterMap_set {α β : Type} (f : α → Option β) (l : List α) (i : Nat) (e e1 : α)
    (h : l[i]? = some e) (hf : f e1 = f e) : (l.set i e1).filterMap f = l.filterMap f := by
  induction l generalizing i with
  | nil => rfl
  | cons a t ih =>
    cases i with
    | zero =>
      simp at h
      subst h
      simp [List.filterMap_cons, hf]
    | succ j =>
      simp at h
      simp [List.filterMap_cons, ih j h]

theorem countP_or_le {α : Type} (p q : α → Bool) (l : List α) :
    l.countP (fun x => p x || q x) ≤ l.countP p + l.countP q := by
  induction l with
  | nil => simp
  | cons a t ih =>
    simp only [List.countP_cons]
    cases p a <;> cases q a <;> simp <;> omega

theorem countP_set_drop {α : Type} (p : α → Bool) (l : List α) (i : Nat) (e e1 : α)
    (h : l[i]? = some e) (he : p e = true) (he1 : p e1 = false) :
    (l.set i e1).countP p + 1 = l.countP p := by
  induction l generalizing i with
  | nil => simp at h
  | cons a t ih =>
    cases i with
    | zero =>
      simp at h
      subst h
      simp [List.countP_cons, he, he1]
    | succ j =>
      simp at h
      have := ih j h
      simp only [List.set_cons_succ, List.countP_cons]
      omega

theorem countP_set_keep {α : Type} (p : α → Bool) (l : List α) (i : Nat) (e e1 : α)
    (h : l[i]? = some e) (he : p e1 = p e) : (l.set i e1).countP p = l.countP p := by
  induction l generalizing i with
  | nil => rfl
  | cons a t ih =>
    cases i with
    | zero =>
      simp at h
      subst h
      simp [List.countP_cons, he]
    | succ j =>
      simp at h
      simp [List.countP_cons, ih j h]

theorem countP_pos_of_getElem {α : Type} (p : α → Bool) (l : List α) (i : Nat) (e : α)
    (h : l[i]? = some e) (he : p e = true) : 0 < l.countP p := by
  rw [List.countP_pos_iff]
  exact ⟨e, List.mem_iff_getElem?.mpr ⟨i, h⟩, he⟩

namespace HeistGame


/-! ## Helper lemmas on the stage tracker -/

theorem update_stage_eq (s : HeistGame) :
    update_stage s = (next_anchor_rule s).map fun p =>
      { s with
        current_stage := s.current_stage + 1
        last_stage_x := s.next_stage_x
        last_stage_y := s.next_stage_y
        next_stage_x := p.1
        next_stage_y := p.2 } := by
  unfold update_stage next_anchor_rule key_position door_position exit_position
  by_cases h1 : s.num_doors_unlocked = s.num_keys
  · simp [h1]
  · by_cases h2 : s.keys_collected = s.num_doors_unlocked
    · simp only [h1, h2, if_false, if_true]
      cases vget s.keys_x s.num_doors_unlocked <;> cases vget s.keys_y s.num_doors_unlocked <;> rfl
    · simp only [h1, h2, if_false]
      cases vget s.doors_x s.num_doors_unlocked <;> cases vget s.doors_y s.num_doors_unlocked <;> rfl

theorem next_anchor_rule_defined (n : Nat) {g : HeistGame} (hs : Sized n g)
    (h0 : 0 ≤ g.num_doors_unlocked) (h1 : g.num_doors_unlocked ≤ g.keys_collected)
    (h2 : g.keys_collected ≤ n) : ∃ p, next_anchor_rule g = some p := by
  unfold next_anchor_rule key_position door_position
  by_cases hd : g.num_doors_unlocked = g.num_keys
  · exact ⟨_, if_pos hd⟩
  · have hlt : g.num_doors_unlocked < n := by
      have := hs.num_keys_eq
      omega
    by_cases hk : g.keys_collected = g.num_doors_unlocked
    · obtain ⟨x, hx⟩ := vget_defined g.keys_x g.keys_collected (by omega)
        (by rw [hs.keys_x_len]; omega)
      obtain ⟨y, hy⟩ := vget_defined g.keys_y g.keys_collected (by omega)
        (by rw [hs.keys_y_len]; omega)
      exact ⟨(x, y), by rw [if_neg hd, if_pos hk, hx, hy]; rfl⟩
    · obtain ⟨x, hx⟩ := vget_defined g.doors_x g.num_doors_unlocked h0
        (by rw [hs.doors_x_len]; omega)
      obtain ⟨y, hy⟩ := vget_defined g.doors_y g.num_doors_unlocked h0
        (by rw [hs.doors_y_len]; omega)
      exact ⟨(x, y), by rw [if_neg hd, if_neg hk, hx, hy]; rfl⟩

theorem update_stage_defined (n : Nat) {g : HeistGame} (hs : Sized n g)
    (h0 : 0 ≤ g.num_doors_unlocked) (h1 : g.num_doors_unlocked ≤ g.keys_collected)
    (h2 : g.keys_collected ≤ n) : ∃ g1, update_stage g = some g1 := by
  obtain ⟨p, hp⟩ := next_anchor_rule_defined n hs h0 h1 h2
  exact ⟨_, by rw [update_stage_eq, hp]; rfl⟩



/-! ## The counters under contact events -/

theorem mem_colors {n : Nat} {x : Int} : x ∈ colors n ↔ 0 ≤ x ∧ x < n := by
  unfold colors
  constructor
  · intro h
    obtain ⟨c, hc, rfl⟩ := List.mem_map.mp h
    have := List.mem_range.mp hc
    exact ⟨Int.ofNat_nonneg c, Int.ofNat_lt.mpr this⟩
  · rintro ⟨h0, h1⟩
    obtain ⟨c, rfl⟩ := Int.eq_ofNat_of_zero_le h0
    exact List.mem_map.mpr ⟨c, List.mem_range.mpr (by exact_mod_cast h1), rfl⟩

theorem colors_nodup (n : Nat) : (colors n).Nodup :=
  (List.nodup_range n).map (fun _ _ h => Int.ofNat.inj h)

theorem colors_length (n : Nat) : (colors n).length = n := by
  simp [colors]

theorem key_theme_mem {ents : List Entity} {i : Nat} {e : Entity} (hi : ents[i]? = some e)
    (hk : e.type = KEY) : e.image_theme ∈ key_themes ents :=
  List.mem_filterMap.mpr ⟨e, List.mem_iff_getElem?.mpr ⟨i, hi⟩, by simp [hk]⟩

theorem door_theme_mem {ents : List Entity} {i : Nat} {e : Entity} (hi : ents[i]? = some e)
    (hk : e.type = LOCKED_DOOR) : e.image_theme ∈ door_themes ents :=
  List.mem_filterMap.mpr ⟨e, List.mem_iff_getElem?.mpr ⟨i, hi⟩, by simp [hk]⟩

theorem unerased_key_le (ents : List Entity) :
    ents.countP unerased_key ≤ (key_themes ents).length := by
  induction ents with
  | nil => simp [key_themes]
  | cons a t ih =>
    unfold key_themes at ih ⊢
    by_cases h : a.type = KEY
    · simp only [List.countP_cons, List.filterMap_cons, h, if_true, List.length_cons]
      split <;> omega
    · simp only [List.countP_cons, List.filterMap_cons, h, if_false, unerased_key]
      simpa using ih

theorem door_color_count_le (ents : List Entity) (c : Int) :
    ents.countP (fun e => decide (e.type = LOCKED_DOOR) && decide (e.image_theme = c)) =
      (door_themes ents).count c := by
  induction ents with
  | nil => simp [door_themes]
  | cons a t ih =>
    unfold door_themes at ih ⊢
    by_cases h : a.type = LOCKED_DOOR
    · by_cases hc : a.image_theme = c
      · simp [List.countP_cons, List.filterMap_cons, h, hc, ih]
      · simp [List.countP_cons, List.filterMap_cons, h, hc, ih, List.count_cons]
    · simp [List.countP_cons, List.filterMap_cons, h, ih]

theorem ContactInv.counters {n : Nat} {g : HeistGame} {ents : List Entity}
    (h : ContactInv n g ents) :
    g.num_doors_unlocked ≤ g.keys_collected ∧ g.keys_collected ≤ g.num_keys := by
  have h1 := h.keys_bound
  have h2 := h.doors_bound
  have h3 := h.sized.num_keys_eq
  omega

theorem bind_defined {α β : Type} {a : Option α} {f : α → Option β} (ha : ∃ x, a = some x)
    (hf : ∀ x, ∃ y, f x = some y) : ∃ y, a.bind f = some y := by
  obtain ⟨x, rfl⟩ := ha
  exact hf x

theorem handler_defined {n : Nat} {g : HeistGame} {ents : List Entity} {i : Nat} {e : Entity}
    (hinv : ContactInv n g ents) (hi : ents[i]? = some e) (he : e.will_erase = false) :
    ∃ r, handle_agent_collision_traced g e = some r := by
  have hs := hinv.sized
  have hkb := hinv.keys_bound
  have hdb := hinv.doors_bound
  have hd0 := hinv.doors_nonneg
  unfold handle_agent_collision_traced base_handle_agent_collision
  by_cases hE : e.type = EXIT
  · exact ⟨_, if_pos hE⟩
  by_cases hK : e.type = KEY
  · obtain ⟨c0, c1⟩ := mem_colors.mp ((hinv.keys_perm.mem_iff).mp (key_theme_mem hi hK))
    have hv := vset_defined g.has_keys e.image_theme true c0 (by rw [hs.has_keys_len]; exact c1)
    have hpos := countP_pos_of_getElem unerased_key ents i e hi (by simp [unerased_key, hK, he])
    simp only [if_neg hE, if_pos hK, hv, Option.some_bind]
    refine bind_defined (update_stage_defined n ⟨hs.num_keys_eq, ?_, hs.keys_x_len,
      hs.keys_y_len, hs.doors_x_len, hs.doors_y_len⟩ hd0 ?_ ?_) (fun _ => ⟨_, rfl⟩)
    · simp [hs.has_keys_len]
    · show g.num_doors_unlocked ≤ g.keys_collected + 1
      omega
    · show g.keys_collected + 1 ≤ n
      omega
  by_cases hD : e.type = LOCKED_DOOR
  · obtain ⟨c0, c1⟩ := mem_colors.mp ((hinv.doors_perm.mem_iff).mp (door_theme_mem hi hD))
    obtain ⟨held, hh⟩ := vget_defined g.has_keys e.image_theme c0
      (by rw [hs.has_keys_len]; exact c1)
    simp only [if_neg hE, if_neg hK, if_pos hD, hh, Option.some_bind]
    cases held with
    | false => exact ⟨_, rfl⟩
    | true =>
      have hpos := countP_pos_of_getElem (openable_door g.has_keys) ents i e hi
        (by simp [openable_door, unerased_door, hD, he, hh])
      rw [if_pos rfl]
      refine bind_defined (update_stage_defined n ⟨hs.num_keys_eq, hs.has_keys_len,
        hs.keys_x_len, hs.keys_y_len, hs.doors_x_len, hs.doors_y_len⟩ ?_ ?_ ?_)
        (fun _ => ⟨_, rfl⟩)
      · show 0 ≤ g.num_doors_unlocked + 1
        omega
      · show g.num_doors_unlocked + 1 ≤ g.keys_collected
        omega
      · show g.keys_collected ≤ n
        omega
  · exact ⟨(g, e, 0), by simp only [if_neg hE, if_neg hK, if_neg hD]⟩



theorem update_stage_frame {g g1 : HeistGame} (h : update_stage g = some g1) :
    SameLevel g g1 ∧ g1.current_stage = g.current_stage + 1 := by
  rw [update_stage_eq] at h
  obtain ⟨p, -, rfl⟩ := Option.map_eq_some'.mp h
  exact ⟨⟨rfl, rfl, rfl, rfl, rfl, rfl, rfl, rfl, rfl, rfl, rfl⟩, rfl⟩

theorem vget_set_true {v : List Bool} {c t : Int} (hc : 0 ≤ c)
    (h : vget (v.set c.toNat true) t = some true) : t = c ∨ vget v t = some true := by
  unfold vget at h ⊢
  by_cases ht : 0 ≤ t
  · rw [if_pos ht] at h
    rw [if_pos ht]
    by_cases hct : c.toNat = t.toNat
    · left
      omega
    · right
      rwa [List.getElem?_set_ne hct] at h
  · rw [if_neg ht] at h
    cases h

theorem openable_after_pickup (hk : List Bool) (c : Int) (hc : 0 ≤ c) (ents : List Entity) :
    ents.countP (openable_door (hk.set c.toNat true)) ≤
      ents.countP (openable_door hk) + (door_themes ents).count c := by
  rw [← door_color_count_le]
  refine le_trans (List.countP_mono_left ?_) (countP_or_le _ _ ents)
  intro x _ hx
  simp only [openable_door, Bool.and_eq_true, decide_eq_true_eq] at hx
  obtain ⟨hu, hv⟩ := hx
  have hd : x.type = LOCKED_DOOR := by
    simp only [unerased_door, Bool.and_eq_true, decide_eq_true_eq] at hu
    exact hu.1
  rcases vget_set_true hc hv with h | h
  · simp [hd, h]
  · simp [openable_door, hu, h]

theorem key_themes_set (ents : List Entity) (i : Nat) (e : Entity) (w : Bool)
    (hi : ents[i]? = some e) :
    key_themes (ents.set i { type := e.type, image_theme := e.image_theme, will_erase := w }) =
      key_themes ents :=
  filterMap_set _ ents i e _ hi rfl

theorem door_themes_set (ents : List Entity) (i : Nat) (e : Entity) (w : Bool)
    (hi : ents[i]? = some e) :
    door_themes (ents.set i { type := e.type, image_theme := e.image_theme, will_erase := w }) =
      door_themes ents :=
  filterMap_set _ ents i e _ hi rfl

theorem handler_preserves {n : Nat} {g : HeistGame} {ents : List Entity} {i : Nat}
    {e : Entity} {g1 : HeistGame} {e1 : Entity} {j : Nat}
    (hinv : ContactInv n g ents) (hi : ents[i]? = some e) (he : e.will_erase = false)
    (h : handle_agent_collision_traced g e = some (g1, e1, j)) :
    ContactInv n g1 (ents.set i e1) := by
  have hs := hinv.sized
  have hkb := hinv.keys_bound
  have hdb := hinv.doors_bound
  have hd0 := hinv.doors_nonneg
  unfold handle_agent_collision_traced base_handle_agent_collision at h
  by_cases hE : e.type = EXIT
  · simp only [if_pos hE, Option.some.injEq, Prod.mk.injEq] at h
    obtain ⟨rfl, rfl, -⟩ := h
    rw [set_same _ _ _ hi]
    exact ⟨⟨hs.num_keys_eq, hs.has_keys_len, hs.keys_x_len, hs.keys_y_len, hs.doors_x_len,
      hs.doors_y_len⟩, hinv.keys_perm, hinv.doors_perm, hd0, hkb, hdb⟩
  by_cases hK : e.type = KEY
  · obtain ⟨c0, c1⟩ := mem_colors.mp ((hinv.keys_perm.mem_iff).mp (key_theme_mem hi hK))
    have hv := vset_defined g.has_keys e.image_theme true c0 (by rw [hs.has_keys_len]; exact c1)
    simp only [if_neg hE, if_pos hK, hv, Option.some_bind] at h
    obtain ⟨g2, hu, hr⟩ := Option.bind_eq_some.mp h
    simp only [Option.some.injEq, Prod.mk.injEq] at hr
    obtain ⟨rfl, rfl, -⟩ := hr
    obtain ⟨hf, -⟩ := update_stage_frame hu
    have hne : KEY ≠ LOCKED_DOOR := by decide
    have hdrop := countP_set_drop unerased_key ents i e
      { type := e.type, image_theme := e.image_theme, will_erase := true } hi
      (by simp [unerased_key, hK, he]) (by simp [unerased_key])
    have hkeep := countP_set_keep (openable_door (g.has_keys.set e.image_theme.toNat true)) ents
      i e { type := e.type, image_theme := e.image_theme, will_erase := true } hi
      (by simp [openable_door, unerased_door, hK, hne])
    have hle := openable_after_pickup g.has_keys e.image_theme c0 ents
    have hone : (door_themes ents).count e.image_theme ≤ 1 :=
      List.nodup_iff_count_le_one.mp ((hinv.doors_perm.nodup_iff).mpr (colors_nodup n)) _
    refine ⟨⟨?_, ?_, ?_, ?_, ?_, ?_⟩, ?_, ?_, ?_, ?_, ?_⟩
    · rw [hf.num_keys]; exact hs.num_keys_eq
    · rw [hf.has_keys]; simp [hs.has_keys_len]
    · rw [hf.keys_x]; exact hs.keys_x_len
    · rw [hf.keys_y]; exact hs.keys_y_len
    · rw [hf.doors_x]; exact hs.doors_x_len
    · rw [hf.doors_y]; exact hs.doors_y_len
    · rw [key_themes_set ents i e true hi]; exact hinv.keys_perm
    · rw [door_themes_set ents i e true hi]; exact hinv.doors_perm
    · rw [hf.num_doors_unlocked]; exact hd0
    · rw [hf.keys_collected]
      show g.keys_collected + 1 + _ ≤ _
      omega
    · rw [hf.keys_collected, hf.num_doors_unlocked, hf.has_keys]
      show g.num_doors_unlocked + ((List.countP
        (openable_door (g.has_keys.set e.image_theme.toNat true)) _ : Nat) : Int) ≤
        g.keys_collected + 1
      rw [hkeep]
      omega
  by_cases hD : e.type = LOCKED_DOOR
  · obtain ⟨c0, c1⟩ := mem_colors.mp ((hinv.doors_perm.mem_iff).mp (door_theme_mem hi hD))
    obtain ⟨held, hh⟩ := vget_defined g.has_keys e.image_theme c0
      (by rw [hs.has_keys_len]; exact c1)
    simp only [if_neg hE, if_neg hK, if_pos hD, hh, Option.some_bind] at h
    cases held with
    | false =>
      simp only [Bool.false_eq_true, if_false, Option.some.injEq, Prod.mk.injEq] at h
      obtain ⟨rfl, rfl, -⟩ := h
      rw [set_same _ _ _ hi]
      exact hinv
    | true =>
      rw [if_pos rfl] at h
      obtain ⟨g2, hu, hr⟩ := Option.bind_eq_some.mp h
      simp only [Option.some.injEq, Prod.mk.injEq] at hr
      obtain ⟨rfl, rfl, -⟩ := hr
      obtain ⟨hf, -⟩ := update_stage_frame hu
      have hne : LOCKED_DOOR ≠ KEY := by decide
      have hkeep := countP_set_keep unerased_key ents i e
        { type := e.type, image_theme := e.image_theme, will_erase := true } hi
        (by simp [unerased_key, hD, hne])
      have hdrop := countP_set_drop (openable_door g.has_keys) ents i e
        { type := e.type, image_theme := e.image_theme, will_erase := true } hi
        (by simp [openable_door, unerased_door, hD, he, hh])
        (by simp [openable_door, unerased_door])
      refine ⟨⟨?_, ?_, ?_, ?_, ?_, ?_⟩, ?_, ?_, ?_, ?_, ?_⟩
      · rw [hf.num_keys]; exact hs.num_keys_eq
      · rw [hf.has_keys]; exact hs.has_keys_len
      · rw [hf.keys_x]; exact hs.keys_x_len
      · rw [hf.keys_y]; exact hs.keys_y_len
      · rw [hf.doors_x]; exact hs.doors_x_len
      · rw [hf.doors_y]; exact hs.doors_y_len
      · rw [key_themes_set ents i e true hi]; exact hinv.keys_perm
      · rw [door_themes_set ents i e true hi]; exact hinv.doors_perm
      · rw [hf.num_doors_unlocked]
        show 0 ≤ g.num_doors_unlocked + 1
        omega
      · rw [hf.keys_collected, hkeep]; exact hkb
      · rw [hf.keys_collected, hf.num_doors_unlocked, hf.has_keys]
        show g.num_doors_unlocked + 1 + ((List.countP (openable_door g.has_keys)
          (ents.set i { type := e.type, image_theme := e.image_theme, will_erase := true }) :
          Nat) : Int) ≤ g.keys_collected
        omega
  · simp only [if_neg hE, if_neg hK, if_neg hD, Option.some.injEq, Prod.mk.injEq] at h
    obtain ⟨rfl, rfl, -⟩ := h
    rw [set_same _ _ _ hi]
    exact hinv



/-! ## The state left by `game_reset` -/

theorem push_back_loop_eq {α : Type} (n : Int) (a : α) :
    push_back_loop n a = List.replicate n.toNat a := by
  unfold push_back_loop
  induction n.toNat with
  | zero => rfl
  | succ k ih =>
    rw [List.range_succ, List.foldl_append, ih]
    simp [List.replicate_succ']

theorem PlaceFrame.refl (g : HeistGame) : PlaceFrame g g :=
  ⟨rfl, rfl, rfl, rfl, rfl, rfl, rfl, rfl, rfl, rfl⟩

theorem PlaceFrame.trans {a b c : HeistGame} (h1 : PlaceFrame a b) (h2 : PlaceFrame b c) :
    PlaceFrame a c :=
  ⟨h2.num_keys.trans h1.num_keys, h2.has_keys.trans h1.has_keys,
    h2.keys_collected.trans h1.keys_collected,
    h2.num_doors_unlocked.trans h1.num_doors_unlocked,
    h2.current_stage.trans h1.current_stage, h2.total_stages.trans h1.total_stages,
    h2.keys_x_len.trans h1.keys_x_len, h2.keys_y_len.trans h1.keys_y_len,
    h2.doors_x_len.trans h1.doors_x_len, h2.doors_y_len.trans h1.doors_y_len⟩

theorem foldlM_frame {σ α : Type} (R : σ → σ → Prop) (hrefl : ∀ s, R s s)
    (htrans : ∀ a b c, R a b → R b c → R a c) (f : σ → α → Option σ)
    (hf : ∀ s a s1, f s a = some s1 → R s s1) (l : List α) (s s1 : σ)
    (h : l.foldlM f s = some s1) : R s s1 := by
  induction l generalizing s with
  | nil =>
    simp only [List.foldlM_nil] at h
    cases h
    exact hrefl _
  | cons a t ih =>
    rw [List.foldlM_cons] at h
    obtain ⟨s2, h2, h3⟩ := Option.bind_eq_some.mp h
    exact htrans _ _ _ (hf _ _ _ h2) (ih s2 h3)

theorem place_cell_frame (c : Consts) (d : Draws) (grid : Int → Int → Int) (g : HeistGame)
    (i j : Int) (g1 : HeistGame) (h : place_cell c d grid g i j = some g1) :
    PlaceFrame g g1 := by
  unfold place_cell at h
  simp only at h
  split at h
  · obtain ⟨kx, hkx, h⟩ := Option.bind_eq_some.mp h
    obtain ⟨ky, hky, h⟩ := Option.bind_eq_some.mp h
    cases h
    exact ⟨rfl, rfl, rfl, rfl, rfl, rfl, vset_length hkx, vset_length hky, rfl, rfl⟩
  · split at h
    · obtain ⟨kx, hkx, h⟩ := Option.bind_eq_some.mp h
      obtain ⟨ky, hky, h⟩ := Option.bind_eq_some.mp h
      cases h
      exact ⟨rfl, rfl, rfl, rfl, rfl, rfl, rfl, rfl, vset_length hkx, vset_length hky⟩
    · split at h
      · cases h
        exact ⟨rfl, rfl, rfl, rfl, rfl, rfl, rfl, rfl, rfl, rfl⟩
      · split at h
        · cases h
          exact ⟨rfl, rfl, rfl, rfl, rfl, rfl, rfl, rfl, rfl, rfl⟩
        · cases h
          exact PlaceFrame.refl g

theorem place_cells_frame (c : Consts) (d : Draws) (grid : Int → Int → Int) (dim : Int)
    (g g1 : HeistGame) (h : place_cells c d grid dim g = some g1) : PlaceFrame g g1 := by
  unfold place_cells at h
  refine foldlM_frame PlaceFrame PlaceFrame.refl (fun _ _ _ => PlaceFrame.trans) _ ?_ _ g g1 h
  intro s i s1 hs
  refine foldlM_frame PlaceFrame PlaceFrame.refl (fun _ _ _ => PlaceFrame.trans) _ ?_ _ s s1 hs
  intro s2 j s3 hs2
  exact place_cell_frame c d grid s2 _ _ s3 hs2

theorem reset_level_params_shape (c : Consts) (d : Draws) (g : HeistGame) :
    (reset_level_params c d g).keys_collected = 0 ∧
    (reset_level_params c d g).num_doors_unlocked = 0 ∧
    (reset_level_params c d g).has_keys =
      List.replicate (reset_level_params c d g).num_keys.toNat false ∧
    (reset_level_params c d g).keys_x.length = (reset_level_params c d g).num_keys.toNat ∧
    (reset_level_params c d g).keys_y.length = (reset_level_params c d g).num_keys.toNat ∧
    (reset_level_params c d g).doors_x.length = (reset_level_params c d g).num_keys.toNat ∧
    (reset_level_params c d g).doors_y.length = (reset_level_params c d g).num_keys.toNat ∧
    (reset_level_params c d g).current_stage = 0 ∧
    (reset_level_params c d g).total_stages = 2 * (reset_level_params c d g).num_keys + 1 := by
  simp [reset_level_params, push_back_loop_eq]

theorem game_reset_shape (c : Consts) (d : Draws) (grid : Int → Int → Int) (g g0 : HeistGame)
    (n : Nat) (h : game_reset c d grid g = some g0) (hn : g0.num_keys = n) :
    ResetShape n g0 := by
  unfold game_reset at h
  obtain ⟨g1, hp, ha⟩ := Option.bind_eq_some.mp h
  have hf := place_cells_frame _ _ _ _ _ _ hp
  obtain ⟨r1, r2, r3, r4, r5, r6, r7, r8, r9⟩ := reset_level_params_shape c d g
  have e1 : g1.num_keys = (reset_level_params c d g).num_keys := hf.num_keys
  have e2 : g1.has_keys = _ := hf.has_keys.trans r3
  have e3 : g1.keys_collected = 0 := hf.keys_collected.trans r1
  have e4 : g1.num_doors_unlocked = 0 := hf.num_doors_unlocked.trans r2
  have e5 : g1.current_stage = 0 := hf.current_stage.trans r8
  have e6 : g1.total_stages = _ := hf.total_stages.trans r9
  have e7 : g1.keys_x.length = _ := hf.keys_x_len.trans r4
  have e8 : g1.keys_y.length = _ := hf.keys_y_len.trans r5
  have e9 : g1.doors_x.length = _ := hf.doors_x_len.trans r6
  have e10 : g1.doors_y.length = _ := hf.doors_y_len.trans r7
  unfold init_anchors at ha
  simp only at ha
  have hnk : g1.num_keys = n := by
    split at ha
    · cases ha
      exact hn
    · obtain ⟨x, -, ha⟩ := Option.bind_eq_some.mp ha
      obtain ⟨y, -, ha⟩ := Option.bind_eq_some.mp ha
      cases ha
      exact hn
  have hlen : (reset_level_params c d g).num_keys.toNat = n := by
    rw [← e1, hnk]
    simp
  rw [hlen] at e2 e7 e8 e9 e10
  by_cases h0 : g1.num_keys = 0
  · rw [if_pos h0] at ha
    cases ha
    have hn0 : n = 0 := by
      have : (n : Int) = 0 := by rw [← hnk, h0]
      exact_mod_cast this
    refine ⟨⟨hnk, ?_, e7, e8, e9, e10⟩, e2, e3, e4, e5, ?_, rfl, ?_⟩
    · rw [e2]; simp
    · show g1.total_stages = 2 * g1.num_keys + 1
      rw [e6, e1]
    · rw [if_pos hn0]
      rfl
  · rw [if_neg h0] at ha
    obtain ⟨x, hx, ha⟩ := Option.bind_eq_some.mp ha
    obtain ⟨y, hy, ha⟩ := Option.bind_eq_some.mp ha
    cases ha
    have hn0 : n ≠ 0 := by
      intro hz
      apply h0
      rw [hnk, hz]
      rfl
    refine ⟨⟨hnk, ?_, e7, e8, e9, e10⟩, e2, e3, e4, e5, ?_, rfl, ?_⟩
    · rw [e2]; simp
    · show g1.total_stages = 2 * g1.num_keys + 1
      rw [e6, e1]
    · rw [if_neg hn0]
      show _ = ((vget g1.keys_x 0).bind fun x => (vget g1.keys_y 0).bind fun y => some (x, y))
      change vget g1.keys_x 0 = some x at hx
      change vget g1.keys_y 0 = some y at hy
      rw [hx, hy]
      rfl

/-! ## The worked example -/

set_option maxRecDepth 100000 in
theorem example_game_reset :
    game_reset example_consts example_draws example_grid example_start = some example_reset := by
  decide!

/-! ## C1: the contract of `update_stage` -/

/-- C1: on every state, `update_stage` increases `current_stage` by exactly 1,
moves the next anchor into the last anchor, sets the next anchor by the first
matching rule (exit, key number `keys_collected`, door number
`num_doors_unlocked`) and changes no other field; it reads out of range exactly
when the position chosen by the rule is not recorded. -/
theorem update_stage_contract (s : HeistGame) :
    update_stage s = (next_anchor_rule s).map fun p =>
      { s with
        current_stage := s.current_stage + 1
        last_stage_x := s.next_stage_x
        last_stage_y := s.next_stage_y
        next_stage_x := p.1
        next_stage_y := p.2 } := by
  unfold update_stage next_anchor_rule key_position door_position exit_position
  by_cases h1 : s.num_doors_unlocked = s.num_keys
  · simp [h1]
  · by_cases h2 : s.keys_collected = s.num_doors_unlocked
    · simp only [h1, h2, if_false, if_true]
      cases vget s.keys_x s.num_doors_unlocked <;> cases vget s.keys_y s.num_doors_unlocked <;> rfl
    · simp only [h1, h2, if_false]
      cases vget s.doors_x s.num_doors_unlocked <;> cases vget s.doors_y s.num_doors_unlocked <;> rfl


theorem vget_replicate_false (n : Nat) (t : Int) :
    vget (List.replicate n false) t ≠ some true := by
  unfold vget
  split
  · rw [List.getElem?_replicate]
    split <;> simp
  · simp

theorem contact_inv_init {n : Nat} {g : HeistGame} {ents : List Entity}
    (hr : ResetShape n g) (he : one_key_and_door_per_color n ents) : ContactInv n g ents := by
  have hlen : (key_themes ents).length = n := by
    rw [he.1.length_eq, colors_length]
  have hle := unerased_key_le ents
  have hzero : ents.countP (openable_door g.has_keys) = 0 := by
    rw [List.countP_eq_zero]
    intro x _
    rw [hr.has_keys]
    simp [openable_door, vget_replicate_false]
  refine ⟨hr.sized, he.1, he.2, ?_, ?_, ?_⟩
  · rw [hr.num_doors_unlocked]
  · rw [hr.keys_collected]
    omega
  · rw [hr.num_doors_unlocked, hr.keys_collected, hzero]
    simp

theorem contact_defined {n : Nat} {w : World} {i : Nat} {e : Entity}
    (hinv : ContactInv n w.game w.entities) (hi : w.entities[i]? = some e)
    (he : e.will_erase = false) : ∃ w1, contact w i = some w1 := by
  obtain ⟨r, hr⟩ := handler_defined hinv hi he
  unfold contact
  rw [hi]
  simp only [he, Bool.false_eq_true, if_false, hr]
  exact ⟨_, rfl⟩

theorem contact_preserves {n : Nat} {w w1 : World} {i : Nat}
    (hinv : ContactInv n w.game w.entities) (h : contact w i = some w1) :
    ContactInv n w1.game w1.entities := by
  unfold contact at h
  cases hi : w.entities[i]? with
  | none =>
    rw [hi] at h
    cases h
  | some e =>
    rw [hi] at h
    simp only at h
    cases he : e.will_erase with
    | true =>
      rw [he] at h
      simp at h
    | false =>
      rw [he] at h
      simp only [Bool.false_eq_true, if_false] at h
      cases hr : handle_agent_collision_traced w.game e with
      | none =>
        rw [hr] at h
        cases h
      | some r =>
        obtain ⟨g1, e1, j⟩ := r
        rw [hr] at h
        simp only [Option.some.injEq] at h
        subst h
        exact handler_preserves hinv hi he hr

theorem run_contacts_preserves {n : Nat} (es : List Nat) (w w1 : World)
    (hinv : ContactInv n w.game w.entities) (h : run_contacts w es = some w1) :
    ContactInv n w1.game w1.entities := by
  induction es generalizing w with
  | nil =>
    simp only [run_contacts, Option.some.injEq] at h
    subst h
    exact hinv
  | cons i t ih =>
    unfold run_contacts at h
    cases hc : contact w i with
    | none =>
      rw [hc] at h
      cases h
    | some w2 =>
      rw [hc] at h
      exact ih w2 (contact_preserves hinv hc) h

/-! ## C2: the counters stay ordered -/

/-- C2: from the state left by `game_reset` with key count `n`, with one key
entity and one door entity for each color in `[0, n)`, every sequence of
contact events that never touches an entity marked for erasure ends in a state
with `num_doors_unlocked ≤ keys_collected ≤ num_keys`; and from that state the
contact with any entity not marked for erasure is defined, so the sequence can
always be continued. -/
theorem counters_ordered_after_every_contact (c : Consts) (d : Draws)
    (grid : Int → Int → Int) (g g0 : HeistGame) (n : Nat) (ents : List Entity)
    (hreset : game_reset c d grid g = some g0) (hn : g0.num_keys = n)
    (hents : one_key_and_door_per_color n ents) (es : List Nat) (w : World)
    (hrun : run_contacts ⟨g0, ents, 0⟩ es = some w) :
    (w.game.num_doors_unlocked ≤ w.game.keys_collected ∧
      w.game.keys_collected ≤ w.game.num_keys) ∧
    ∀ i e, w.entities[i]? = some e → e.will_erase = false → ∃ w1, contact w i = some w1 := by
  have h0 : ContactInv n g0 ents := contact_inv_init (game_reset_shape c d grid g g0 n hreset hn) hents
  have hw := run_contacts_preserves es ⟨g0, ents, 0⟩ w h0 hrun
  exact ⟨hw.counters, fun i e hi he => contact_defined hw hi he⟩


theorem example_entities_colors : one_key_and_door_per_color 2 example_entities :=
  ⟨List.Perm.refl _, List.Perm.refl _⟩

theorem example_run_two_keys :
    run_contacts ⟨example_reset, example_entities, 0⟩ [0, 2] = some example_two_keys := by
  decide!

/-- C2, on the worked example: two keys, the agent picks up key 0 and key 1. -/
theorem counters_ordered_after_every_contact_witness :
    game_reset example_consts example_draws example_grid example_start = some example_reset ∧
    example_reset.num_keys = (2 : Nat) ∧
    one_key_and_door_per_color 2 example_entities ∧
    run_contacts ⟨example_reset, example_entities, 0⟩ [0, 2] = some example_two_keys ∧
    ((example_two_keys.game.num_doors_unlocked ≤ example_two_keys.game.keys_collected ∧
      example_two_keys.game.keys_collected ≤ example_two_keys.game.num_keys) ∧
    ∀ i e, example_two_keys.entities[i]? = some e → e.will_erase = false →
      ∃ w1, contact example_two_keys i = some w1) :=
  ⟨example_game_reset, rfl, example_entities_colors, example_run_two_keys,
    counters_ordered_after_every_contact example_consts example_draws example_grid
      example_start example_reset 2 example_entities example_game_reset rfl
      example_entities_colors [0, 2] example_two_keys example_run_two_keys⟩


/-! ## The handler, branch by branch -/

theorem handler_exit (g : HeistGame) (e : Entity) (hE : e.type = EXIT) :
    handle_agent_collision_traced g e =
      some ({ g with step_data :=
        { done := true, reward := COMPLETION_BONUS, level_complete := true } }, e, 0) := by
  unfold handle_agent_collision_traced base_handle_agent_collision
  simp only [if_pos hE]

theorem handler_key (g : HeistGame) (e : Entity) (hK : e.type = KEY) :
    handle_agent_collision_traced g e =
      (vset g.has_keys e.image_theme true).bind fun hk =>
        (update_stage { g with has_keys := hk, keys_collected := g.keys_collected + 1 }).bind
          fun g1 => some (g1, { e with will_erase := true }, 1) := by
  have hE : e.type ≠ EXIT := by rw [hK]; decide
  unfold handle_agent_collision_traced base_handle_agent_collision
  simp only [if_neg hE, if_pos hK]

theorem handler_door (g : HeistGame) (e : Entity) (hD : e.type = LOCKED_DOOR) :
    handle_agent_collision_traced g e =
      (vget g.has_keys e.image_theme).bind fun held =>
        if held then
          (update_stage { g with num_doors_unlocked := g.num_doors_unlocked + 1 }).bind
            fun g1 => some (g1, { e with will_erase := true }, 1)
        else some (g, e, 0) := by
  have hE : e.type ≠ EXIT := by rw [hD]; decide
  have hK : e.type ≠ KEY := by rw [hD]; decide
  unfold handle_agent_collision_traced base_handle_agent_collision
  simp only [if_neg hE, if_neg hK, if_pos hD]

theorem handler_other (g : HeistGame) (e : Entity) (hE : e.type ≠ EXIT) (hK : e.type ≠ KEY)
    (hD : e.type ≠ LOCKED_DOOR) : handle_agent_collision_traced g e = some (g, e, 0) := by
  unfold handle_agent_collision_traced base_handle_agent_collision
  simp only [if_neg hE, if_neg hK, if_neg hD]

/-! ## The nesting order -/

theorem run_handler_append (g : HeistGame) (a b : List Entity) :
    run_handler g (a ++ b) = (run_handler g a).bind fun g1 => run_handler g1 b := by
  induction a generalizing g with
  | nil => rfl
  | cons e t ih =>
    simp only [List.cons_append, run_handler]
    cases handle_agent_collision g e with
    | none => rfl
    | some r => exact ih r.1

theorem nesting_events_succ (n : Nat) :
    nesting_events (n + 1) = nesting_events n ++ [key_entity n, door_entity n] := by
  simp [nesting_events, List.range_succ, List.flatMap_append]

theorem nesting_events_length (n : Nat) : (nesting_events n).length = 2 * n := by
  induction n with
  | zero => rfl
  | succ k ih =>
    rw [nesting_events_succ, List.length_append, ih]
    simp
    omega

theorem nesting_events_take_even (n m : Nat) (h : m ≤ n) :
    (nesting_events n).take (2 * m) = nesting_events m := by
  induction n with
  | zero =>
    have : m = 0 := by omega
    subst this
    rfl
  | succ k ih =>
    by_cases hm : m = k + 1
    · subst hm
      rw [← nesting_events_length (k + 1), List.take_length]
    · rw [nesting_events_succ, List.take_append_of_le_length
        (by rw [nesting_events_length]; omega)]
      exact ih (by omega)

theorem nesting_events_take_odd (n m : Nat) (h : m < n) :
    (nesting_events n).take (2 * m + 1) = nesting_events m ++ [key_entity m] := by
  induction n with
  | zero => omega
  | succ k ih =>
    by_cases hm : m = k
    · subst hm
      rw [nesting_events_succ, List.take_append_eq_append_take, nesting_events_length,
        List.take_of_length_le (by rw [nesting_events_length]; omega)]
      simp
    · rw [nesting_events_succ, List.take_append_of_le_length
        (by rw [nesting_events_length]; omega)]
      exact ih (by omega)


theorem key_contact_result (g : HeistGame) (e : Entity) (hk : List Bool) (p : ℚ × ℚ)
    (hK : e.type = KEY) (hv : vset g.has_keys e.image_theme true = some hk)
    (hp : next_anchor_rule { g with has_keys := hk, keys_collected := g.keys_collected + 1 } =
      some p) :
    handle_agent_collision_traced g e =
      some ({ g with
        has_keys := hk
        keys_collected := g.keys_collected + 1
        current_stage := g.current_stage + 1
        last_stage_x := g.next_stage_x
        last_stage_y := g.next_stage_y
        next_stage_x := p.1
        next_stage_y := p.2 }, { e with will_erase := true }, 1) := by
  rw [handler_key g e hK, hv]
  simp only [Option.some_bind]
  rw [update_stage_eq, hp]
  rfl

theorem door_contact_result (g : HeistGame) (e : Entity) (p : ℚ × ℚ)
    (hD : e.type = LOCKED_DOOR) (hh : vget g.has_keys e.image_theme = some true)
    (hp : next_anchor_rule { g with num_doors_unlocked := g.num_doors_unlocked + 1 } = some p) :
    handle_agent_collision_traced g e =
      some ({ g with
        num_doors_unlocked := g.num_doors_unlocked + 1
        current_stage := g.current_stage + 1
        last_stage_x := g.next_stage_x
        last_stage_y := g.next_stage_y
        next_stage_x := p.1
        next_stage_y := p.2 }, { e with will_erase := true }, 1) := by
  rw [handler_door g e hD, hh]
  simp only [Option.some_bind, if_true]
  rw [update_stage_eq, hp]
  rfl

theorem key_position_defined {n : Nat} {g : HeistGame} (hs : Sized n g) (m : Nat)
    (hm : m < n) : ∃ p, key_position g m = some p := by
  obtain ⟨x, hx⟩ := vget_defined g.keys_x m (Int.ofNat_nonneg m)
    (by rw [hs.keys_x_len]; exact_mod_cast hm)
  obtain ⟨y, hy⟩ := vget_defined g.keys_y m (Int.ofNat_nonneg m)
    (by rw [hs.keys_y_len]; exact_mod_cast hm)
  exact ⟨(x, y), by unfold key_position; rw [hx, hy]; rfl⟩

theorem door_position_defined {n : Nat} {g : HeistGame} (hs : Sized n g) (m : Nat)
    (hm : m < n) : ∃ p, door_position g m = some p := by
  obtain ⟨x, hx⟩ := vget_defined g.doors_x m (Int.ofNat_nonneg m)
    (by rw [hs.doors_x_len]; exact_mod_cast hm)
  obtain ⟨y, hy⟩ := vget_defined g.doors_y m (Int.ofNat_nonneg m)
    (by rw [hs.doors_y_len]; exact_mod_cast hm)
  exact ⟨(x, y), by unfold door_position; rw [hx, hy]; rfl⟩

theorem key_position_congr {g g0 : HeistGame} (hx : g.keys_x = g0.keys_x)
    (hy : g.keys_y = g0.keys_y) (c : Int) : key_position g c = key_position g0 c := by
  unfold key_position
  rw [hx, hy]

theorem door_position_congr {g g0 : HeistGame} (hx : g.doors_x = g0.doors_x)
    (hy : g.doors_y = g0.doors_y) (c : Int) : door_position g c = door_position g0 c := by
  unfold door_position
  rw [hx, hy]

theorem nest_key_step {n m : Nat} {g0 g : HeistGame} (h : NestInv n m g0 g) (hm : m < n) :
    ∃ r, handle_agent_collision g (key_entity m) = some r ∧ MidInv n m g0 r.1 := by
  have hs := h.sized
  have hlt : (m : Int) < g.has_keys.length := by rw [hs.has_keys_len]; exact_mod_cast hm
  have hv := vset_defined g.has_keys (m : Int) true (Int.ofNat_nonneg m) hlt
  obtain ⟨p, hp⟩ := door_position_defined hs m hm
  have hne1 : g.num_doors_unlocked ≠ g.num_keys := by
    rw [h.num_doors_unlocked, hs.num_keys_eq]
    exact_mod_cast Nat.ne_of_lt hm
  have hne2 : g.keys_collected + 1 ≠ g.num_doors_unlocked := by
    rw [h.num_doors_unlocked, h.keys_collected]
    omega
  have hrule : next_anchor_rule { g with
      has_keys := (g.has_keys.set (Int.toNat m) true)
      keys_collected := g.keys_collected + 1 } = some p := by
    unfold next_anchor_rule
    simp only [if_neg hne1, if_neg hne2]
    rw [← hp, h.num_doors_unlocked]
    rfl
  have hres := key_contact_result g (key_entity m) _ p rfl hv hrule
  refine ⟨_, by unfold handle_agent_collision; rw [hres]; rfl, ?_⟩
  have hm' : m ≠ n := Nat.ne_of_lt hm
  have hnext := h.next
  rw [if_neg hm'] at hnext
  refine ⟨⟨hs.num_keys_eq, ?_, hs.keys_x_len, hs.keys_y_len, hs.doors_x_len, hs.doors_y_len⟩,
    h.keys_x, h.keys_y, h.doors_x, h.doors_y, h.exit_x, h.exit_y, ?_, ?_, h.num_doors_unlocked,
    ?_, hnext, ?_⟩
  · show (g.has_keys.set (m : Int).toNat true).length = n
    rw [List.length_set]
    exact hs.has_keys_len
  · show vget (g.has_keys.set (m : Int).toNat true) m = some true
    rw [vget_natCast]
    have : m < g.has_keys.length := by rw [hs.has_keys_len]; exact hm
    simp [this]
  · show g.keys_collected + 1 = (m : Int) + 1
    rw [h.keys_collected]
  · show g.current_stage + 1 = 2 * (m : Int) + 1
    rw [h.current_stage]
  · show some (p.1, p.2) = door_position g0 m
    rw [← door_position_congr h.doors_x h.doors_y, hp]

theorem nest_door_step {n m : Nat} {g0 g : HeistGame} (h : MidInv n m g0 g) (hm : m < n) :
    ∃ r, handle_agent_collision g (door_entity m) = some r ∧ NestInv n (m + 1) g0 r.1 := by
  have hs := h.sized
  have hne2' : g.keys_collected = g.num_doors_unlocked + 1 := by
    rw [h.num_doors_unlocked, h.keys_collected]
  have hex : ∃ p, next_anchor_rule { g with num_doors_unlocked := g.num_doors_unlocked + 1 }
      = some p ∧ some p = if m + 1 = n then some (exit_position g0)
        else key_position g0 ((m + 1 : Nat) : Int) := by
    unfold next_anchor_rule
    by_cases hmn : m + 1 = n
    · have h1 : g.num_doors_unlocked + 1 = g.num_keys := by
        rw [h.num_doors_unlocked, hs.num_keys_eq]
        exact_mod_cast hmn
      refine ⟨exit_position g0, ?_, by rw [if_pos hmn]⟩
      simp only [if_pos h1]
      unfold exit_position
      rw [← h.exit_x, ← h.exit_y]
    · have h1 : g.num_doors_unlocked + 1 ≠ g.num_keys := by
        rw [h.num_doors_unlocked, hs.num_keys_eq]
        exact_mod_cast hmn
      obtain ⟨p, hp⟩ := key_position_defined hs (m + 1) (by omega)
      refine ⟨p, ?_, ?_⟩
      · simp only [if_neg h1, if_pos hne2']
        rw [← hp, h.keys_collected]
        simp [key_position]
      · rw [if_neg hmn, ← key_position_congr h.keys_x h.keys_y, hp]
  obtain ⟨p, hrule, hp⟩ := hex
  have hres := door_contact_result g (door_entity m) p rfl h.held hrule
  refine ⟨_, by unfold handle_agent_collision; rw [hres]; rfl, ?_⟩
  refine ⟨⟨hs.num_keys_eq, hs.has_keys_len, hs.keys_x_len, hs.keys_y_len, hs.doors_x_len,
    hs.doors_y_len⟩, h.keys_x, h.keys_y, h.doors_x, h.doors_y, h.exit_x, h.exit_y, ?_, ?_, ?_,
    ?_, ?_⟩
  · show g.keys_collected = ((m + 1 : Nat) : Int)
    rw [h.keys_collected]
    simp
  · show g.num_doors_unlocked + 1 = ((m + 1 : Nat) : Int)
    rw [h.num_doors_unlocked]
    simp
  · show g.current_stage + 1 = 2 * ((m + 1 : Nat) : Int)
    rw [h.current_stage]
    push_cast
    ring
  · show some (next_anchor g) = _
    rw [if_neg (Nat.succ_ne_zero m), h.next]
    simp
  · show some (p.1, p.2) = _
    exact hp


theorem chain_pairs_succ (g : HeistGame) (n : Nat) :
    chain_pairs g (n + 1) = chain_pairs g n ++ [key_position g n, door_position g n] := by
  simp [chain_pairs, List.range_succ, List.flatMap_append]

theorem chain_pairs_length (g : HeistGame) (n : Nat) : (chain_pairs g n).length = 2 * n := by
  induction n with
  | zero => rfl
  | succ k ih =>
    rw [chain_pairs_succ, List.length_append, ih]
    simp
    omega

theorem chain_pairs_even (g : HeistGame) (n m : Nat) (h : m < n) :
    (chain_pairs g n)[2 * m]? = some (key_position g m) := by
  induction n with
  | zero => omega
  | succ k ih =>
    rw [chain_pairs_succ]
    by_cases hm : m = k
    · subst hm
      rw [List.getElem?_append_right (by rw [chain_pairs_length]), chain_pairs_length]
      simp
    · rw [List.getElem?_append_left (by rw [chain_pairs_length]; omega)]
      exact ih (by omega)

theorem chain_pairs_odd (g : HeistGame) (n m : Nat) (h : m < n) :
    (chain_pairs g n)[2 * m + 1]? = some (door_position g m) := by
  induction n with
  | zero => omega
  | succ k ih =>
    rw [chain_pairs_succ]
    by_cases hm : m = k
    · subst hm
      rw [List.getElem?_append_right (by rw [chain_pairs_length]; omega), chain_pairs_length]
      simp
    · rw [List.getElem?_append_left (by rw [chain_pairs_length]; omega)]
      exact ih (by omega)

theorem chain_zero (g : HeistGame) (n : Nat) :
    (chain g n)[0]? = some (some (g.agent_x, g.agent_y)) := by
  simp [chain]

theorem chain_odd (g : HeistGame) (n m : Nat) (h : m < n) :
    (chain g n)[2 * m + 1]? = some (key_position g m) := by
  unfold chain
  rw [List.getElem?_cons_succ, List.getElem?_append_left (by rw [chain_pairs_length]; omega)]
  exact chain_pairs_even g n m h

theorem chain_even (g : HeistGame) (n m : Nat) (h : m < n) :
    (chain g n)[2 * m + 2]? = some (door_position g m) := by
  unfold chain
  rw [List.getElem?_cons_succ, List.getElem?_append_left (by rw [chain_pairs_length]; omega)]
  exact chain_pairs_odd g n m h

theorem chain_last (g : HeistGame) (n : Nat) :
    (chain g n)[2 * n + 1]? = some (some (exit_position g)) := by
  unfold chain
  rw [List.getElem?_cons_succ, List.getElem?_append_right (by rw [chain_pairs_length]),
    chain_pairs_length]
  simp

theorem nest_init {n : Nat} {g0 : HeistGame} (hr : ResetShape n g0) : NestInv n 0 g0 g0 := by
  refine ⟨hr.sized, rfl, rfl, rfl, rfl, rfl, rfl, ?_, ?_, ?_, ?_, ?_⟩
  · rw [hr.keys_collected]; rfl
  · rw [hr.num_doors_unlocked]; rfl
  · rw [hr.current_stage]; rfl
  · rw [if_pos rfl, hr.last]
  · rw [hr.next]
    by_cases h : n = 0
    · rw [if_pos h, if_pos h.symm]
    · rw [if_neg h, if_neg (Ne.symm h)]
      rfl

theorem run_nesting {n : Nat} {g0 : HeistGame} (h0 : NestInv n 0 g0 g0) (m : Nat)
    (hm : m ≤ n) : ∃ g, run_handler g0 (nesting_events m) = some g ∧ NestInv n m g0 g := by
  induction m with
  | zero => exact ⟨g0, rfl, h0⟩
  | succ k ih =>
    obtain ⟨g, hg, hinv⟩ := ih (by omega)
    obtain ⟨r1, hr1, hmid⟩ := nest_key_step hinv (by omega)
    obtain ⟨r2, hr2, hnest⟩ := nest_door_step hmid (by omega)
    refine ⟨r2.1, ?_, hnest⟩
    rw [nesting_events_succ, run_handler_append, hg]
    simp only [Option.some_bind, run_handler, hr1, hr2]

theorem run_nesting_key {n : Nat} {g0 : HeistGame} (h0 : NestInv n 0 g0 g0) (m : Nat)
    (hm : m < n) :
    ∃ g, run_handler g0 (nesting_events m ++ [key_entity m]) = some g ∧ MidInv n m g0 g := by
  obtain ⟨g, hg, hinv⟩ := run_nesting h0 m (by omega)
  obtain ⟨r1, hr1, hmid⟩ := nest_key_step hinv hm
  refine ⟨r1.1, ?_, hmid⟩
  rw [run_handler_append, hg]
  simp only [Option.some_bind, run_handler, hr1]

/-! ## C3: the anchors follow the chain -/

/-- C3: from the state left by `game_reset` with key count `n`, for every
placement of the positions, the contacts in nesting order key 0, door 0, ...,
key `n - 1`, door `n - 1` are all defined, and after the first `k` of them the
pair (last anchor, next anchor) is `(c[k], c[k + 1])`, where `c` is the chain
agent start, key 0, door 0, ..., exit; after all `2 * n` contacts the next
anchor is the exit position. -/
theorem anchors_follow_chain (c : Consts) (d : Draws) (grid : Int → Int → Int)
    (g g0 : HeistGame) (n : Nat) (hreset : game_reset c d grid g = some g0)
    (hn : g0.num_keys = n) :
    (∀ k, k ≤ 2 * n → ∃ gk, run_handler g0 ((nesting_events n).take k) = some gk ∧
      (chain g0 n)[k]? = some (some (last_anchor gk)) ∧
      (chain g0 n)[k + 1]? = some (some (next_anchor gk))) ∧
    ∃ gend, run_handler g0 (nesting_events n) = some gend ∧
      next_anchor gend = exit_position g0 := by
  have h0 := nest_init (game_reset_shape c d grid g g0 n hreset hn)
  constructor
  · intro k hk
    rcases Nat.even_or_odd' k with ⟨m, rfl | rfl⟩
    · obtain ⟨gk, hrun, hinv⟩ := run_nesting h0 m (by omega)
      refine ⟨gk, by rw [nesting_events_take_even n m (by omega)]; exact hrun, ?_, ?_⟩
      · cases m with
        | zero =>
          have := hinv.last
          rw [if_pos rfl] at this
          rw [chain_zero, this]
        | succ j =>
          have := hinv.last
          rw [if_neg (Nat.succ_ne_zero j)] at this
          rw [show 2 * (j + 1) = 2 * j + 2 by ring, chain_even g0 n j (by omega), this]
          simp
      · have := hinv.next
        by_cases hmn : m = n
        · rw [if_pos hmn] at this
          rw [hmn, chain_last, this]
        · rw [if_neg hmn] at this
          rw [chain_odd g0 n m (by omega), this]
    · obtain ⟨gk, hrun, hinv⟩ := run_nesting_key h0 m (by omega)
      refine ⟨gk, by rw [nesting_events_take_odd n m (by omega)]; exact hrun, ?_, ?_⟩
      · rw [chain_odd g0 n m (by omega), hinv.last]
      · rw [show 2 * m + 1 + 1 = 2 * m + 2 by ring, chain_even g0 n m (by omega), hinv.next]
  · obtain ⟨gend, hrun, hinv⟩ := run_nesting h0 n (le_refl n)
    refine ⟨gend, hrun, ?_⟩
    have := hinv.next
    rw [if_pos rfl] at this
    exact Option.some.inj this


/-! ## Counting the calls of `update_stage` -/

theorem fresh_keys_count (ents : List Entity) (h : ∀ e ∈ ents, e.will_erase = false) :
    ents.countP unerased_key = (key_themes ents).length := by
  induction ents with
  | nil => rfl
  | cons a t ih =>
    have ha := h a (List.mem_cons_self a t)
    have ih := ih (fun e he => h e (List.mem_cons_of_mem a he))
    unfold key_themes at ih ⊢
    by_cases hk : a.type = KEY
    · simp [List.countP_cons, List.filterMap_cons, unerased_key, hk, ha, ih]
    · simp [List.countP_cons, List.filterMap_cons, unerased_key, hk, ih]

theorem fresh_doors_count (ents : List Entity) (h : ∀ e ∈ ents, e.will_erase = false) :
    ents.countP unerased_door = (door_themes ents).length := by
  induction ents with
  | nil => rfl
  | cons a t ih =>
    have ha := h a (List.mem_cons_self a t)
    have ih := ih (fun e he => h e (List.mem_cons_of_mem a he))
    unfold door_themes at ih ⊢
    by_cases hk : a.type = LOCKED_DOOR
    · simp [List.countP_cons, List.filterMap_cons, unerased_door, hk, ha, ih]
    · simp [List.countP_cons, List.filterMap_cons, unerased_door, hk, ih]

theorem count_inv_init {n : Nat} {g : HeistGame} {ents : List Entity} (hr : ResetShape n g)
    (he : one_key_and_door_per_color n ents) (hf : ∀ e ∈ ents, e.will_erase = false) :
    CountInv n ⟨g, ents, 0⟩ := by
  refine ⟨?_, ?_, ?_, ?_, ?_⟩
  · show ((0 : Nat) : Int) = g.current_stage
    rw [hr.current_stage]
    rfl
  · show g.current_stage = g.keys_collected + g.num_doors_unlocked
    rw [hr.current_stage, hr.keys_collected, hr.num_doors_unlocked]
    rfl
  · show g.keys_collected + ((ents.countP unerased_key : Nat) : Int) = n
    rw [hr.keys_collected, fresh_keys_count ents hf, he.1.length_eq, colors_length]
    simp
  · show g.num_doors_unlocked + ((ents.countP unerased_door : Nat) : Int) = n
    rw [hr.num_doors_unlocked, fresh_doors_count ents hf, he.2.length_eq, colors_length]
    simp
  · show g.total_stages = 2 * (n : Int) + 1
    rw [hr.total_stages, hr.sized.num_keys_eq]

theorem handler_counts {n : Nat} {g : HeistGame} {ents : List Entity} {i k : Nat}
    {e : Entity} {g1 : HeistGame} {e1 : Entity} {j : Nat}
    (hc : CountInv n ⟨g, ents, k⟩) (hi : ents[i]? = some e) (he : e.will_erase = false)
    (h : handle_agent_collision_traced g e = some (g1, e1, j)) :
    CountInv n ⟨g1, ents.set i e1, k + j⟩ := by
  have c1 : (k : Int) = g.current_stage := hc.calls
  have c2 : g.current_stage = g.keys_collected + g.num_doors_unlocked := hc.stage
  have c3 : g.keys_collected + ((ents.countP unerased_key : Nat) : Int) = n := hc.keys
  have c4 : g.num_doors_unlocked + ((ents.countP unerased_door : Nat) : Int) = n := hc.doors
  have c5 : g.total_stages = 2 * (n : Int) + 1 := hc.total
  by_cases hE : e.type = EXIT
  · rw [handler_exit g e hE] at h
    simp only [Option.some.injEq, Prod.mk.injEq] at h
    obtain ⟨rfl, rfl, rfl⟩ := h
    rw [set_same _ _ _ hi]
    exact ⟨c1, c2, c3, c4, c5⟩
  by_cases hK : e.type = KEY
  · rw [handler_key g e hK] at h
    obtain ⟨hk, -, h⟩ := Option.bind_eq_some.mp h
    obtain ⟨g2, hu, h⟩ := Option.bind_eq_some.mp h
    simp only [Option.some.injEq, Prod.mk.injEq] at h
    obtain ⟨rfl, rfl, rfl⟩ := h
    obtain ⟨hf, hst⟩ := update_stage_frame hu
    have hne : KEY ≠ LOCKED_DOOR := by decide
    have hdrop := countP_set_drop unerased_key ents i e
      { type := e.type, image_theme := e.image_theme, will_erase := true } hi
      (by simp [unerased_key, hK, he]) (by simp [unerased_key])
    have hkeep := countP_set_keep unerased_door ents i e
      { type := e.type, image_theme := e.image_theme, will_erase := true } hi
      (by simp [unerased_door, hK, hne])
    have f1 : g2.keys_collected = g.keys_collected + 1 := hf.keys_collected
    have f2 : g2.num_doors_unlocked = g.num_doors_unlocked := hf.num_doors_unlocked
    have f3 : g2.current_stage = g.current_stage + 1 := hst
    have f4 : g2.total_stages = g.total_stages := hf.total_stages
    refine ⟨?_, ?_, ?_, ?_, ?_⟩
    · show ((k + 1 : Nat) : Int) = g2.current_stage
      rw [f3]; push_cast; omega
    · show g2.current_stage = g2.keys_collected + g2.num_doors_unlocked
      rw [f1, f2, f3]; omega
    · show g2.keys_collected + ((List.countP unerased_key (ents.set i
        { type := e.type, image_theme := e.image_theme, will_erase := true }) : Nat) : Int) = n
      rw [f1]; omega
    · show g2.num_doors_unlocked + ((List.countP unerased_door (ents.set i
        { type := e.type, image_theme := e.image_theme, will_erase := true }) : Nat) : Int) = n
      rw [f2, hkeep]; exact c4
    · show g2.total_stages = 2 * (n : Int) + 1
      rw [f4]; exact c5
  by_cases hD : e.type = LOCKED_DOOR
  · rw [handler_door g e hD] at h
    obtain ⟨held, hh, h⟩ := Option.bind_eq_some.mp h
    cases held with
    | false =>
      simp only [Bool.false_eq_true, if_false, Option.some.injEq, Prod.mk.injEq] at h
      obtain ⟨rfl, rfl, rfl⟩ := h
      rw [set_same _ _ _ hi]
      exact ⟨c1, c2, c3, c4, c5⟩
    | true =>
      rw [if_pos rfl] at h
      obtain ⟨g2, hu, h⟩ := Option.bind_eq_some.mp h
      simp only [Option.some.injEq, Prod.mk.injEq] at h
      obtain ⟨rfl, rfl, rfl⟩ := h
      obtain ⟨hf, hst⟩ := update_stage_frame hu
      have hne : LOCKED_DOOR ≠ KEY := by decide
      have hkeep := countP_set_keep unerased_key ents i e
        { type := e.type, image_theme := e.image_theme, will_erase := true } hi
        (by simp [unerased_key, hD, hne])
      have hdrop := countP_set_drop unerased_door ents i e
        { type := e.type, image_theme := e.image_theme, will_erase := true } hi
        (by simp [unerased_door, hD, he]) (by simp [unerased_door])
      have f1 : g2.keys_collected = g.keys_collected := hf.keys_collected
      have f2 : g2.num_doors_unlocked = g.num_doors_unlocked + 1 := hf.num_doors_unlocked
      have f3 : g2.current_stage = g.current_stage + 1 := hst
      have f4 : g2.total_stages = g.total_stages := hf.total_stages
      refine ⟨?_, ?_, ?_, ?_, ?_⟩
      · show ((k + 1 : Nat) : Int) = g2.current_stage
        rw [f3]; push_cast; omega
      · show g2.current_stage = g2.keys_collected + g2.num_doors_unlocked
        rw [f1, f2, f3]; omega
      · show g2.keys_collected + ((List.countP unerased_key (ents.set i
          { type := e.type, image_theme := e.image_theme, will_erase := true }) : Nat) : Int)
          = n
        rw [f1, hkeep]; exact c3
      · show g2.num_doors_unlocked + ((List.countP unerased_door (ents.set i
          { type := e.type, image_theme := e.image_theme, will_erase := true }) : Nat) : Int)
          = n
        rw [f2]; omega
      · show g2.total_stages = 2 * (n : Int) + 1
        rw [f4]; exact c5
  · rw [handler_other g e hE hK hD] at h
    simp only [Option.some.injEq, Prod.mk.injEq] at h
    obtain ⟨rfl, rfl, rfl⟩ := h
    rw [set_same _ _ _ hi]
    exact ⟨c1, c2, c3, c4, c5⟩

theorem contact_counts {n : Nat} {w w1 : World} {i : Nat} (hc : CountInv n w)
    (h : contact w i = some w1) : CountInv n w1 := by
  unfold contact at h
  cases hi : w.entities[i]? with
  | none =>
    rw [hi] at h
    cases h
  | some e =>
    rw [hi] at h
    simp only at h
    cases he : e.will_erase with
    | true =>
      rw [he] at h
      simp at h
    | false =>
      rw [he] at h
      simp only [Bool.false_eq_true, if_false] at h
      cases hr : handle_agent_collision_traced w.game e with
      | none =>
        rw [hr] at h
        cases h
      | some r =>
        obtain ⟨g1, e1, j⟩ := r
        rw [hr] at h
        simp only [Option.some.injEq] at h
        subst h
        exact handler_counts hc hi he hr

theorem run_contacts_counts {n : Nat} (es : List Nat) (w w1 : World) (hc : CountInv n w)
    (h : run_contacts w es = some w1) : CountInv n w1 := by
  induction es generalizing w with
  | nil =>
    simp only [run_contacts, Option.some.injEq] at h
    subst h
    exact hc
  | cons i t ih =>
    unfold run_contacts at h
    cases hcn : contact w i with
    | none =>
      rw [hcn] at h
      cases h
    | some w2 =>
      rw [hcn] at h
      exact ih w2 (contact_counts hc hcn) h

theorem countP_zero_of_erased (p : Entity → Bool) (ents : List Entity)
    (hp : ∀ e, p e = true → (e.type = KEY ∨ e.type = LOCKED_DOOR) ∧ e.will_erase = false)
    (h : ∀ e ∈ ents, e.type = KEY ∨ e.type = LOCKED_DOOR → e.will_erase = true) :
    ents.countP p = 0 := by
  rw [List.countP_eq_zero]
  intro e he hpe
  obtain ⟨ht, hw⟩ := hp e hpe
  rw [h e he ht] at hw
  cases hw

/-! ## C4: the number of stages -/

/-- C4: `game_reset` sets `total_stages = 2 * num_keys + 1` and
`current_stage = 0`; in every play from there in which all keys and doors end
up marked for erasure (every key picked up, every door unlocked),
`update_stage` has been called exactly `total_stages - 1` times,
`current_stage = total_stages - 1 = keys_collected + num_doors_unlocked`, and the
contact with the exit then calls `update_stage` no more, leaves `current_stage`
as it is and finishes the episode. -/
theorem completion_stage_count (c : Consts) (d : Draws) (grid : Int → Int → Int)
    (g g0 : HeistGame) (n : Nat) (ents : List Entity)
    (hreset : game_reset c d grid g = some g0) (hn : g0.num_keys = n)
    (hents : one_key_and_door_per_color n ents)
    (hfresh : ∀ e ∈ ents, e.will_erase = false) :
    g0.total_stages = 2 * g0.num_keys + 1 ∧ g0.current_stage = 0 ∧
    ∀ es w, run_contacts ⟨g0, ents, 0⟩ es = some w →
      (∀ e ∈ w.entities, e.type = KEY ∨ e.type = LOCKED_DOOR → e.will_erase = true) →
      (w.update_stage_calls : Int) = w.game.total_stages - 1 ∧
      w.game.total_stages = 2 * w.game.num_keys + 1 ∧
      w.game.current_stage = w.game.total_stages - 1 ∧
      w.game.total_stages - 1 = w.game.keys_collected + w.game.num_doors_unlocked ∧
      ∀ x, x.type = EXIT → ∃ gx, handle_agent_collision_traced w.game x = some (gx, x, 0) ∧
        gx.step_data.done = true ∧ gx.current_stage = w.game.total_stages - 1 := by
  have hr := game_reset_shape c d grid g g0 n hreset hn
  refine ⟨hr.total_stages, hr.current_stage, ?_⟩
  intro es w hrun hall
  have hc := run_contacts_counts es _ w (count_inv_init hr hents hfresh) hrun
  have hi := run_contacts_preserves es _ w (contact_inv_init hr hents) hrun
  have hk0 : w.entities.countP unerased_key = 0 :=
    countP_zero_of_erased unerased_key w.entities (fun e he => by
      simp only [unerased_key, Bool.and_eq_true, decide_eq_true_eq, Bool.not_eq_true'] at he
      exact ⟨Or.inl he.1, he.2⟩) hall
  have hd0 : w.entities.countP unerased_door = 0 :=
    countP_zero_of_erased unerased_door w.entities (fun e he => by
      simp only [unerased_door, Bool.and_eq_true, decide_eq_true_eq, Bool.not_eq_true'] at he
      exact ⟨Or.inr he.1, he.2⟩) hall
  have c1 := hc.calls
  have c2 := hc.stage
  have c3 := hc.keys
  have c4 := hc.doors
  have c5 := hc.total
  have c6 := hi.sized.num_keys_eq
  rw [hk0] at c3
  rw [hd0] at c4
  simp only [Nat.cast_zero, add_zero] at c3 c4
  refine ⟨by omega, by omega, by omega, by omega, ?_⟩
  intro x hx
  exact ⟨_, handler_exit w.game x hx, rfl, by show w.game.current_stage = _; omega⟩


/-- C3, on the worked example with two keys. -/
theorem anchors_follow_chain_witness :
    game_reset example_consts example_draws example_grid example_start = some example_reset ∧
    example_reset.num_keys = (2 : Nat) ∧
    ((∀ k, k ≤ 2 * 2 → ∃ gk,
        run_handler example_reset ((nesting_events 2).take k) = some gk ∧
        (chain example_reset 2)[k]? = some (some (last_anchor gk)) ∧
        (chain example_reset 2)[k + 1]? = some (some (next_anchor gk))) ∧
      ∃ gend, run_handler example_reset (nesting_events 2) = some gend ∧
        next_anchor gend = exit_position example_reset) :=
  ⟨example_game_reset, rfl,
    anchors_follow_chain example_consts example_draws example_grid example_start
      example_reset 2 example_game_reset rfl⟩

theorem example_entities_fresh : ∀ e ∈ example_entities, e.will_erase = false := by
  decide

theorem example_run_completed :
    run_contacts ⟨example_reset, example_entities, 0⟩ [0, 1, 2, 3] = some example_completed := by
  decide!

theorem example_completed_erased :
    ∀ e ∈ example_completed.entities, e.type = KEY ∨ e.type = LOCKED_DOOR →
      e.will_erase = true := by
  decide

/-- C4, on the worked example: two keys, five stages, four calls of
`update_stage` when the exit is reached. -/
theorem completion_stage_count_witness :
    game_reset example_consts example_draws example_grid example_start = some example_reset ∧
    example_reset.num_keys = (2 : Nat) ∧
    one_key_and_door_per_color 2 example_entities ∧
    (∀ e ∈ example_entities, e.will_erase = false) ∧
    run_contacts ⟨example_reset, example_entities, 0⟩ [0, 1, 2, 3] = some example_completed ∧
    (∀ e ∈ example_completed.entities, e.type = KEY ∨ e.type = LOCKED_DOOR →
      e.will_erase = true) ∧
    (example_completed.update_stage_calls : Int) = example_completed.game.total_stages - 1 ∧
    example_completed.game.current_stage = example_completed.game.total_stages - 1 :=
  have h := (completion_stage_count example_consts example_draws example_grid example_start
    example_reset 2 example_entities example_game_reset rfl example_entities_colors
    example_entities_fresh).2.2 [0, 1, 2, 3] example_completed example_run_completed
    example_completed_erased
  ⟨example_game_reset, rfl, example_entities_colors, example_entities_fresh,
    example_run_completed, example_completed_erased, h.1, h.2.2.1⟩



/-! ## The snapshot -/

theorem foldl_write_float (v : List ℚ) (b : WriteBuffer) :
    v.foldl write_float b = b ++ v.map Cell.float := by
  induction v generalizing b with
  | nil => simp
  | cons a t ih =>
    rw [List.foldl_cons, ih]
    simp [write_float]

theorem foldl_write_bool (v : List Bool) (b : WriteBuffer) :
    v.foldl (fun b x => write_int b (if x then 1 else 0)) b =
      b ++ v.map fun x => Cell.int (if x then 1 else 0) := by
  induction v generalizing b with
  | nil => simp
  | cons a t ih =>
    rw [List.foldl_cons, ih]
    simp [write_int]

theorem write_vector_float_eq (b : WriteBuffer) (v : List ℚ) :
    write_vector_float b v = b ++ vector_float_cells v := by
  unfold write_vector_float
  rw [foldl_write_float]
  simp [write_int, vector_float_cells]

theorem write_vector_bool_eq (b : WriteBuffer) (v : List Bool) :
    write_vector_bool b v = b ++ vector_bool_cells v := by
  unfold write_vector_bool
  rw [foldl_write_bool]
  simp [write_int, vector_bool_cells]

theorem serialize_eq (base_cells : HeistGame → List Cell) (g : HeistGame) (b : WriteBuffer)
    (rest : List Cell) : serialize base_cells g b ++ rest = b ++ (base_cells g ++ payload g rest) := by
  simp [serialize, payload, write_vector_float_eq, write_vector_bool_eq, write_int, write_float]

theorem read_int_cons (v : Int) (rest : List Cell) :
    read_int (Cell.int v :: rest) = some (v, rest) := rfl

theorem read_float_cons (v : ℚ) (rest : List Cell) :
    read_float (Cell.float v :: rest) = some (v, rest) := rfl

theorem read_n_float (v : List ℚ) (rest : List Cell) :
    read_n read_float v.length (v.map Cell.float ++ rest) = some (v, rest) := by
  induction v with
  | nil => rfl
  | cons a t ih =>
    simp only [List.length_cons, List.map_cons, List.cons_append, read_n, read_float_cons,
      Option.some_bind, ih]

theorem read_n_bool (v : List Bool) (rest : List Cell) :
    read_n (fun b => (read_int b).map fun r => (decide (r.1 ≠ 0), r.2)) v.length
      ((v.map fun x => Cell.int (if x then 1 else 0)) ++ rest) = some (v, rest) := by
  induction v with
  | nil => rfl
  | cons a t ih =>
    simp only [List.length_cons, List.map_cons, List.cons_append, read_n, read_int_cons,
      Option.map_some', Option.some_bind, ih]
    cases a <;> simp

theorem read_vector_float_cells (v : List ℚ) (rest : List Cell) :
    read_vector_float (vector_float_cells v ++ rest) = some (v, rest) := by
  simp [read_vector_float, vector_float_cells, read_int_cons, read_n_float]

theorem read_vector_bool_cells (v : List Bool) (rest : List Cell) :
    read_vector_bool (vector_bool_cells v ++ rest) = some (v, rest) := by
  simp only [read_vector_bool, vector_bool_cells, List.cons_append, read_int_cons,
    Option.some_bind, Int.ofNat_nonneg, Nat.cast_nonneg, if_true, Int.toNat_ofNat]
  exact read_n_bool v rest

theorem deserialize_payload
    (base_read : HeistGame → ReadBuffer → Option (HeistGame × ReadBuffer))
    (g target g1 : HeistGame) (b rest : List Cell) (hb : base_read target b = some (g1, payload g rest)) :
    deserialize base_read target b =
      some ({ g1 with
        num_keys := g.num_keys
        world_dim := g.world_dim
        has_keys := g.has_keys
        keys_x := g.keys_x
        keys_y := g.keys_y
        doors_x := g.doors_x
        doors_y := g.doors_y
        exit_x := g.exit_x
        exit_y := g.exit_y
        current_stage := g.current_stage
        total_stages := g.total_stages
        last_stage_x := g.last_stage_x
        last_stage_y := g.last_stage_y
        next_stage_x := g.next_stage_x
        next_stage_y := g.next_stage_y }, rest) := by
  unfold deserialize
  rw [hb]
  simp only [payload, read_int_cons, read_float_cons, read_vector_bool_cells,
    read_vector_float_cells]


/-! ## C5: restoring a snapshot in the middle of an episode -/

/-- C5, evaluated on the worked example: the state after picking up key 0 of
2 is serialized and restored into a freshly reset game.  The restored game
keeps its own `keys_collected = 0`, because the snapshot does not hold the two
counters; the contact with door 0 then moves the next anchor to
key 1 in the original state and to door 1 in the restored one. -/
theorem snapshot_misses_counters :
    run_contacts ⟨example_reset, example_entities, 0⟩ [0] = some example_one_key ∧
    deserialize example_base_read example_reset
      (serialize example_base_cells example_one_key.game []) = some (example_restored, []) ∧
    example_restored.keys_collected ≠ example_one_key.game.keys_collected ∧
    (handle_agent_collision example_one_key.game (door_entity 0)).map
      (fun r => (r.1.current_stage, last_anchor r.1, next_anchor r.1)) =
      some (2, (11 / 2, 1 / 2), (11 / 2, 5 / 2)) ∧
    (handle_agent_collision example_restored (door_entity 0)).map
      (fun r => (r.1.current_stage, last_anchor r.1, next_anchor r.1)) =
      some (2, (11 / 2, 1 / 2), (11 / 2, 9 / 2)) := by
  decide!

/-! ## C6: the persisted fields come back -/

/-- C6: when the base class reads back what it wrote, `deserialize` applied to
the buffer written by `serialize` succeeds, consumes exactly the cells
written, and restores each of the fifteen persisted fields to the value that
was serialized, for every state, every target instance and vectors of any
length. -/
theorem deserialize_serialize (base_cells : HeistGame → List Cell)
    (base_read : HeistGame → ReadBuffer → Option (HeistGame × ReadBuffer))
    (hbase : base_round_trip base_cells base_read) (g target : HeistGame)
    (rest : List Cell) :
    ∃ g1, deserialize base_read target (serialize base_cells g [] ++ rest) = some (g1, rest) ∧
      g1.num_keys = g.num_keys ∧ g1.world_dim = g.world_dim ∧ g1.has_keys = g.has_keys ∧
      g1.keys_x = g.keys_x ∧ g1.keys_y = g.keys_y ∧ g1.doors_x = g.doors_x ∧
      g1.doors_y = g.doors_y ∧ g1.exit_x = g.exit_x ∧ g1.exit_y = g.exit_y ∧
      g1.current_stage = g.current_stage ∧ g1.total_stages = g.total_stages ∧
      g1.last_stage_x = g.last_stage_x ∧ g1.last_stage_y = g.last_stage_y ∧
      g1.next_stage_x = g.next_stage_x ∧ g1.next_stage_y = g.next_stage_y := by
  obtain ⟨ga, hga⟩ := hbase g target (payload g rest)
  rw [serialize_eq, List.nil_append]
  exact ⟨_, deserialize_payload base_read g target ga _ rest hga,
    rfl, rfl, rfl, rfl, rfl, rfl, rfl, rfl, rfl, rfl, rfl, rfl, rfl, rfl, rfl⟩

theorem example_base_round_trip : base_round_trip example_base_cells example_base_read :=
  fun _ target _ => ⟨target, rfl⟩

/-- C6, on the worked example: the state after two keys, restored into a game
that was never reset. -/
theorem deserialize_serialize_witness :
    base_round_trip example_base_cells example_base_read ∧
    ∃ g1, deserialize example_base_read example_start
        (serialize example_base_cells example_two_keys.game [] ++ []) = some (g1, []) ∧
      g1.num_keys = example_two_keys.game.num_keys ∧
      g1.world_dim = example_two_keys.game.world_dim ∧
      g1.has_keys = example_two_keys.game.has_keys ∧
      g1.keys_x = example_two_keys.game.keys_x ∧ g1.keys_y = example_two_keys.game.keys_y ∧
      g1.doors_x = example_two_keys.game.doors_x ∧
      g1.doors_y = example_two_keys.game.doors_y ∧
      g1.exit_x = example_two_keys.game.exit_x ∧ g1.exit_y = example_two_keys.game.exit_y ∧
      g1.current_stage = example_two_keys.game.current_stage ∧
      g1.total_stages = example_two_keys.game.total_stages ∧
      g1.last_stage_x = example_two_keys.game.last_stage_x ∧
      g1.last_stage_y = example_two_keys.game.last_stage_y ∧
      g1.next_stage_x = example_two_keys.game.next_stage_x ∧
      g1.next_stage_y = example_two_keys.game.next_stage_y :=
  ⟨example_base_round_trip,
    deserialize_serialize example_base_cells example_base_read example_base_round_trip
      example_two_keys.game example_start []⟩

/-! ## C7: the key count -/

theorem game_reset_num_keys (c : Consts) (d : Draws) (grid : Int → Int → Int)
    (g g0 : HeistGame) (h : game_reset c d grid g = some g0) :
    g0.num_keys = choose_num_keys c d g.options := by
  unfold game_reset at h
  obtain ⟨g1, hp, ha⟩ := Option.bind_eq_some.mp h
  have hf := (place_cells_frame _ _ _ _ _ _ hp).num_keys
  have h1 : g1.num_keys = choose_num_keys c d g.options := hf
  unfold init_anchors at ha
  simp only at ha
  split at ha
  · cases ha
    exact h1
  · obtain ⟨x, -, ha⟩ := Option.bind_eq_some.mp ha
    obtain ⟨y, -, ha⟩ := Option.bind_eq_some.mp ha
    cases ha
    exact h1

/-- C7 fails as stated: with the key-count override `level_options_2` set to
5, `game_reset` returns a state with `num_keys = 5`, and `num_keys ≤ 3` is
false there. -/
theorem key_count_override_not_capped :
    example_start_override.options.level_options_2 = 5 ∧
    (game_reset example_consts example_draws example_grid example_start_override).map
      (fun g => g.num_keys) = some 5 ∧
    (game_reset example_consts example_draws example_grid example_start_override).map
      (fun g => decide (g.num_keys ≤ 3)) = some false := by
  decide!

/-- C7, amended: for every distribution mode and every outcome of the random
draws, the key count that `game_reset` derives is at most 3 when the override
`level_options_2` is unset (`-1`), and is the override itself, whatever its
value, when it is set. -/
theorem key_count_capped_unless_overridden (c : Consts) (d : Draws)
    (grid : Int → Int → Int) (g g0 : HeistGame) (h : game_reset c d grid g = some g0) :
    (g.options.level_options_2 = -1 → g0.num_keys ≤ 3) ∧
    (g.options.level_options_2 ≠ -1 → g0.num_keys = g.options.level_options_2) := by
  rw [game_reset_num_keys c d grid g g0 h]
  unfold choose_num_keys
  constructor
  · intro ho
    simp only [ho, ne_eq, not_true_eq_false, if_false]
    split <;> omega
  · intro ho
    simp only [ne_eq, ho, not_false_eq_true, if_true]

/-- C7, amended, on the worked example (override unset, two keys). -/
theorem key_count_capped_unless_overridden_witness :
    game_reset example_consts example_draws example_grid example_start = some example_reset ∧
    example_start.options.level_options_2 = -1 ∧ example_reset.num_keys ≤ 3 :=
  ⟨example_game_reset, rfl,
    (key_count_capped_unless_overridden example_consts example_draws example_grid
      example_start example_reset example_game_reset).1 rfl⟩


/-! ## The progress estimator -/

theorem update_stage_progress {g g1 : HeistGame} (h : update_stage g = some g1) :
    g1.level_progress = g.level_progress ∧ g1.level_progress_max = g.level_progress_max := by
  rw [update_stage_eq] at h
  obtain ⟨p, -, rfl⟩ := Option.map_eq_some'.mp h
  exact ⟨rfl, rfl⟩

theorem handler_progress {g g1 : HeistGame} {e e1 : Entity} {j : Nat}
    (h : handle_agent_collision_traced g e = some (g1, e1, j)) :
    g1.level_progress = g.level_progress ∧ g1.level_progress_max = g.level_progress_max := by
  by_cases hE : e.type = EXIT
  · rw [handler_exit g e hE] at h
    simp only [Option.some.injEq, Prod.mk.injEq] at h
    obtain ⟨rfl, -, -⟩ := h
    exact ⟨rfl, rfl⟩
  by_cases hK : e.type = KEY
  · rw [handler_key g e hK] at h
    obtain ⟨hk, -, h⟩ := Option.bind_eq_some.mp h
    obtain ⟨g2, hu, h⟩ := Option.bind_eq_some.mp h
    simp only [Option.some.injEq, Prod.mk.injEq] at h
    obtain ⟨rfl, -, -⟩ := h
    have hp := update_stage_progress hu
    exact hp
  by_cases hD : e.type = LOCKED_DOOR
  · rw [handler_door g e hD] at h
    obtain ⟨held, -, h⟩ := Option.bind_eq_some.mp h
    cases held with
    | false =>
      simp only [Bool.false_eq_true, if_false, Option.some.injEq, Prod.mk.injEq] at h
      obtain ⟨rfl, -, -⟩ := h
      exact ⟨rfl, rfl⟩
    | true =>
      rw [if_pos rfl] at h
      obtain ⟨g2, hu, h⟩ := Option.bind_eq_some.mp h
      simp only [Option.some.injEq, Prod.mk.injEq] at h
      obtain ⟨rfl, -, -⟩ := h
      have hp := update_stage_progress hu
      exact hp
  · rw [handler_other g e hE hK hD] at h
    simp only [Option.some.injEq, Prod.mk.injEq] at h
    obtain ⟨rfl, -, -⟩ := h
    exact ⟨rfl, rfl⟩

theorem run_handler_progress (es : List Entity) (g g1 : HeistGame)
    (h : run_handler g es = some g1) :
    g1.level_progress = g.level_progress ∧ g1.level_progress_max = g.level_progress_max := by
  induction es generalizing g with
  | nil =>
    simp only [run_handler, Option.some.injEq] at h
    subst h
    exact ⟨rfl, rfl⟩
  | cons e t ih =>
    unfold run_handler at h
    unfold handle_agent_collision at h
    cases hr : handle_agent_collision_traced g e with
    | none =>
      rw [hr] at h
      cases h
    | some r =>
      obtain ⟨g2, e2, j⟩ := r
      rw [hr] at h
      obtain ⟨a, b⟩ := ih g2 h
      obtain ⟨a1, b1⟩ := handler_progress hr
      exact ⟨a.trans a1, b.trans b1⟩

theorem ite_gt_eq_max (a b : Int) : (if a > b then a else b) = max a b := by
  split
  · exact (max_eq_left (by omega)).symm
  · exact (max_eq_right (by omega)).symm

theorem observe_progress (root : ℚ → ℚ) (g : HeistGame) :
    (observe root g).level_progress = max (interp_progress root g) g.level_progress ∧
    (observe root g).level_progress_max =
      max (observe root g).level_progress g.level_progress_max :=
  ⟨ite_gt_eq_max _ _, ite_gt_eq_max _ _⟩

theorem step_progress (root : ℚ → ℚ) (g g1 : HeistGame) (s : StepInput)
    (h : step root g s = some g1) :
    g.level_progress ≤ g1.level_progress ∧ g.level_progress_max ≤ g1.level_progress_max ∧
      g1.level_progress ≤ g1.level_progress_max := by
  unfold step at h
  obtain ⟨g2, hr, rfl⟩ := Option.map_eq_some'.mp h
  obtain ⟨a, b⟩ := run_handler_progress _ _ _ hr
  obtain ⟨c, d⟩ := observe_progress root g2
  have a1 : g2.level_progress = g.level_progress := a
  have b1 : g2.level_progress_max = g.level_progress_max := b
  rw [d, c, a1, b1]
  refine ⟨le_max_right _ _, le_max_right _ _, le_max_left _ _⟩

/-! ## C8: the reported progress never decreases -/

/-- C8: `observe` sets `level_progress` to the maximum of the raw interpolated
value and the previous `level_progress`, sets `level_progress_max` to the
maximum of the new `level_progress` and the previous `level_progress_max`, and
reports both; so along every sequence of steps, whatever the agent does,
neither value decreases, and `level_progress ≤ level_progress_max` after every
step. -/
theorem progress_never_decreases (root : ℚ → ℚ) :
    (∀ g : HeistGame,
      (observe root g).level_progress = max (interp_progress root g) g.level_progress ∧
      (observe root g).level_progress_max =
        max (observe root g).level_progress g.level_progress_max ∧
      (observe root g).info_level_progress = (observe root g).level_progress ∧
      (observe root g).info_level_progress_max = (observe root g).level_progress_max ∧
      g.level_progress ≤ (observe root g).level_progress ∧
      g.level_progress_max ≤ (observe root g).level_progress_max ∧
      (observe root g).level_progress ≤ (observe root g).level_progress_max) ∧
    ∀ (steps : List StepInput) (g g1 : HeistGame), run_steps root g steps = some g1 →
      g.level_progress ≤ g1.level_progress ∧ g.level_progress_max ≤ g1.level_progress_max ∧
      (steps ≠ [] → g1.level_progress ≤ g1.level_progress_max) := by
  constructor
  · intro g
    obtain ⟨c, d⟩ := observe_progress root g
    refine ⟨c, d, rfl, rfl, ?_, ?_, ?_⟩
    · rw [c]; exact le_max_right _ _
    · rw [d]; exact le_max_right _ _
    · rw [d]; exact le_max_left _ _
  · intro steps
    induction steps with
    | nil =>
      intro g g1 h
      simp only [run_steps, Option.some.injEq] at h
      subst h
      exact ⟨le_refl _, le_refl _, fun hne => absurd rfl hne⟩
    | cons s t ih =>
      intro g g1 h
      unfold run_steps at h
      cases hs : step root g s with
      | none =>
        rw [hs] at h
        cases h
      | some g2 =>
        rw [hs] at h
        obtain ⟨a, b, c⟩ := step_progress root g g2 s hs
        obtain ⟨a1, b1, c1⟩ := ih g2 g1 h
        refine ⟨le_trans a a1, le_trans b b1, fun _ => ?_⟩
        cases t with
        | nil =>
          simp only [run_steps, Option.some.injEq] at h
          subst h
          exact c
        | cons u v => exact c1 (List.cons_ne_nil u v)

theorem example_run_steps :
    run_steps example_root example_reset example_steps = some example_observed := by
  decide!

/-- C8, on the worked example: two steps, the reported progress goes from 0
to 20 and on. -/
theorem progress_never_decreases_witness :
    run_steps example_root example_reset example_steps = some example_observed ∧
    example_reset.level_progress ≤ example_observed.level_progress ∧
    example_reset.level_progress_max ≤ example_observed.level_progress_max ∧
    (example_steps ≠ [] → example_observed.level_progress ≤ example_observed.level_progress_max) :=
  ⟨example_run_steps,
    (progress_never_decreases example_root).2 example_steps example_reset example_observed
      example_run_steps⟩

/-! ## C9 and C10: coincident anchors -/

/-- C9, evaluated on the worked example: in the second of the two steps from
the reset state, after key 0 and key 1, both anchors are door 0 and the agent
stands two cells away; the state satisfies
`0 ≤ current_stage < total_stages = 2 * num_keys + 1` and the previous progress
is 20, yet `observe` reports 40000060 for both values, which is not in
`[0, 100]`. -/
theorem progress_above_hundred :
    run_steps example_root example_reset example_steps =
      some (observe example_root example_picked) ∧
    last_anchor example_picked = next_anchor example_picked ∧
    (0 ≤ example_picked.current_stage ∧
      example_picked.current_stage < example_picked.total_stages ∧
      example_picked.total_stages = 2 * example_picked.num_keys + 1) ∧
    (0 ≤ example_picked.level_progress ∧ example_picked.level_progress ≤ 100) ∧
    (observe example_root example_picked).level_progress = 40000060 ∧
    (observe example_root example_picked).level_progress_max = 40000060 ∧
    ¬ (observe example_root example_picked).level_progress ≤ 100 := by
  decide!

/-- C10, evaluated: for a positive distance the slope is `-1 / d_stage`
(`slope 2 = -1 / 2`), but for coincident anchors it is the positive constant
`1000000`; on the worked example the raw progress is then 40000060, above the
60 that the stage index alone gives. -/
theorem slope_sentinel_positive :
    slope 2 = -1 / 2 ∧ slope 0 = 1000000 ∧ ¬ slope 0 < 0 ∧
    interp_progress example_root example_picked = 40000060 ∧
    to_int32 (lround (((example_picked.current_stage : ℚ) + 1) /
      (example_picked.total_stages : ℚ) * 100)) = 60 := by
  decide!


/-! ## The handler, read backwards -/

theorem update_stage_some {g g1 : HeistGame} (h : update_stage g = some g1) :
    ∃ p, next_anchor_rule g = some p ∧ g1 =
      { g with
        current_stage := g.current_stage + 1
        last_stage_x := g.next_stage_x
        last_stage_y := g.next_stage_y
        next_stage_x := p.1
        next_stage_y := p.2 } := by
  rw [update_stage_eq] at h
  obtain ⟨p, hp, rfl⟩ := Option.map_eq_some'.mp h
  exact ⟨p, hp, rfl⟩

theorem handler_result {g g1 : HeistGame} {e e1 : Entity} {j : Nat}
    (h : handle_agent_collision_traced g e = some (g1, e1, j)) :
    (e.type = EXIT ∧ g1 = { g with step_data :=
        { done := true, reward := COMPLETION_BONUS, level_complete := true } } ∧
      e1 = e ∧ j = 0) ∨
    (e.type = KEY ∧ (∃ hk, vset g.has_keys e.image_theme true = some hk ∧
        update_stage { g with has_keys := hk, keys_collected := g.keys_collected + 1 } =
          some g1) ∧
      e1 = { e with will_erase := true } ∧ j = 1) ∨
    (e.type = LOCKED_DOOR ∧ vget g.has_keys e.image_theme = some true ∧
      update_stage { g with num_doors_unlocked := g.num_doors_unlocked + 1 } = some g1 ∧
      e1 = { e with will_erase := true } ∧ j = 1) ∨
    (e.type ≠ EXIT ∧ e.type ≠ KEY ∧
      (e.type = LOCKED_DOOR → vget g.has_keys e.image_theme = some false) ∧
      g1 = g ∧ e1 = e ∧ j = 0) := by
  by_cases hE : e.type = EXIT
  · rw [handler_exit g e hE] at h
    simp only [Option.some.injEq, Prod.mk.injEq] at h
    obtain ⟨rfl, rfl, rfl⟩ := h
    exact Or.inl ⟨hE, rfl, rfl, rfl⟩
  by_cases hK : e.type = KEY
  · rw [handler_key g e hK] at h
    obtain ⟨hk, hv, h⟩ := Option.bind_eq_some.mp h
    obtain ⟨g2, hu, h⟩ := Option.bind_eq_some.mp h
    simp only [Option.some.injEq, Prod.mk.injEq] at h
    obtain ⟨rfl, rfl, rfl⟩ := h
    exact Or.inr (Or.inl ⟨hK, ⟨hk, hv, hu⟩, rfl, rfl⟩)
  by_cases hD : e.type = LOCKED_DOOR
  · rw [handler_door g e hD] at h
    obtain ⟨held, hh, h⟩ := Option.bind_eq_some.mp h
    cases held with
    | false =>
      simp only [Bool.false_eq_true, if_false, Option.some.injEq, Prod.mk.injEq] at h
      obtain ⟨rfl, rfl, rfl⟩ := h
      exact Or.inr (Or.inr (Or.inr ⟨hE, hK, fun _ => hh, rfl, rfl, rfl⟩))
    | true =>
      rw [if_pos rfl] at h
      obtain ⟨g2, hu, h⟩ := Option.bind_eq_some.mp h
      simp only [Option.some.injEq, Prod.mk.injEq] at h
      obtain ⟨rfl, rfl, rfl⟩ := h
      exact Or.inr (Or.inr (Or.inl ⟨hD, hh, hu, rfl, rfl⟩))
  · rw [handler_other g e hE hK hD] at h
    simp only [Option.some.injEq, Prod.mk.injEq] at h
    obtain ⟨rfl, rfl, rfl⟩ := h
    exact Or.inr (Or.inr (Or.inr ⟨hE, hK, fun hd => absurd hd hD, rfl, rfl, rfl⟩))

theorem vget_set_self {α : Type} (v : List α) (c : Int) (a : α) (h0 : 0 ≤ c)
    (h1 : c < v.length) : vget (v.set c.toNat a) c = some a := by
  unfold vget
  rw [if_pos h0]
  have : c.toNat < v.length := by omega
  simp [this]

theorem vget_set_ne {α : Type} (v : List α) (c t : Int) (a : α) (h0 : 0 ≤ c) (ht : t ≠ c) :
    vget (v.set c.toNat a) t = vget v t := by
  unfold vget
  by_cases h : 0 ≤ t
  · rw [if_pos h, if_pos h, List.getElem?_set_ne (by omega)]
  · rw [if_neg h, if_neg h]

theorem vset_some {α : Type} {v w : List α} {i : Int} {a : α} (h : vset v i a = some w) :
    0 ≤ i ∧ i < v.length ∧ w = v.set i.toNat a := by
  unfold vset at h
  split at h
  · rename_i hc
    cases h
    exact ⟨hc.1, by omega, rfl⟩
  · cases h

/-! ## C11: a door opens only with its key -/

/-- C11: for every state and every door entity whose color is a valid index of
the key inventory, the contact unlocks the door if and only if `has_keys[c]`
is true.  When it is true the door is marked for erasure,
`num_doors_unlocked` grows by exactly 1 and `update_stage` runs exactly once
(on the state with the new counter), with the inventory and `keys_collected`
unchanged; when it is false the contact returns the state and the door as
they were.  In a state reached in play the contact is defined. -/
theorem door_contact_effect (g : HeistGame) (e : Entity) (hD : e.type = LOCKED_DOOR) :
    (vget g.has_keys e.image_theme = some false →
      handle_agent_collision_traced g e = some (g, e, 0)) ∧
    (vget g.has_keys e.image_theme = some true →
      handle_agent_collision_traced g e =
        (update_stage { g with num_doors_unlocked := g.num_doors_unlocked + 1 }).map
          (fun g1 => (g1, { e with will_erase := true }, 1)) ∧
      ∀ g1 e1 j, handle_agent_collision_traced g e = some (g1, e1, j) →
        e1.will_erase = true ∧ j = 1 ∧
        g1.num_doors_unlocked = g.num_doors_unlocked + 1 ∧
        g1.current_stage = g.current_stage + 1 ∧
        g1.has_keys = g.has_keys ∧ g1.keys_collected = g.keys_collected) ∧
    (∀ (n : Nat) (ents : List Entity) (i : Nat), ContactInv n g ents → ents[i]? = some e →
      e.will_erase = false → ∃ r, handle_agent_collision_traced g e = some r) := by
  refine ⟨?_, ?_, ?_⟩
  · intro hh
    rw [handler_door g e hD, hh]
    rfl
  · intro hh
    have heq : handle_agent_collision_traced g e =
        (update_stage { g with num_doors_unlocked := g.num_doors_unlocked + 1 }).map
          (fun g1 => (g1, { e with will_erase := true }, 1)) := by
      rw [handler_door g e hD, hh]
      simp only [Option.some_bind, if_true]
      cases update_stage { g with num_doors_unlocked := g.num_doors_unlocked + 1 } <;> rfl
    refine ⟨heq, ?_⟩
    intro g1 e1 j h
    rw [heq] at h
    obtain ⟨g2, hu, h⟩ := Option.map_eq_some'.mp h
    simp only [Prod.mk.injEq] at h
    obtain ⟨rfl, rfl, rfl⟩ := h
    obtain ⟨p, -, rfl⟩ := update_stage_some hu
    exact ⟨rfl, rfl, rfl, rfl, rfl, rfl⟩
  · intro n ents i hinv hi he
    exact handler_defined hinv hi he

/-- C11, on the worked example: door 0 after key 0 only (the key is held),
and door 0 right after the reset (no key). -/
theorem door_contact_effect_witness :
    (door_entity 0).type = LOCKED_DOOR ∧
    vget example_one_key.game.has_keys (door_entity 0).image_theme = some true ∧
    vget example_reset.has_keys (door_entity 0).image_theme = some false ∧
    handle_agent_collision_traced example_reset (door_entity 0) =
      some (example_reset, door_entity 0, 0) ∧
    handle_agent_collision_traced example_one_key.game (door_entity 0) =
      (update_stage { example_one_key.game with
        num_doors_unlocked := example_one_key.game.num_doors_unlocked + 1 }).map
        (fun g1 => (g1, { door_entity 0 with will_erase := true }, 1)) :=
  ⟨rfl, by decide, by decide,
    (door_contact_effect example_reset (door_entity 0) rfl).1 (by decide),
    ((door_contact_effect example_one_key.game (door_entity 0) rfl).2.1 (by decide)).1⟩


/-! ## C12: picking up a key -/

/-- C12: for every state and every key entity whose color `c` is a valid index
of the key inventory, the contact marks the key for erasure, sets
`has_keys[c]`, adds exactly 1 to `keys_collected` and runs `update_stage`
exactly once (on the state with the new inventory and counter); the inventory
at every other color, `num_doors_unlocked`, `num_keys` and the recorded key,
door and exit positions are unchanged.  In a state reached in play the
contact is defined. -/
theorem key_contact_effect (g : HeistGame) (e : Entity) (hK : e.type = KEY)
    (h0 : 0 ≤ e.image_theme) (hlt : e.image_theme < g.has_keys.length) :
    handle_agent_collision_traced g e =
      (update_stage { g with
        has_keys := (g.has_keys.set e.image_theme.toNat true)
        keys_collected := g.keys_collected + 1 }).map
        (fun g1 => (g1, { e with will_erase := true }, 1)) ∧
    (∀ g1 e1 j, handle_agent_collision_traced g e = some (g1, e1, j) →
      e1.will_erase = true ∧ j = 1 ∧
      vget g1.has_keys e.image_theme = some true ∧
      (∀ t, t ≠ e.image_theme → vget g1.has_keys t = vget g.has_keys t) ∧
      g1.keys_collected = g.keys_collected + 1 ∧
      g1.current_stage = g.current_stage + 1 ∧
      g1.num_doors_unlocked = g.num_doors_unlocked ∧ g1.num_keys = g.num_keys ∧
      g1.keys_x = g.keys_x ∧ g1.keys_y = g.keys_y ∧ g1.doors_x = g.doors_x ∧
      g1.doors_y = g.doors_y ∧ g1.exit_x = g.exit_x ∧ g1.exit_y = g.exit_y) ∧
    (∀ (n : Nat) (ents : List Entity) (i : Nat), ContactInv n g ents → ents[i]? = some e →
      e.will_erase = false → ∃ r, handle_agent_collision_traced g e = some r) := by
  have hv := vset_defined g.has_keys e.image_theme true h0 hlt
  have heq : handle_agent_collision_traced g e =
      (update_stage { g with
        has_keys := (g.has_keys.set e.image_theme.toNat true)
        keys_collected := g.keys_collected + 1 }).map
        (fun g1 => (g1, { e with will_erase := true }, 1)) := by
    rw [handler_key g e hK, hv]
    simp only [Option.some_bind]
    cases update_stage { g with
      has_keys := (g.has_keys.set e.image_theme.toNat true)
      keys_collected := g.keys_collected + 1 } <;> rfl
  refine ⟨heq, ?_, fun n ents i hinv hi he => handler_defined hinv hi he⟩
  intro g1 e1 j h
  rw [heq] at h
  obtain ⟨g2, hu, h⟩ := Option.map_eq_some'.mp h
  simp only [Prod.mk.injEq] at h
  obtain ⟨rfl, rfl, rfl⟩ := h
  obtain ⟨p, -, rfl⟩ := update_stage_some hu
  exact ⟨rfl, rfl, vget_set_self g.has_keys e.image_theme true h0 hlt,
    fun t ht => vget_set_ne g.has_keys e.image_theme t true h0 ht,
    rfl, rfl, rfl, rfl, rfl, rfl, rfl, rfl, rfl, rfl⟩

/-- C12, on the worked example: key 1 after key 0. -/
theorem key_contact_effect_witness :
    (key_entity 1).type = KEY ∧ 0 ≤ (key_entity 1).image_theme ∧
    (key_entity 1).image_theme < example_one_key.game.has_keys.length ∧
    handle_agent_collision_traced example_one_key.game (key_entity 1) =
      (update_stage { example_one_key.game with
        has_keys := (example_one_key.game.has_keys.set (key_entity 1).image_theme.toNat true)
        keys_collected := example_one_key.game.keys_collected + 1 }).map
        (fun g1 => (g1, { key_entity 1 with will_erase := true }, 1)) :=
  ⟨rfl, by decide, by decide,
    (key_contact_effect example_one_key.game (key_entity 1) rfl (by decide) (by decide)).1⟩

/-! ## C13: the exit -/

/-- C13: the contact with the exit sets `done = true`, `level_complete = true`
and `reward = 10` and changes nothing else (no call of `update_stage`; the
counters, the key inventory, `current_stage` and both anchors are as before);
the contact with a key or a door, with or without its key, leaves `done`,
`level_complete` and `reward` as they were. -/
theorem exit_contact_effect (g : HeistGame) (e : Entity) :
    COMPLETION_BONUS = 10 ∧
    (e.type = EXIT →
      handle_agent_collision_traced g e =
        some ({ g with step_data :=
          { done := true, reward := COMPLETION_BONUS, level_complete := true } }, e, 0) ∧
      ∀ g1 e1 j, handle_agent_collision_traced g e = some (g1, e1, j) →
        g1.step_data.done = true ∧ g1.step_data.level_complete = true ∧
        g1.step_data.reward = 10 ∧
        g1.keys_collected = g.keys_collected ∧
        g1.num_doors_unlocked = g.num_doors_unlocked ∧ g1.has_keys = g.has_keys ∧
        g1.current_stage = g.current_stage ∧ last_anchor g1 = last_anchor g ∧
        next_anchor g1 = next_anchor g) ∧
    (e.type = KEY ∨ e.type = LOCKED_DOOR →
      ∀ g1 e1 j, handle_agent_collision_traced g e = some (g1, e1, j) →
        g1.step_data = g.step_data) := by
  refine ⟨rfl, ?_, ?_⟩
  · intro hE
    refine ⟨handler_exit g e hE, ?_⟩
    intro g1 e1 j h
    rw [handler_exit g e hE] at h
    simp only [Option.some.injEq, Prod.mk.injEq] at h
    obtain ⟨rfl, -, -⟩ := h
    exact ⟨rfl, rfl, rfl, rfl, rfl, rfl, rfl, rfl, rfl⟩
  · intro ht g1 e1 j h
    have hnE : e.type ≠ EXIT := by
      rcases ht with ht | ht <;> rw [ht] <;> decide
    rcases handler_result h with ⟨hE, -⟩ | ⟨-, ⟨hk, -, hu⟩, -⟩ | ⟨-, -, hu, -⟩ | ⟨-, -, -, rfl, -⟩
    · exact absurd hE hnE
    · obtain ⟨p, -, rfl⟩ := update_stage_some hu
      rfl
    · obtain ⟨p, -, rfl⟩ := update_stage_some hu
      rfl
    · rfl

/-- C13, on the worked example: the exit after all keys and doors, and key 1
after key 0. -/
theorem exit_contact_effect_witness :
    ({ type := EXIT, image_theme := 0, will_erase := false } : Entity).type = EXIT ∧
    handle_agent_collision_traced example_completed.game
      { type := EXIT, image_theme := 0, will_erase := false } =
      some ({ example_completed.game with step_data :=
        { done := true, reward := COMPLETION_BONUS, level_complete := true } },
        { type := EXIT, image_theme := 0, will_erase := false }, 0) ∧
    ((key_entity 1).type = KEY ∨ (key_entity 1).type = LOCKED_DOOR) ∧
    handle_agent_collision_traced example_one_key.game (key_entity 1) =
      some (example_two_keys.game, { key_entity 1 with will_erase := true }, 1) ∧
    example_two_keys.game.step_data = example_one_key.game.step_data :=
  have h : handle_agent_collision_traced example_one_key.game (key_entity 1) =
      some (example_two_keys.game, { key_entity 1 with will_erase := true }, 1) := by
    decide!
  ⟨rfl,
    ((exit_contact_effect example_completed.game
      { type := EXIT, image_theme := 0, will_erase := false }).2.1 rfl).1,
    Or.inl rfl, h,
    (exit_contact_effect example_one_key.game (key_entity 1)).2.2 (Or.inl rfl) _ _ _ h⟩

/-! ## C14: a door blocks until its key is held -/

/-- C14: for every state and every door entity whose color `c` is a valid index
of the key inventory, `is_blocked_ents` with that door as target returns true
exactly when `has_keys[c]` is false; after the contact with a key of color `c`
the door of color `c` is reported passable, and the answer for a door of any
other color is the same as before the pickup. -/
theorem door_blocked_iff_no_key (base_is_blocked : Entity → Entity → Bool → Bool)
    (g : HeistGame) (src target : Entity) (hz : Bool) (hD : target.type = LOCKED_DOOR) :
    (∀ b, vget g.has_keys target.image_theme = some b →
      is_blocked_ents base_is_blocked g src target hz = some (!b)) ∧
    (∀ k g1 k1 j, k.type = KEY → handle_agent_collision_traced g k = some (g1, k1, j) →
      (target.image_theme = k.image_theme →
        is_blocked_ents base_is_blocked g1 src target hz = some false) ∧
      (target.image_theme ≠ k.image_theme →
        is_blocked_ents base_is_blocked g1 src target hz =
          is_blocked_ents base_is_blocked g src target hz)) := by
  constructor
  · intro b hb
    unfold is_blocked_ents
    rw [if_pos hD, hb]
    rfl
  · intro k g1 k1 j hK h
    have hnE : k.type ≠ EXIT := by rw [hK]; decide
    rcases handler_result h with ⟨hE, -⟩ | ⟨-, ⟨hk, hv, hu⟩, -⟩ | ⟨hd, -⟩ | ⟨-, hnK, -⟩
    · exact absurd hE hnE
    · obtain ⟨p, -, rfl⟩ := update_stage_some hu
      obtain ⟨c0, c1, rfl⟩ := vset_some hv
      unfold is_blocked_ents
      simp only [if_pos hD]
      constructor
      · intro ht
        rw [ht, vget_set_self g.has_keys k.image_theme true c0 c1]
        rfl
      · intro ht
        rw [vget_set_ne g.has_keys k.image_theme target.image_theme true c0 ht]
    · rw [hK] at hd
      exact absurd hd (by decide)
    · exact absurd hK hnK

/-- C14, on the worked example: door 0 and door 1 before and after key 0. -/
theorem door_blocked_iff_no_key_witness :
    (door_entity 0).type = LOCKED_DOOR ∧
    vget example_reset.has_keys (door_entity 0).image_theme = some false ∧
    is_blocked_ents (fun _ _ _ => false) example_reset (key_entity 0) (door_entity 0) true =
      some true ∧
    (key_entity 0).type = KEY ∧
    handle_agent_collision_traced example_reset (key_entity 0) =
      some (example_one_key.game, { key_entity 0 with will_erase := true }, 1) ∧
    is_blocked_ents (fun _ _ _ => false) example_one_key.game (key_entity 0) (door_entity 0)
      true = some false :=
  have h : handle_agent_collision_traced example_reset (key_entity 0) =
      some (example_one_key.game, { key_entity 0 with will_erase := true }, 1) := by
    decide!
  ⟨rfl, by decide,
    (door_blocked_iff_no_key (fun _ _ _ => false) example_reset (key_entity 0) (door_entity 0)
      true rfl).1 false (by decide),
    rfl, h,
    ((door_blocked_iff_no_key (fun _ _ _ => false) example_reset (key_entity 0)
      (door_entity 0) true rfl).2 (key_entity 0) _ _ _ rfl h).1 rfl⟩

/-! ## C15: the key inventory -/

/-- C15: after `game_reset` with key count `n` the key inventory has length `n`
and every entry is false; and for every contact event on every state no entry
changes from true to false, and an entry `t` changes from false to true only
when the event is the contact with a key of color `t`. -/
theorem key_inventory_only_grows :
    (∀ (c : Consts) (d : Draws) (grid : Int → Int → Int) (g g0 : HeistGame) (n : Nat),
      game_reset c d grid g = some g0 → g0.num_keys = n →
      g0.has_keys.length = n ∧ ∀ b ∈ g0.has_keys, b = false) ∧
    (∀ (g g1 : HeistGame) (e e1 : Entity) (j : Nat),
      handle_agent_collision_traced g e = some (g1, e1, j) →
      ∀ t, (vget g.has_keys t = some true → vget g1.has_keys t = some true) ∧
        (vget g.has_keys t = some false → vget g1.has_keys t = some true →
          e.type = KEY ∧ e.image_theme = t)) := by
  constructor
  · intro c d grid g g0 n h hn
    have hr := game_reset_shape c d grid g g0 n h hn
    refine ⟨hr.sized.has_keys_len, ?_⟩
    intro b hb
    rw [hr.has_keys] at hb
    exact (List.mem_replicate.mp hb).2
  · intro g g1 e e1 j h t
    rcases handler_result h with ⟨-, rfl, -⟩ | ⟨hK, ⟨hk, hv, hu⟩, -⟩ | ⟨-, -, hu, -⟩ | ⟨-, -, -, rfl, -⟩
    · exact ⟨fun ht => ht, fun hf ht => by rw [hf] at ht; cases ht⟩
    · obtain ⟨p, -, rfl⟩ := update_stage_some hu
      obtain ⟨c0, c1, rfl⟩ := vset_some hv
      by_cases ht : t = e.image_theme
      · subst ht
        exact ⟨fun _ => vget_set_self g.has_keys e.image_theme true c0 c1,
          fun _ _ => ⟨hK, rfl⟩⟩
      · have hne := vget_set_ne g.has_keys e.image_theme t true c0 ht
        refine ⟨fun h1 => ?_, fun hf h1 => ?_⟩
        · show vget (g.has_keys.set e.image_theme.toNat true) t = some true
          rw [hne]
          exact h1
        · have h2 : vget (g.has_keys.set e.image_theme.toNat true) t = some true := h1
          rw [hne, hf] at h2
          cases h2
    · obtain ⟨p, -, rfl⟩ := update_stage_some hu
      exact ⟨fun ht => ht, fun hf ht => by
        have h2 : vget g.has_keys t = some true := ht
        rw [hf] at h2
        cases h2⟩
    · exact ⟨fun ht => ht, fun hf ht => by rw [hf] at ht; cases ht⟩

/-- C15, on the worked example: the reset state, and key 0 picked up. -/
theorem key_inventory_only_grows_witness :
    game_reset example_consts example_draws example_grid example_start = some example_reset ∧
    example_reset.num_keys = (2 : Nat) ∧
    (example_reset.has_keys.length = 2 ∧ ∀ b ∈ example_reset.has_keys, b = false) ∧
    handle_agent_collision_traced example_reset (key_entity 0) =
      some (example_one_key.game, { key_entity 0 with will_erase := true }, 1) ∧
    vget example_reset.has_keys 0 = some false ∧
    vget example_one_key.game.has_keys 0 = some true ∧
    ((key_entity 0).type = KEY ∧ (key_entity 0).image_theme = 0) :=
  have h : handle_agent_collision_traced example_reset (key_entity 0) =
      some (example_one_key.game, { key_entity 0 with will_erase := true }, 1) := by
    decide!
  ⟨example_game_reset, rfl,
    key_inventory_only_grows.1 example_consts example_draws example_grid example_start
      example_reset 2 example_game_reset rfl,
    h, by decide, by decide,
    (key_inventory_only_grows.2 example_reset example_one_key.game (key_entity 0) _ 1 h 0).2
      (by decide) (by decide)⟩


/-! ## C16: the move index -/

theorem set_action_xy_unset (g : HeistGame) (m : Int) (h0 : 0 ≤ m)
    (h1 : g.options.level_options_1 = -1) (h2 : g.options.level_options_2 = -1) :
    (set_action_xy g m).action_vx = ((m / 3 - 1 : Int) : ℚ) ∧
    (set_action_xy g m).action_vy = ((m % 3 - 1 : Int) : ℚ) ∧
    (set_action_xy g m).action_vrot = 0 := by
  have hd : Int.tdiv m 3 = m / 3 := Int.tdiv_eq_ediv h0 (by decide)
  have hm : Int.tmod m 3 = m % 3 := Int.tmod_eq_emod h0 (by decide)
  refine ⟨?_, ?_, rfl⟩
  · show ((Int.tdiv m 3 - 1 : Int) : ℚ) *
      (if g.options.level_options_1 = -1 ∧ g.options.level_options_2 = -1 then 1 else 1 / 2) = _
    rw [if_pos ⟨h1, h2⟩, hd, mul_one]
  · show ((Int.tmod m 3 - 1 : Int) : ℚ) *
      (if g.options.level_options_1 = -1 ∧ g.options.level_options_2 = -1 then 1 else 1 / 2) = _
    rw [if_pos ⟨h1, h2⟩, hm, mul_one]

theorem set_action_xy_override (g : HeistGame) (m : Int) (h0 : 0 ≤ m)
    (h : ¬ (g.options.level_options_1 = -1 ∧ g.options.level_options_2 = -1)) :
    (set_action_xy g m).action_vx = ((m / 3 - 1 : Int) : ℚ) / 2 ∧
    (set_action_xy g m).action_vy = ((m % 3 - 1 : Int) : ℚ) / 2 ∧
    (set_action_xy g m).action_vrot = 0 := by
  have hd : Int.tdiv m 3 = m / 3 := Int.tdiv_eq_ediv h0 (by decide)
  have hm : Int.tmod m 3 = m % 3 := Int.tmod_eq_emod h0 (by decide)
  refine ⟨?_, ?_, rfl⟩
  · show ((Int.tdiv m 3 - 1 : Int) : ℚ) *
      (if g.options.level_options_1 = -1 ∧ g.options.level_options_2 = -1 then 1 else 1 / 2) = _
    rw [if_neg h, hd]
    ring
  · show ((Int.tmod m 3 - 1 : Int) : ℚ) *
      (if g.options.level_options_1 = -1 ∧ g.options.level_options_2 = -1 then 1 else 1 / 2) = _
    rw [if_neg h, hm]
    ring

/-- C16: with both overrides unset, `set_action_xy` maps a move index `m` in
`[0, 8]` to `(action_vx, action_vy) = (m / 3 - 1, m % 3 - 1)`, a pair in
`{-1, 0, 1}²`, with `action_vrot = 0`; distinct indices give distinct pairs and
all nine pairs are reached; when either override is set both components are
exactly half of these values. -/
theorem set_action_xy_table (g : HeistGame) :
    (g.options.level_options_1 = -1 → g.options.level_options_2 = -1 →
      (∀ m : Int, 0 ≤ m → m ≤ 8 →
        (set_action_xy g m).action_vx = ((m / 3 - 1 : Int) : ℚ) ∧
        (set_action_xy g m).action_vy = ((m % 3 - 1 : Int) : ℚ) ∧
        (-1 ≤ m / 3 - 1 ∧ m / 3 - 1 ≤ 1) ∧ (-1 ≤ m % 3 - 1 ∧ m % 3 - 1 ≤ 1) ∧
        (set_action_xy g m).action_vrot = 0) ∧
      (∀ m k : Int, 0 ≤ m → m ≤ 8 → 0 ≤ k → k ≤ 8 →
        (set_action_xy g m).action_vx = (set_action_xy g k).action_vx →
        (set_action_xy g m).action_vy = (set_action_xy g k).action_vy → m = k) ∧
      (∀ a b : Int, -1 ≤ a → a ≤ 1 → -1 ≤ b → b ≤ 1 → ∃ m : Int, 0 ≤ m ∧ m ≤ 8 ∧
        (set_action_xy g m).action_vx = (a : ℚ) ∧ (set_action_xy g m).action_vy = (b : ℚ))) ∧
    (¬ (g.options.level_options_1 = -1 ∧ g.options.level_options_2 = -1) →
      ∀ m : Int, 0 ≤ m → m ≤ 8 →
        (set_action_xy g m).action_vx = ((m / 3 - 1 : Int) : ℚ) / 2 ∧
        (set_action_xy g m).action_vy = ((m % 3 - 1 : Int) : ℚ) / 2 ∧
        (set_action_xy g m).action_vrot = 0) := by
  constructor
  · intro h1 h2
    refine ⟨?_, ?_, ?_⟩
    · intro m h0 h8
      obtain ⟨a, b, c⟩ := set_action_xy_unset g m h0 h1 h2
      exact ⟨a, b, by omega, by omega, c⟩
    · intro m k hm0 hm8 hk0 hk8 hx hy
      obtain ⟨a, b, -⟩ := set_action_xy_unset g m hm0 h1 h2
      obtain ⟨a1, b1, -⟩ := set_action_xy_unset g k hk0 h1 h2
      rw [a, a1] at hx
      rw [b, b1] at hy
      have hx1 : m / 3 - 1 = k / 3 - 1 := by exact_mod_cast hx
      have hy1 : m % 3 - 1 = k % 3 - 1 := by exact_mod_cast hy
      omega
    · intro a b ha0 ha1 hb0 hb1
      refine ⟨3 * (a + 1) + (b + 1), by omega, by omega, ?_, ?_⟩
      · rw [(set_action_xy_unset g _ (by omega) h1 h2).1]
        have : (3 * (a + 1) + (b + 1)) / 3 - 1 = a := by omega
        rw [this]
      · rw [(set_action_xy_unset g _ (by omega) h1 h2).2.1]
        have : (3 * (a + 1) + (b + 1)) % 3 - 1 = b := by omega
        rw [this]
  · intro h m h0 _
    exact set_action_xy_override g m h0 h

/-- C16, on the worked example: overrides unset, move index 5 gives `(0, 1)`;
with the key-count override set, move index 5 gives `(0, 1 / 2)`. -/
theorem set_action_xy_table_witness :
    example_reset.options.level_options_1 = -1 ∧
    example_reset.options.level_options_2 = -1 ∧
    (set_action_xy example_reset 5).action_vx = (((5 : Int) / 3 - 1 : Int) : ℚ) ∧
    (set_action_xy example_reset 5).action_vy = (((5 : Int) % 3 - 1 : Int) : ℚ) ∧
    ¬ (example_start_override.options.level_options_1 = -1 ∧
      example_start_override.options.level_options_2 = -1) ∧
    (set_action_xy example_start_override 5).action_vy = (((5 : Int) % 3 - 1 : Int) : ℚ) / 2 :=
  have h := ((set_action_xy_table example_reset).1 rfl rfl).1 5 (by decide) (by decide)
  ⟨rfl, rfl, h.1, h.2.1, by decide,
    ((set_action_xy_table example_start_override).2 (by decide) 5 (by decide)
      (by decide)).2.1⟩

/-! ## C18: both keys before any door -/

theorem key_pickup_next_door {g g1 : HeistGame} {e e1 : Entity} {j : Nat} (hK : e.type = KEY)
    (h : handle_agent_collision_traced g e = some (g1, e1, j))
    (hlt : g1.num_doors_unlocked < g1.keys_collected)
    (hne : g1.num_doors_unlocked ≠ g1.num_keys) :
    some (next_anchor g1) = door_position g1 g1.num_doors_unlocked := by
  have hnE : e.type ≠ EXIT := by rw [hK]; decide
  rcases handler_result h with ⟨hE, -⟩ | ⟨-, ⟨hk, hv, hu⟩, -⟩ | ⟨hd, -⟩ | ⟨-, hnK, -⟩
  · exact absurd hE hnE
  · obtain ⟨p, hp, rfl⟩ := update_stage_some hu
    have hlt1 : g.num_doors_unlocked < g.keys_collected + 1 := hlt
    have hn1 : g.num_doors_unlocked ≠ g.num_keys := hne
    have hn2 : g.keys_collected + 1 ≠ g.num_doors_unlocked := by omega
    unfold next_anchor_rule at hp
    simp only [if_neg hn1, if_neg hn2] at hp
    show some (p.1, p.2) = door_position _ g.num_doors_unlocked
    rw [← hp]
    rfl
  · rw [hK] at hd
    exact absurd hd (by decide)
  · exact absurd hK hnK

/-- C18, the general sentence refuted on the worked example: the snapshot of
the start of the level is restored into the instance that has opened both
doors, which keeps its counters `keys_collected = num_doors_unlocked = 2`
(they are not part of a snapshot); the agent then picks up key 0.  After this
key pickup `num_doors_unlocked = 2 < 3 = keys_collected`, and the next anchor
is the position of the exit (rule 1, `num_doors_unlocked = num_keys`), while
there is no door number 2.  So the sentence "whenever
`num_doors_unlocked < keys_collected` after a key pickup, the next anchor is
the position of door number `num_doors_unlocked`" does not hold of every
state. -/
theorem key_pickup_after_restore_targets_exit :
    (deserialize example_base_read example_completed.game
        (serialize example_base_cells example_reset []) = some (example_replayed, []) ∧
      (key_entity 0).type = KEY ∧
      handle_agent_collision_traced example_replayed (key_entity 0) =
        some (example_replayed_key, { key_entity 0 with will_erase := true }, 1) ∧
      example_replayed_key.num_keys = 2 ∧
      example_replayed_key.num_doors_unlocked = 2 ∧
      example_replayed_key.keys_collected = 3 ∧
      next_anchor example_replayed_key = exit_position example_replayed_key ∧
      door_position example_replayed_key example_replayed_key.num_doors_unlocked = none) ∧
    ¬ (∀ (g g1 : HeistGame) (e e1 : Entity) (j : Nat), e.type = KEY →
      handle_agent_collision_traced g e = some (g1, e1, j) →
      g1.num_doors_unlocked < g1.keys_collected →
      some (next_anchor g1) = door_position g1 g1.num_doors_unlocked) := by
  have hrun : handle_agent_collision_traced example_replayed (key_entity 0) =
      some (example_replayed_key, { key_entity 0 with will_erase := true }, 1) := by
    decide!
  have hdoor : door_position example_replayed_key
      example_replayed_key.num_doors_unlocked = none := by
    decide!
  refine ⟨⟨by decide!, rfl, hrun, rfl, rfl, rfl, by decide!, hdoor⟩, ?_⟩
  intro hall
  have h := hall example_replayed example_replayed_key (key_entity 0) _ 1 rfl hrun
    (by decide)
  rw [hdoor] at h
  exact Option.noConfusion h

/-- C18, amended: with key count 2, from the state left by `game_reset`, after
the contacts with key 0 and then key 1 and no door, `keys_collected = 2`,
`num_doors_unlocked = 0`, `current_stage = 2` and the next anchor is the
position of door 0; more generally, after any key pickup that leaves
`num_doors_unlocked < keys_collected` and `num_doors_unlocked ≠ num_keys`, the
next anchor is the position of door number `num_doors_unlocked`. -/
theorem two_keys_then_door_zero :
    (∀ (c : Consts) (d : Draws) (grid : Int → Int → Int) (g g0 : HeistGame),
      game_reset c d grid g = some g0 → g0.num_keys = 2 →
      ∃ g2, run_handler g0 [key_entity 0, key_entity 1] = some g2 ∧
        g2.keys_collected = 2 ∧ g2.num_doors_unlocked = 0 ∧ g2.current_stage = 2 ∧
        some (next_anchor g2) = door_position g0 0) ∧
    (∀ (g g1 : HeistGame) (e e1 : Entity) (j : Nat), e.type = KEY →
      handle_agent_collision_traced g e = some (g1, e1, j) →
      g1.num_doors_unlocked < g1.keys_collected →
      g1.num_doors_unlocked ≠ g1.num_keys →
      some (next_anchor g1) = door_position g1 g1.num_doors_unlocked) := by
  constructor
  · intro c d grid g g0 h hn
    have hr := game_reset_shape c d grid g g0 2 h hn
    obtain ⟨r1, hr1, hmid⟩ := nest_key_step (nest_init hr) (by decide)
    have hs := hmid.sized
    have hv := vset_defined r1.1.has_keys ((1 : Nat) : Int) true (by decide)
      (by rw [hs.has_keys_len]; decide)
    obtain ⟨p, hp⟩ := door_position_defined hs 0 (by decide)
    have hn1 : r1.1.num_doors_unlocked ≠ r1.1.num_keys := by
      rw [hmid.num_doors_unlocked, hs.num_keys_eq]; decide
    have hn2 : r1.1.keys_collected + 1 ≠ r1.1.num_doors_unlocked := by
      rw [hmid.num_doors_unlocked, hmid.keys_collected]; decide
    have hrule : next_anchor_rule { r1.1 with
        has_keys := (r1.1.has_keys.set (Int.toNat ((1 : Nat) : Int)) true)
        keys_collected := r1.1.keys_collected + 1 } = some p := by
      unfold next_anchor_rule
      simp only [if_neg hn1, if_neg hn2]
      rw [← hp, hmid.num_doors_unlocked]
      rfl
    have hres := key_contact_result r1.1 (key_entity 1) _ p rfl hv hrule
    refine ⟨{ r1.1 with
      has_keys := (r1.1.has_keys.set (Int.toNat ((1 : Nat) : Int)) true)
      keys_collected := r1.1.keys_collected + 1
      current_stage := r1.1.current_stage + 1
      last_stage_x := r1.1.next_stage_x
      last_stage_y := r1.1.next_stage_y
      next_stage_x := p.1
      next_stage_y := p.2 }, ?_, ?_, ?_, ?_, ?_⟩
    · simp only [run_handler, hr1]
      unfold handle_agent_collision
      rw [hres]
      rfl
    · show r1.1.keys_collected + 1 = 2
      rw [hmid.keys_collected]; rfl
    · show r1.1.num_doors_unlocked = 0
      rw [hmid.num_doors_unlocked]; rfl
    · show r1.1.current_stage + 1 = 2
      rw [hmid.current_stage]; rfl
    · show some (p.1, p.2) = door_position g0 0
      rw [← door_position_congr hmid.doors_x hmid.doors_y]
      exact hp.symm
  · intro g g1 e e1 j hK h hlt hne
    exact key_pickup_next_door hK h hlt hne

/-- C18, on the worked example: the scenario with two keys, and the general
part at the pickup of key 1 after key 0 (`num_doors_unlocked = 0 < 2`,
`num_keys = 2`, door number 0 at `(11 / 2, 1 / 2)`). -/
theorem two_keys_then_door_zero_witness :
    game_reset example_consts example_draws example_grid example_start = some example_reset ∧
    example_reset.num_keys = 2 ∧
    (∃ g2, run_handler example_reset [key_entity 0, key_entity 1] = some g2 ∧
      g2.keys_collected = 2 ∧ g2.num_doors_unlocked = 0 ∧ g2.current_stage = 2 ∧
      some (next_anchor g2) = door_position example_reset 0) ∧
    (key_entity 1).type = KEY ∧
    handle_agent_collision_traced example_one_key.game (key_entity 1) =
      some (example_two_keys.game, { key_entity 1 with will_erase := true }, 1) ∧
    example_two_keys.game.num_doors_unlocked < example_two_keys.game.keys_collected ∧
    example_two_keys.game.num_doors_unlocked ≠ example_two_keys.game.num_keys ∧
    some (next_anchor example_two_keys.game) =
      door_position example_two_keys.game example_two_keys.game.num_doors_unlocked ∧
    door_position example_two_keys.game example_two_keys.game.num_doors_unlocked =
      some (11 / 2, 1 / 2) :=
  have hrun : handle_agent_collision_traced example_one_key.game (key_entity 1) =
      some (example_two_keys.game, { key_entity 1 with will_erase := true }, 1) := by
    decide!
  ⟨example_game_reset, rfl,
    two_keys_then_door_zero.1 example_consts example_draws example_grid example_start
      example_reset example_game_reset rfl,
    rfl, hrun, by decide, by decide,
    two_keys_then_door_zero.2 example_one_key.game example_two_keys.game (key_entity 1) _ 1
      rfl hrun (by decide) (by decide),
    by decide!⟩

/-! ## C20: the indices of `update_stage` -/

/-- C20: when `update_stage` is entered with
`num_doors_unlocked ≤ keys_collected ≤ num_keys` and the four position vectors
of length `num_keys`, the key branch reads an index `keys_collected` below the
length of `keys_x` and `keys_y`, the door branch reads an index
`num_doors_unlocked` below the length of `doors_x` and `doors_y`; the counters
being counts (`0 ≤ num_doors_unlocked`), no read is out of range and
`update_stage` returns a state. -/
theorem update_stage_in_bounds (g : HeistGame)
    (hkx : (g.keys_x.length : Int) = g.num_keys) (hky : (g.keys_y.length : Int) = g.num_keys)
    (hdx : (g.doors_x.length : Int) = g.num_keys)
    (hdy : (g.doors_y.length : Int) = g.num_keys)
    (h1 : g.num_doors_unlocked ≤ g.keys_collected) (h2 : g.keys_collected ≤ g.num_keys) :
    (g.num_doors_unlocked ≠ g.num_keys → g.keys_collected = g.num_doors_unlocked →
      g.keys_collected < g.keys_x.length ∧ g.keys_collected < g.keys_y.length) ∧
    (g.num_doors_unlocked ≠ g.num_keys → g.keys_collected ≠ g.num_doors_unlocked →
      g.num_doors_unlocked < g.doors_x.length ∧ g.num_doors_unlocked < g.doors_y.length) ∧
    (0 ≤ g.num_doors_unlocked → ∃ g1, update_stage g = some g1) := by
  refine ⟨fun hd hk => ⟨by omega, by omega⟩, fun hd hk => ⟨by omega, by omega⟩, ?_⟩
  intro h0
  rw [update_stage_eq]
  unfold next_anchor_rule key_position door_position
  by_cases hd : g.num_doors_unlocked = g.num_keys
  · rw [if_pos hd]
    exact ⟨_, rfl⟩
  · rw [if_neg hd]
    by_cases hk : g.keys_collected = g.num_doors_unlocked
    · obtain ⟨x, hx⟩ := vget_defined g.keys_x g.keys_collected (by omega) (by omega)
      obtain ⟨y, hy⟩ := vget_defined g.keys_y g.keys_collected (by omega) (by omega)
      rw [if_pos hk, hx, hy]
      exact ⟨_, rfl⟩
    · obtain ⟨x, hx⟩ := vget_defined g.doors_x g.num_doors_unlocked h0 (by omega)
      obtain ⟨y, hy⟩ := vget_defined g.doors_y g.num_doors_unlocked h0 (by omega)
      rw [if_neg hk, hx, hy]
      exact ⟨_, rfl⟩

/-- C20, on the worked example after key 0 (door branch, index 0 of 2). -/
theorem update_stage_in_bounds_witness :
    (example_one_key.game.keys_x.length : Int) = example_one_key.game.num_keys ∧
    example_one_key.game.num_doors_unlocked ≤ example_one_key.game.keys_collected ∧
    example_one_key.game.keys_collected ≤ example_one_key.game.num_keys ∧
    0 ≤ example_one_key.game.num_doors_unlocked ∧
    ∃ g1, update_stage example_one_key.game = some g1 :=
  ⟨by decide, by decide, by decide, by decide,
    (update_stage_in_bounds example_one_key.game (by decide) (by decide) (by decide)
      (by decide) (by decide) (by decide)).2.2 (by decide)⟩


/-! ## C17: the first anchors -/

theorem foldlM_write {σ α β : Type} (f : σ → α → Option σ) (A : σ → β) (I : σ → Prop)
    (hit : α → Prop) (v : β) (l : List α)
    (hf : ∀ a ∈ l, ∀ s s1, I s → f s a = some s1 →
      I s1 ∧ (¬ hit a → A s1 = A s) ∧ (hit a → A s1 = v))
    (s s1 : σ) (hs : I s) (h : l.foldlM f s = some s1) :
    I s1 ∧ ((∃ a ∈ l, hit a) → A s1 = v) ∧ ((∀ a ∈ l, ¬ hit a) → A s1 = A s) := by
  induction l generalizing s with
  | nil =>
    simp only [List.foldlM_nil] at h
    cases h
    exact ⟨hs, fun ⟨a, ha, _⟩ => absurd ha (List.not_mem_nil a), fun _ => rfl⟩
  | cons a t ih =>
    rw [List.foldlM_cons] at h
    obtain ⟨s2, h2, h3⟩ := Option.bind_eq_some.mp h
    obtain ⟨i2, keep2, set2⟩ := hf a (List.mem_cons_self a t) s s2 hs h2
    obtain ⟨i1, hex, hall⟩ :=
      ih (fun b hb => hf b (List.mem_cons_of_mem a hb)) s2 i2 h3
    refine ⟨i1, ?_, ?_⟩
    · rintro ⟨b, hb, hhit⟩
      by_cases ht : ∃ b ∈ t, hit b
      · exact hex ht
      · have hnone : ∀ b ∈ t, ¬ hit b := fun b hb hh => ht ⟨b, hb, hh⟩
        have hb' : b = a := by
          rcases List.mem_cons.mp hb with hba | hbt
          · exact hba
          · exact absurd hhit (hnone b hbt)
        rw [hall hnone]
        exact set2 (hb' ▸ hhit)
    · intro hnone
      rw [hall (fun b hb => hnone b (List.mem_cons_of_mem a hb))]
      exact keep2 (hnone a (List.mem_cons_self a t))

theorem bind_cast (l : List Nat) :
    (do let a ← l; pure (a : Int) : List Int) = l.map Nat.cast := by
  rw [bind_pure_comp]
  rfl

theorem place_cells_eq (c : Consts) (d : Draws) (grid : Int → Int → Int) (dim : Int)
    (g : HeistGame) :
    place_cells c d grid dim g =
      (List.range dim.toNat).foldlM
        (fun s (i : Nat) => (List.range dim.toNat).foldlM
          (fun s (j : Nat) => place_cell c d grid s (i : Int) (j : Int)) s) g := by
  unfold place_cells
  simp only [bind_cast, List.foldlM_map]

theorem place_cell_agent (c : Consts) (d : Draws) (grid : Int → Int → Int) (g g1 : HeistGame)
    (i j : Int) (hD : c.AGENT_OBJ < c.DOOR_OBJ) (hK : c.AGENT_OBJ < c.KEY_OBJ)
    (hX : c.AGENT_OBJ ≠ c.EXIT_OBJ) (h : place_cell c d grid g i j = some g1) :
    maze_scale g1 = maze_scale g ∧
    (grid (i + c.MAZE_OFFSET) (j + c.MAZE_OFFSET) ≠ c.AGENT_OBJ →
      (g1.agent_x, g1.agent_y) = (g.agent_x, g.agent_y)) ∧
    (grid (i + c.MAZE_OFFSET) (j + c.MAZE_OFFSET) = c.AGENT_OBJ →
      (g1.agent_x, g1.agent_y) = cell_centre d (maze_scale g) i j) := by
  unfold place_cell at h
  simp only at h
  split at h
  · rename_i hk
    obtain ⟨kx, -, h⟩ := Option.bind_eq_some.mp h
    obtain ⟨ky, -, h⟩ := Option.bind_eq_some.mp h
    cases h
    exact ⟨rfl, fun _ => rfl, fun ha => by rw [ha] at hk; omega⟩
  · split at h
    · rename_i hk hd
      obtain ⟨kx, -, h⟩ := Option.bind_eq_some.mp h
      obtain ⟨ky, -, h⟩ := Option.bind_eq_some.mp h
      cases h
      exact ⟨rfl, fun _ => rfl, fun ha => by rw [ha] at hd; omega⟩
    · split at h
      · rename_i hk hd hx
        cases h
        exact ⟨rfl, fun _ => rfl, fun ha => by rw [ha] at hx; exact absurd hx hX⟩
      · split at h
        · cases h
          refine ⟨rfl, fun hne => ?_, fun _ => ?_⟩
          · rename_i ha
            exact absurd ha hne
          · simp [cell_centre, world_cell]
        · rename_i ha
          cases h
          exact ⟨rfl, fun _ => rfl, fun he => absurd he ha⟩

theorem place_cells_agent (c : Consts) (d : Draws) (grid : Int → Int → Int) (dim : Int)
    (g g1 : HeistGame) (i0 j0 : Nat) (hD : c.AGENT_OBJ < c.DOOR_OBJ)
    (hK : c.AGENT_OBJ < c.KEY_OBJ) (hX : c.AGENT_OBJ ≠ c.EXIT_OBJ)
    (hi : i0 < dim.toNat) (hj : j0 < dim.toNat)
    (hcell : grid (i0 + c.MAZE_OFFSET) (j0 + c.MAZE_OFFSET) = c.AGENT_OBJ)
    (honly : ∀ i j : Nat, i < dim.toNat → j < dim.toNat →
      grid (i + c.MAZE_OFFSET) (j + c.MAZE_OFFSET) = c.AGENT_OBJ → i = i0 ∧ j = j0)
    (h : place_cells c d grid dim g = some g1) :
    (g1.agent_x, g1.agent_y) = cell_centre d (maze_scale g) i0 j0 := by
  rw [place_cells_eq] at h
  have houter := foldlM_write
    (fun s (i : Nat) => (List.range dim.toNat).foldlM
      (fun s (j : Nat) => place_cell c d grid s (i : Int) (j : Int)) s)
    (fun s => (s.agent_x, s.agent_y)) (fun s => maze_scale s = maze_scale g)
    (fun i => i = i0) (cell_centre d (maze_scale g) i0 j0) (List.range dim.toNat)
    (by
      intro i hir s s1 hs hrow
      have hinner := foldlM_write
        (fun s (j : Nat) => place_cell c d grid s (i : Int) (j : Int))
        (fun s => (s.agent_x, s.agent_y)) (fun s => maze_scale s = maze_scale g)
        (fun j => i = i0 ∧ j = j0) (cell_centre d (maze_scale g) i0 j0)
        (List.range dim.toNat)
        (by
          intro j hjr t t1 ht hstep
          obtain ⟨hsc, hkeep, hset⟩ := place_cell_agent c d grid t t1 i j hD hK hX hstep
          refine ⟨hsc.trans ht, ?_, ?_⟩
          · intro hnot
            show (t1.agent_x, t1.agent_y) = (t.agent_x, t.agent_y)
            apply hkeep
            intro hag
            exact hnot (honly i j (List.mem_range.mp hir) (List.mem_range.mp hjr) hag)
          · rintro ⟨rfl, rfl⟩
            show (t1.agent_x, t1.agent_y) = _
            rw [hset hcell, ht])
        s s1 hs hrow
      obtain ⟨hI, hex, hall⟩ := hinner
      refine ⟨hI, ?_, ?_⟩
      · intro hne
        exact hall (fun j _ hh => hne hh.1)
      · intro he
        exact hex ⟨j0, List.mem_range.mpr hj, he, rfl⟩)
    g g1 rfl h
  exact houter.2.1 ⟨i0, List.mem_range.mpr hi, rfl⟩

theorem init_anchors_agent {g g0 : HeistGame} (h : init_anchors g = some g0) :
    (g0.agent_x, g0.agent_y) = (g.agent_x, g.agent_y) := by
  unfold init_anchors at h
  simp only at h
  split at h
  · cases h
    rfl
  · obtain ⟨x, -, h⟩ := Option.bind_eq_some.mp h
    obtain ⟨y, -, h⟩ := Option.bind_eq_some.mp h
    cases h
    rfl

/-- C17: on completion of `game_reset` with key count `n` the last anchor is
the agent position, the next anchor is the recorded position of key 0 when
`n > 0` and the exit position when `n = 0`; and when the maze has exactly one
agent-start cell `(i0, j0)` (with the cell code of the agent below those of
doors and keys and different from the exit code), the agent position is the
centre of the world cell of that maze cell. -/
theorem reset_anchors (c : Consts) (d : Draws) (grid : Int → Int → Int)
    (g g0 : HeistGame) (n : Nat) (h : game_reset c d grid g = some g0)
    (hn : g0.num_keys = n) :
    last_anchor g0 = (g0.agent_x, g0.agent_y) ∧
    (n = 0 → next_anchor g0 = exit_position g0) ∧
    (0 < n → some (next_anchor g0) = key_position g0 0) ∧
    (∀ i0 j0 : Nat, c.AGENT_OBJ < c.DOOR_OBJ → c.AGENT_OBJ < c.KEY_OBJ →
      c.AGENT_OBJ ≠ c.EXIT_OBJ →
      i0 < (maze_dim d g.options).toNat → j0 < (maze_dim d g.options).toNat →
      grid (i0 + c.MAZE_OFFSET) (j0 + c.MAZE_OFFSET) = c.AGENT_OBJ →
      (∀ i j : Nat, i < (maze_dim d g.options).toNat → j < (maze_dim d g.options).toNat →
        grid (i + c.MAZE_OFFSET) (j + c.MAZE_OFFSET) = c.AGENT_OBJ → i = i0 ∧ j = j0) →
      last_anchor g0 = cell_centre d (maze_scale g) i0 j0) := by
  have hr := game_reset_shape c d grid g g0 n h hn
  refine ⟨hr.last, ?_, ?_, ?_⟩
  · intro h0
    have := hr.next
    rw [if_pos h0] at this
    exact Option.some.inj this
  · intro h0
    have := hr.next
    rw [if_neg (by omega)] at this
    exact this
  · intro i0 j0 hD hK hX hi hj hcell honly
    rw [hr.last]
    unfold game_reset at h
    obtain ⟨g1, hp, ha⟩ := Option.bind_eq_some.mp h
    rw [init_anchors_agent ha]
    have hpc := place_cells_agent c d grid _ _ g1 i0 j0 hD hK hX (by exact hi) (by exact hj)
      hcell (by exact honly) hp
    exact hpc


theorem example_agent_cell_only (i j : Nat)
    (h : example_grid (i + example_consts.MAZE_OFFSET) (j + example_consts.MAZE_OFFSET) =
      example_consts.AGENT_OBJ) : i = 0 ∧ j = 0 := by
  have h1 : example_consts.MAZE_OFFSET = 1 := rfl
  have h2 : example_consts.AGENT_OBJ = 10 := rfl
  rw [h1, h2] at h
  unfold example_grid at h
  split_ifs at h <;> omega

/-- C17, on the worked example: two keys, the agent-start cell is the maze
cell `(0, 0)`, whose world cell `(1, 0)` has centre `(3 / 2, 1 / 2)`. -/
theorem reset_anchors_witness :
    game_reset example_consts example_draws example_grid example_start = some example_reset ∧
    example_reset.num_keys = (2 : Nat) ∧
    last_anchor example_reset = (example_reset.agent_x, example_reset.agent_y) ∧
    some (next_anchor example_reset) = key_position example_reset 0 ∧
    last_anchor example_reset = cell_centre example_draws (maze_scale example_start) 0 0 ∧
    cell_centre example_draws (maze_scale example_start) 0 0 = (3 / 2, 1 / 2) :=
  have h := reset_anchors example_consts example_draws example_grid example_start
    example_reset 2 example_game_reset rfl
  ⟨example_game_reset, rfl, h.1, h.2.2.1 (by decide),
    h.2.2.2 0 0 (by decide) (by decide) (by decide) (by decide) (by decide) (by decide)
      (fun i j _ _ hg => example_agent_cell_only i j hg),
    by decide!⟩

/-! ## C19: the maze lies inside the world -/

theorem choose_world_dim_fields (c : Consts) (g : HeistGame)
    (hmode : g.options.distribution_mode = c.EasyMode ∨
      g.options.distribution_mode = c.HardMode ∨
      g.options.distribution_mode = c.MemoryMode) :
    (choose_world_dim c g).options = g.options ∧
    ((choose_world_dim c g).world_dim = 9 ∨ (choose_world_dim c g).world_dim = 13 ∨
      (choose_world_dim c g).world_dim = 23) ∧
    (choose_world_dim c g).main_width = (choose_world_dim c g).world_dim ∧
    (choose_world_dim c g).main_height = (choose_world_dim c g).world_dim := by
  by_cases h1 : g.options.distribution_mode = c.EasyMode
  · refine ⟨?_, ?_, ?_, ?_⟩ <;> simp [choose_world_dim, if_pos h1]
  · by_cases h2 : g.options.distribution_mode = c.HardMode
    · refine ⟨?_, ?_, ?_, ?_⟩ <;> simp [choose_world_dim, if_neg h1, if_pos h2]
    · have h3 : g.options.distribution_mode = c.MemoryMode := by
        rcases hmode with h | h | h
        · exact absurd h h1
        · exact absurd h h2
        · exact h
      refine ⟨?_, ?_, ?_, ?_⟩ <;> simp [choose_world_dim, if_neg h1, if_neg h2, if_pos h3]

theorem randn_in_range (raw : Nat) (k : Int) (hk : 0 < k) : randn_range k (randn raw k) :=
  ⟨Int.emod_nonneg _ (by omega), Int.emod_lt_of_pos _ hk⟩

theorem randn_of_range (k v : Int) (h : randn_range k v) : randn v.toNat k = v := by
  obtain ⟨h0, h1⟩ := h
  unfold randn
  rw [Int.toNat_of_nonneg h0]
  exact Int.emod_eq_of_lt h0 h1

theorem max_diff_pos (g : HeistGame)
    (hw : g.world_dim = 9 ∨ g.world_dim = 13 ∨ g.world_dim = 23) :
    0 < max_diff g + 1 ∧ 2 * max_diff g + 5 ≤ g.world_dim := by
  unfold max_diff
  rcases hw with hw | hw | hw <;> rw [hw] <;> decide

theorem maze_dim_no_override (d : Draws) (o : GameOptions) (hlo : o.level_options_1 = -1) :
    maze_dim d o = 2 * d.difficulty + 5 := by
  unfold maze_dim
  rw [if_pos hlo]
  ring

theorem reset_draws_fields (c : Consts) (r : RawDraws) (g : HeistGame)
    (hlo : g.options.level_options_1 = -1) :
    (reset_draws c r g).difficulty = randn r.raw_difficulty (max_diff g + 1) ∧
    (reset_draws c r g).keys_draw =
      (if g.options.distribution_mode = c.MemoryMode then randn r.raw_keys 4
        else randn r.raw_keys 2) ∧
    (reset_draws c r g).off_x =
      randn r.raw_off_x (g.world_dim - maze_dim (reset_draws c r g) g.options + 1) ∧
    (reset_draws c r g).off_y =
      randn r.raw_off_y (g.world_dim - maze_dim (reset_draws c r g) g.options + 1) := by
  refine ⟨rfl, rfl, ?_, ?_⟩
  · rw [maze_dim_no_override _ _ hlo]
    show randn r.raw_off_x (g.world_dim - maze_dim _ g.options + 1) = _
    rw [maze_dim_no_override _ _ hlo]
    rfl
  · rw [maze_dim_no_override _ _ hlo]
    show randn r.raw_off_y (g.world_dim - maze_dim _ g.options + 1) = _
    rw [maze_dim_no_override _ _ hlo]
    rfl

theorem reset_draws_in_range (c : Consts) (r : RawDraws) (g : HeistGame)
    (hw : g.world_dim = 9 ∨ g.world_dim = 13 ∨ g.world_dim = 23)
    (hlo : g.options.level_options_1 = -1) :
    draws_in_range c g (reset_draws c r g) := by
  obtain ⟨hd, hk, hx, hy⟩ := reset_draws_fields c r g hlo
  obtain ⟨hpos, hmax⟩ := max_diff_pos g hw
  have hdiff := randn_in_range r.raw_difficulty (max_diff g + 1) hpos
  rw [← hd] at hdiff
  have hm := maze_dim_no_override (reset_draws c r g) g.options hlo
  have hk0 : 0 < g.world_dim - maze_dim (reset_draws c r g) g.options + 1 := by
    obtain ⟨-, h1⟩ := hdiff
    rw [hm]
    omega
  refine ⟨hdiff, ?_, ?_, ?_⟩
  · rw [hk]
    split
    · exact randn_in_range _ _ (by decide)
    · exact randn_in_range _ _ (by decide)
  · rw [hx]
    exact randn_in_range _ _ hk0
  · rw [hy]
    exact randn_in_range _ _ hk0

theorem draws_ext (a b : Draws) (h1 : a.difficulty = b.difficulty)
    (h2 : a.keys_draw = b.keys_draw) (h3 : a.off_x = b.off_x) (h4 : a.off_y = b.off_y) :
    a = b := by
  cases a
  cases b
  simp only at h1 h2 h3 h4
  subst h1 h2 h3 h4
  rfl

theorem reset_draws_onto (c : Consts) (g : HeistGame) (d : Draws)
    (hlo : g.options.level_options_1 = -1) (hd : draws_in_range c g d) :
    reset_draws c
      { raw_difficulty := d.difficulty.toNat, raw_keys := d.keys_draw.toNat,
        raw_off_x := d.off_x.toNat, raw_off_y := d.off_y.toNat } g = d := by
  obtain ⟨h1, h2, h3, h4⟩ := hd
  obtain ⟨e1, e2, e3, e4⟩ := reset_draws_fields c
    { raw_difficulty := d.difficulty.toNat, raw_keys := d.keys_draw.toNat,
      raw_off_x := d.off_x.toNat, raw_off_y := d.off_y.toNat } g hlo
  have hdiff := e1.trans (randn_of_range _ _ h1)
  have hm : maze_dim (reset_draws c
      { raw_difficulty := d.difficulty.toNat, raw_keys := d.keys_draw.toNat,
        raw_off_x := d.off_x.toNat, raw_off_y := d.off_y.toNat } g) g.options =
      maze_dim d g.options := by
    rw [maze_dim_no_override _ _ hlo, maze_dim_no_override _ _ hlo, hdiff]
  rw [hm] at e3 e4
  have hkeys := e2.trans (by
    show (if g.options.distribution_mode = c.MemoryMode then randn d.keys_draw.toNat 4
      else randn d.keys_draw.toNat 2) = d.keys_draw
    split
    · rename_i hmem
      rw [if_pos hmem] at h2
      exact randn_of_range _ _ h2
    · rename_i hmem
      rw [if_neg hmem] at h2
      exact randn_of_range _ _ h2)
  have hx := e3.trans (randn_of_range _ _ h3)
  have hy := e4.trans (randn_of_range _ _ h4)
  exact draws_ext _ _ hdiff hkeys hx hy

theorem maze_bounds_of_draws (c : Consts) (g : HeistGame) (d : Draws)
    (hw : g.world_dim = 9 ∨ g.world_dim = 13 ∨ g.world_dim = 23)
    (hlo : g.options.level_options_1 = -1) (hd : draws_in_range c g d) :
    maze_dim d g.options = 2 * d.difficulty + 5 ∧
    0 ≤ d.difficulty ∧ maze_dim d g.options ≤ g.world_dim ∧
    (0 ≤ d.off_x ∧ d.off_x ≤ g.world_dim - maze_dim d g.options) ∧
    (0 ≤ d.off_y ∧ d.off_y ≤ g.world_dim - maze_dim d g.options) := by
  obtain ⟨⟨hd0, hd1⟩, -, ⟨hx0, hx1⟩, ⟨hy0, hy1⟩⟩ := hd
  obtain ⟨-, hmax⟩ := max_diff_pos g hw
  have hm := maze_dim_no_override d g.options hlo
  rw [hm] at hx1 hy1 ⊢
  exact ⟨rfl, hd0, by omega, ⟨hx0, by omega⟩, ⟨hy0, by omega⟩⟩

theorem mem_space_cells {c : Consts} {d : Draws} {grid : Int → Int → Int} {dim : Int}
    {p : Int × Int} (h : p ∈ space_cells c d grid dim) :
    ∃ i j : Nat, i < dim.toNat ∧ j < dim.toNat ∧
      grid ((i : Int) + c.MAZE_OFFSET) ((j : Int) + c.MAZE_OFFSET) ≠ c.WALL_OBJ ∧
      p = world_cell d (i : Int) (j : Int) := by
  unfold space_cells at h
  obtain ⟨i, hi, hp⟩ := List.mem_flatMap.mp h
  obtain ⟨j, hj, hq⟩ := List.mem_filterMap.mp hp
  refine ⟨i, j, List.mem_range.mp hi, List.mem_range.mp hj, ?_⟩
  split at hq
  · rename_i hne
    exact ⟨hne, (Option.some.inj hq).symm⟩
  · cases hq

theorem place_cell_records (c : Consts) (d : Draws) (grid : Int → Int → Int)
    (g g1 : HeistGame) (i j : Int) (h : place_cell c d grid g i j = some g1) :
    (c.KEY_OBJ ≤ grid (i + c.MAZE_OFFSET) (j + c.MAZE_OFFSET) →
      key_position g1 (grid (i + c.MAZE_OFFSET) (j + c.MAZE_OFFSET) - c.KEY_OBJ - 1) =
        some (cell_centre d (maze_scale g) i j)) ∧
    (grid (i + c.MAZE_OFFSET) (j + c.MAZE_OFFSET) < c.KEY_OBJ →
      c.DOOR_OBJ ≤ grid (i + c.MAZE_OFFSET) (j + c.MAZE_OFFSET) →
      door_position g1 (grid (i + c.MAZE_OFFSET) (j + c.MAZE_OFFSET) - c.DOOR_OBJ - 1) =
        some (cell_centre d (maze_scale g) i j)) ∧
    (grid (i + c.MAZE_OFFSET) (j + c.MAZE_OFFSET) < c.KEY_OBJ →
      grid (i + c.MAZE_OFFSET) (j + c.MAZE_OFFSET) < c.DOOR_OBJ →
      grid (i + c.MAZE_OFFSET) (j + c.MAZE_OFFSET) = c.EXIT_OBJ →
      exit_position g1 = cell_centre d (maze_scale g) i j) ∧
    (grid (i + c.MAZE_OFFSET) (j + c.MAZE_OFFSET) < c.KEY_OBJ →
      grid (i + c.MAZE_OFFSET) (j + c.MAZE_OFFSET) < c.DOOR_OBJ →
      grid (i + c.MAZE_OFFSET) (j + c.MAZE_OFFSET) ≠ c.EXIT_OBJ →
      grid (i + c.MAZE_OFFSET) (j + c.MAZE_OFFSET) = c.AGENT_OBJ →
      (g1.agent_x, g1.agent_y) = cell_centre d (maze_scale g) i j) := by
  unfold place_cell at h
  simp only at h
  split at h
  · rename_i hk
    obtain ⟨kx, hkx, h⟩ := Option.bind_eq_some.mp h
    obtain ⟨ky, hky, h⟩ := Option.bind_eq_some.mp h
    cases h
    obtain ⟨x0, x1, rfl⟩ := vset_some hkx
    obtain ⟨y0, y1, rfl⟩ := vset_some hky
    refine ⟨fun _ => ?_, fun hlt => ?_, fun hlt => ?_, fun hlt => ?_⟩
    · unfold key_position
      show (vget (g.keys_x.set _ _) _).bind _ = _
      rw [vget_set_self _ _ _ x0 x1]
      show (vget (g.keys_y.set _ _) _).bind _ = _
      rw [vget_set_self _ _ _ y0 y1]
      rfl
    · omega
    · omega
    · omega
  · split at h
    · rename_i hk hd
      obtain ⟨dx, hdx, h⟩ := Option.bind_eq_some.mp h
      obtain ⟨dy, hdy, h⟩ := Option.bind_eq_some.mp h
      cases h
      obtain ⟨x0, x1, rfl⟩ := vset_some hdx
      obtain ⟨y0, y1, rfl⟩ := vset_some hdy
      refine ⟨fun hge => ?_, fun _ _ => ?_, fun _ hlt => ?_, fun _ hlt => ?_⟩
      · omega
      · unfold door_position
        show (vget (g.doors_x.set _ _) _).bind _ = _
        rw [vget_set_self _ _ _ x0 x1]
        show (vget (g.doors_y.set _ _) _).bind _ = _
        rw [vget_set_self _ _ _ y0 y1]
        rfl
      · omega
      · omega
    · split at h
      · rename_i hk hd hx
        cases h
        refine ⟨fun hge => ?_, fun _ hge => ?_, fun _ _ _ => rfl, fun _ _ hne => ?_⟩
        · omega
        · omega
        · exact absurd hx hne
      · split at h
        · rename_i hk hd hx ha
          cases h
          refine ⟨fun hge => ?_, fun _ hge => ?_, fun _ _ he => ?_, fun _ _ _ _ => rfl⟩
          · omega
          · omega
          · exact absurd he hx
        · rename_i hk hd hx ha
          cases h
          refine ⟨fun hge => ?_, fun _ hge => ?_, fun _ _ he => ?_, fun _ _ _ he => ?_⟩
          · omega
          · omega
          · exact absurd he hx
          · exact absurd he ha

theorem game_reset_agent (c : Consts) (d : Draws) (grid : Int → Int → Int)
    (g g0 : HeistGame) (i0 j0 : Nat) (hD : c.AGENT_OBJ < c.DOOR_OBJ)
    (hK : c.AGENT_OBJ < c.KEY_OBJ) (hX : c.AGENT_OBJ ≠ c.EXIT_OBJ)
    (hi : i0 < (maze_dim d g.options).toNat) (hj : j0 < (maze_dim d g.options).toNat)
    (hcell : grid (i0 + c.MAZE_OFFSET) (j0 + c.MAZE_OFFSET) = c.AGENT_OBJ)
    (honly : ∀ i j : Nat, i < (maze_dim d g.options).toNat →
      j < (maze_dim d g.options).toNat →
      grid (i + c.MAZE_OFFSET) (j + c.MAZE_OFFSET) = c.AGENT_OBJ → i = i0 ∧ j = j0)
    (h : game_reset c d grid g = some g0) :
    (g0.agent_x, g0.agent_y) = cell_centre d (maze_scale g) i0 j0 := by
  unfold game_reset at h
  obtain ⟨g1, hp, ha⟩ := Option.bind_eq_some.mp h
  rw [init_anchors_agent ha]
  have hpc := place_cells_agent c d grid _ _ g1 i0 j0 hD hK hX (by exact hi) (by exact hj)
    hcell (by exact honly) hp
  exact hpc

theorem maze_scale_one (g : HeistGame) (hh : g.main_height = g.world_dim)
    (hw : g.world_dim ≠ 0) : maze_scale g = 1 := by
  unfold maze_scale
  rw [hh, mul_one]
  exact div_self (by exact_mod_cast hw)

theorem centre_inside (a b : Int) (ha : 0 ≤ a) (hb : a < b) :
    (0 : ℚ) < ((a : ℚ) + 1 / 2) * 1 ∧ ((a : ℚ) + 1 / 2) * 1 < (b : ℚ) := by
  have h0 : (0 : ℚ) ≤ (a : ℚ) := by exact_mod_cast ha
  have h1 : (a : ℚ) + 1 ≤ (b : ℚ) := by exact_mod_cast hb
  constructor
  · linarith
  · linarith

/-- C19: for each difficulty tier (`choose_world_dim` sets `world_dim` to 9, 13
or 23) with no maze-dimension override, and `randn(k)` returning an integer in
`[0, k)`, the draws that `game_reset` makes (`reset_draws`, each call of
`randn` with the argument of the source) are in the range of their calls and
every choice of in-range draws is made by some generator; the maze dimension
`2 * difficulty + 5` is odd and between 5 and `world_dim`; both offsets are
between 0 and `world_dim - maze_dim`; the world cell of every maze cell
`(i, j)` with `0 ≤ i, j < maze_dim` is `(off_x + i, off_y + j)` and lies inside
`[0, world_dim) × [0, world_dim)`; the loop body `place_cell` records, for a
key, door, exit or agent cell, the centre `(off_x + i + 1 / 2) * maze_scale`,
`(off_y + j + 1 / 2) * maze_scale` of that world cell; every cell that the
loop sets to `SPACE` lies inside the world; in the state that `game_reset`
returns for a maze with one agent-start cell `(i0, j0)` the agent stands at
`(off_x + i0 + 1 / 2, off_y + j0 + 1 / 2)`, strictly inside the world; and
both offsets are 0 when `maze_dim = world_dim`. -/
theorem maze_inside_world (c : Consts) (g gw : HeistGame) (r : RawDraws) (d : Draws)
    (hmode : g.options.distribution_mode = c.EasyMode ∨
      g.options.distribution_mode = c.HardMode ∨
      g.options.distribution_mode = c.MemoryMode)
    (hlo : g.options.level_options_1 = -1)
    (hgw : gw = choose_world_dim c g) (hd : d = reset_draws c r gw) :
    (gw.world_dim = 9 ∨ gw.world_dim = 13 ∨ gw.world_dim = 23) ∧
    (draws_in_range c gw d ∧
      ∀ d1, draws_in_range c gw d1 → ∃ r1, reset_draws c r1 gw = d1) ∧
    maze_dim d gw.options = 2 * d.difficulty + 5 ∧
    maze_dim d gw.options % 2 = 1 ∧
    5 ≤ maze_dim d gw.options ∧
    maze_dim d gw.options ≤ gw.world_dim ∧
    (0 ≤ d.off_x ∧ d.off_x ≤ gw.world_dim - maze_dim d gw.options) ∧
    (0 ≤ d.off_y ∧ d.off_y ≤ gw.world_dim - maze_dim d gw.options) ∧
    (∀ i j : Int, 0 ≤ i → i < maze_dim d gw.options → 0 ≤ j → j < maze_dim d gw.options →
      world_cell d i j = (d.off_x + i, d.off_y + j) ∧
      (0 ≤ (world_cell d i j).1 ∧ (world_cell d i j).1 < gw.world_dim) ∧
      (0 ≤ (world_cell d i j).2 ∧ (world_cell d i j).2 < gw.world_dim)) ∧
    (∀ (grid : Int → Int → Int) (s s1 : HeistGame) (i j : Int),
      place_cell c d grid s i j = some s1 →
      cell_centre d (maze_scale s) i j =
        ((((d.off_x + i : Int) : ℚ) + 1 / 2) * maze_scale s,
          (((d.off_y + j : Int) : ℚ) + 1 / 2) * maze_scale s) ∧
      (c.KEY_OBJ ≤ grid (i + c.MAZE_OFFSET) (j + c.MAZE_OFFSET) →
        key_position s1 (grid (i + c.MAZE_OFFSET) (j + c.MAZE_OFFSET) - c.KEY_OBJ - 1) =
          some (cell_centre d (maze_scale s) i j)) ∧
      (grid (i + c.MAZE_OFFSET) (j + c.MAZE_OFFSET) < c.KEY_OBJ →
        c.DOOR_OBJ ≤ grid (i + c.MAZE_OFFSET) (j + c.MAZE_OFFSET) →
        door_position s1 (grid (i + c.MAZE_OFFSET) (j + c.MAZE_OFFSET) - c.DOOR_OBJ - 1) =
          some (cell_centre d (maze_scale s) i j)) ∧
      (grid (i + c.MAZE_OFFSET) (j + c.MAZE_OFFSET) < c.KEY_OBJ →
        grid (i + c.MAZE_OFFSET) (j + c.MAZE_OFFSET) < c.DOOR_OBJ →
        grid (i + c.MAZE_OFFSET) (j + c.MAZE_OFFSET) = c.EXIT_OBJ →
        exit_position s1 = cell_centre d (maze_scale s) i j) ∧
      (grid (i + c.MAZE_OFFSET) (j + c.MAZE_OFFSET) < c.KEY_OBJ →
        grid (i + c.MAZE_OFFSET) (j + c.MAZE_OFFSET) < c.DOOR_OBJ →
        grid (i + c.MAZE_OFFSET) (j + c.MAZE_OFFSET) ≠ c.EXIT_OBJ →
        grid (i + c.MAZE_OFFSET) (j + c.MAZE_OFFSET) = c.AGENT_OBJ →
        (s1.agent_x, s1.agent_y) = cell_centre d (maze_scale s) i j)) ∧
    (∀ (grid : Int → Int → Int) (p : Int × Int),
      p ∈ space_cells c d grid (maze_dim d gw.options) →
      (0 ≤ p.1 ∧ p.1 < gw.world_dim) ∧ (0 ≤ p.2 ∧ p.2 < gw.world_dim)) ∧
    (∀ (grid : Int → Int → Int) (g0 : HeistGame) (i0 j0 : Nat),
      game_reset_drawn c r grid gw = some g0 →
      c.AGENT_OBJ < c.DOOR_OBJ → c.AGENT_OBJ < c.KEY_OBJ → c.AGENT_OBJ ≠ c.EXIT_OBJ →
      i0 < (maze_dim d gw.options).toNat → j0 < (maze_dim d gw.options).toNat →
      grid (i0 + c.MAZE_OFFSET) (j0 + c.MAZE_OFFSET) = c.AGENT_OBJ →
      (∀ i j : Nat, i < (maze_dim d gw.options).toNat → j < (maze_dim d gw.options).toNat →
        grid (i + c.MAZE_OFFSET) (j + c.MAZE_OFFSET) = c.AGENT_OBJ → i = i0 ∧ j = j0) →
      (g0.agent_x, g0.agent_y) =
        ((((d.off_x + i0 : Int) : ℚ) + 1 / 2) * 1, (((d.off_y + j0 : Int) : ℚ) + 1 / 2) * 1) ∧
      (0 < g0.agent_x ∧ g0.agent_x < (gw.world_dim : ℚ)) ∧
      (0 < g0.agent_y ∧ g0.agent_y < (gw.world_dim : ℚ))) ∧
    (maze_dim d gw.options = gw.world_dim → d.off_x = 0 ∧ d.off_y = 0) := by
  obtain ⟨ho, hw, -, hmh⟩ := choose_world_dim_fields c g hmode
  rw [← hgw] at ho hw hmh
  have hlo1 : gw.options.level_options_1 = -1 := by rw [ho]; exact hlo
  have hrange : draws_in_range c gw d := by
    rw [hd]
    exact reset_draws_in_range c r gw hw hlo1
  obtain ⟨hm, hd0, hle, ⟨hx0, hx1⟩, ⟨hy0, hy1⟩⟩ := maze_bounds_of_draws c gw d hw hlo1 hrange
  have hcells : ∀ i j : Int, 0 ≤ i → i < maze_dim d gw.options → 0 ≤ j →
      j < maze_dim d gw.options →
      world_cell d i j = (d.off_x + i, d.off_y + j) ∧
      (0 ≤ (world_cell d i j).1 ∧ (world_cell d i j).1 < gw.world_dim) ∧
      (0 ≤ (world_cell d i j).2 ∧ (world_cell d i j).2 < gw.world_dim) := by
    intro i j hi0 hi1 hj0 hj1
    refine ⟨rfl, ⟨?_, ?_⟩, ⟨?_, ?_⟩⟩
    · show 0 ≤ d.off_x + i
      omega
    · show d.off_x + i < gw.world_dim
      omega
    · show 0 ≤ d.off_y + j
      omega
    · show d.off_y + j < gw.world_dim
      omega
  refine ⟨hw, ⟨hrange, fun d1 h1 => ⟨_, reset_draws_onto c gw d1 hlo1 h1⟩⟩, hm, ?_, ?_, hle,
    ⟨hx0, hx1⟩, ⟨hy0, hy1⟩, hcells, ?_, ?_, ?_, ?_⟩
  · rw [hm]
    omega
  · rw [hm]
    omega
  · intro grid s s1 i j hp
    exact ⟨rfl, place_cell_records c d grid s s1 i j hp⟩
  · intro grid p hp
    obtain ⟨i, j, hi, hj, -, rfl⟩ := mem_space_cells hp
    have h := hcells i j (by omega) (by omega) (by omega) (by omega)
    exact h.2
  · intro grid g0 i0 j0 hrun hD hK hX hi hj hcell honly
    unfold game_reset_drawn at hrun
    rw [← hd] at hrun
    have hag := game_reset_agent c d grid gw g0 i0 j0 hD hK hX hi hj hcell honly hrun
    have hsc : maze_scale gw = 1 := by
      apply maze_scale_one gw hmh
      rcases hw with hw | hw | hw <;> rw [hw] <;> decide
    rw [hsc] at hag
    have hb := (hcells i0 j0 (by omega) (by omega) (by omega) (by omega)).2
    have hxy : (g0.agent_x, g0.agent_y) =
        ((((d.off_x + i0 : Int) : ℚ) + 1 / 2) * 1, (((d.off_y + j0 : Int) : ℚ) + 1 / 2) * 1) :=
      hag
    have hax : g0.agent_x = (((d.off_x + i0 : Int) : ℚ) + 1 / 2) * 1 :=
      congrArg Prod.fst hxy
    have hay : g0.agent_y = (((d.off_y + j0 : Int) : ℚ) + 1 / 2) * 1 :=
      congrArg Prod.snd hxy
    refine ⟨hxy, ?_, ?_⟩
    · rw [hax]
      exact centre_inside _ _ hb.1.1 hb.1.2
    · rw [hay]
      exact centre_inside _ _ hb.2.1 hb.2.2
  · intro he
    exact ⟨by omega, by omega⟩

theorem example_world_chosen :
    example_start = choose_world_dim example_consts example_start := by
  decide!

theorem example_draws_made :
    example_draws = reset_draws example_consts example_raw example_start := by
  decide!

theorem example_game_reset_drawn :
    game_reset_drawn example_consts example_raw example_grid example_start =
      some example_reset := by
  decide!

/-- C19, on the worked example: the small world (dimension 9), the generator
numbers 7, 3, 4, 6 give difficulty 1 and a maze of dimension 7 at offset
`(1, 0)`; the key cell `(2, 0)` is recorded at the centre `(7 / 2, 1 / 2)` of
the world cell `(3, 0)`, and the agent starts at `(3 / 2, 1 / 2)`. -/
theorem maze_inside_world_witness :
    (example_start.options.distribution_mode = example_consts.EasyMode ∨
      example_start.options.distribution_mode = example_consts.HardMode ∨
      example_start.options.distribution_mode = example_consts.MemoryMode) ∧
    example_start.options.level_options_1 = -1 ∧
    example_start = choose_world_dim example_consts example_start ∧
    example_draws = reset_draws example_consts example_raw example_start ∧
    draws_in_range example_consts example_start example_draws ∧
    maze_dim example_draws example_start.options = 2 * example_draws.difficulty + 5 ∧
    maze_dim example_draws example_start.options ≤ example_start.world_dim ∧
    world_cell example_draws 2 0 = (example_draws.off_x + 2, example_draws.off_y + 0) ∧
    game_reset_drawn example_consts example_raw example_grid example_start =
      some example_reset ∧
    (example_reset.agent_x, example_reset.agent_y) =
      ((((example_draws.off_x + (0 : Nat) : Int) : ℚ) + 1 / 2) * 1,
        (((example_draws.off_y + (0 : Nat) : Int) : ℚ) + 1 / 2) * 1) ∧
    (0 < example_reset.agent_x ∧ example_reset.agent_x < (example_start.world_dim : ℚ)) ∧
    (example_reset.agent_x, example_reset.agent_y) = (3 / 2, 1 / 2) :=
  have h := maze_inside_world example_consts example_start example_start example_raw
    example_draws (Or.inl rfl) rfl example_world_chosen example_draws_made
  have ha := h.2.2.2.2.2.2.2.2.2.2.2.1 example_grid example_reset 0 0
    example_game_reset_drawn (by decide) (by decide) (by decide) (by decide) (by decide)
    (by decide) (fun i j _ _ hg => example_agent_cell_only i j hg)
  ⟨Or.inl rfl, rfl, example_world_chosen, example_draws_made, h.2.1.1, h.2.2.1,
    h.2.2.2.2.2.1,
    (h.2.2.2.2.2.2.2.2.1 2 0 (by decide) (by decide) (by decide) (by decide)).1,
    example_game_reset_drawn, ha.1, ha.2.1, by decide!⟩


end HeistGame
